import Mathlib

/-!
# copilot-go: protocol translation, verified over a shallow embedding

The definitions below transcribe the Go sources of the gateway
(package `messages` and the wire types of package `copilot`) into pure Lean
functions.  Mutable state passed by pointer becomes explicit state passing:
a Go function `f(x, state *S) (out, error)` becomes `f x s : out × S`.

Conventions
* Go `*T` (nullable pointer) is `Option T`; Go slices are `List`.
* Go `int` is `Int`.  `ContentBlockIndex++` is modelled as exact `+ 1`
  (the counter grows by one per closed block).  Subtraction on token counts
  read from the wire is modelled with 64-bit two's-complement wrap-around
  (`wrapInt64`).
* `map[int]anthropicToolCallState` is an association list with at most one
  entry per key (`mapInsert` removes a previous entry for the key).
* An SSE event is kept as the typed payload that the Go code hands to
  `json.Marshal`; `SSEEvent.Type` is the `Type` string of the Go `SSEEvent`.
  `json.Marshal` cannot fail on these payloads (strings, ints, string maps),
  so the `error` result of `TranslateChunkToAnthropicEvents` is always `nil`
  and is not represented.
* A Go function that can return an error returns `Except String _`.
* Go `interface{}` values are `GoValue`.  The `json.Marshal` /
  `json.Unmarshal` round trip of `ensureBlocksSlice` belongs to the standard
  library `encoding/json` and is a parameter (`JSONReparse`) of the functions
  that reach it.  Likewise `json.Unmarshal` of tool-call arguments
  (`unmarshalObject`), of a frame payload (`decodeChunk`), and the calls
  that `AnthropicContentBlock.UnmarshalJSON` makes (`BlockDecoders`).
* `Reader.ReadSSE` is a function of the lines that `bufio.Scanner` yields,
  and `forwardMessagesStream` a function of the frames that the channel
  delivers; the contexts are not cancelled and every frame sent is received.
* `json.Marshal` of a tool-use input map is the parameter `marshalObject`
  of `handleAssistantMessage` and of the functions that call it; it is total,
  since `json.Marshal` cannot fail on the values of `GoValue`, and `ensureMap`
  returns a map unchanged, so the two error exits of the tool-call loop are
  not represented.  `float64` request fields are rationals (they are only
  passed through).
* A Go struct field called `Type` is called `Kind`.
-/

namespace CopilotGo

/-! ## Upstream wire types (services/copilot/chat_completions.go) -/

structure ToolCallFunction where
  Name : String
  Arguments : String
deriving DecidableEq, Repr

/-- Go `ToolCall`; the Go field `Type` is called `Kind` here. -/
structure ToolCall where
  Index : Int
  ID : String
  Kind : String
  Function : ToolCallFunction
deriving DecidableEq, Repr

structure Delta where
  Content : Option String
  Role : Option String
  ToolCalls : List ToolCall
deriving DecidableEq, Repr

structure Choice where
  Index : Int
  Delta : Delta
  FinishReason : Option String
deriving DecidableEq, Repr

structure PromptTokensDetails where
  CachedTokens : Int
deriving DecidableEq, Repr

structure UsageDetails where
  PromptTokens : Int
  CompletionTokens : Int
  TotalTokens : Int
  PromptTokensDetails : Option PromptTokensDetails
deriving DecidableEq, Repr

/-- Go `ChatCompletionChunk` (fields `Object`, `Created`, `SystemFingerprint`
are never read by the translator and are left out). -/
structure ChatCompletionChunk where
  ID : String
  Model : String
  Choices : List Choice
  Usage : Option UsageDetails
deriving DecidableEq, Repr

/-! ## Anthropic stream types (messages/types.go) -/

structure AnthropicUsage where
  InputTokens : Int
  OutputTokens : Int
  CacheCreationInputTokens : Option Int
  CacheReadInputTokens : Option Int
  ServiceTier : Option String
deriving DecidableEq, Repr

structure anthropicToolCallState where
  ID : String
  Name : String
  AnthropicBlockIndex : Int
deriving DecidableEq, Repr

structure AnthropicStreamState where
  MessageStartSent : Bool
  ContentBlockIndex : Int
  ContentBlockOpen : Bool
  ToolCalls : List (Int × anthropicToolCallState)
deriving DecidableEq, Repr

/-- The `content_block` payload of a `content_block_start` event:
`{"type":"text","text":""}` or
`{"type":"tool_use","id":..,"name":..,"input":{}}`. -/
inductive ContentBlockPayload where
  | text (text : String)
  | tool_use (id : String) (name : String)
deriving DecidableEq, Repr

/-- The `delta` payload of a `content_block_delta` event. -/
inductive BlockDelta where
  | text_delta (text : String)
  | input_json_delta (partialJSON : String)
deriving DecidableEq, Repr

/-- The typed event payloads built by `TranslateChunkToAnthropicEvents`
before marshalling. -/
inductive SSEEvent where
  | message_start (id : String) (model : String) (usage : AnthropicUsage)
  | content_block_start (index : Int) (block : ContentBlockPayload)
  | content_block_delta (index : Int) (delta : BlockDelta)
  | content_block_stop (index : Int)
  | message_delta (stopReason : Option String) (usage : AnthropicUsage)
  | message_stop
deriving DecidableEq, Repr

/-- The `Type` field of the Go `SSEEvent`. -/
def SSEEvent.Type : SSEEvent → String
  | .message_start _ _ _ => "message_start"
  | .content_block_start _ _ => "content_block_start"
  | .content_block_delta _ _ => "content_block_delta"
  | .content_block_stop _ => "content_block_stop"
  | .message_delta _ _ => "message_delta"
  | .message_stop => "message_stop"

/-! ## Go maps as association lists -/

/-- Go `m[k] = v`. -/
def mapInsert (m : List (Int × anthropicToolCallState)) (k : Int)
    (v : anthropicToolCallState) : List (Int × anthropicToolCallState) :=
  (k, v) :: m.filter (fun p => p.1 != k)

/-- Go `v, ok := m[k]`. -/
def mapLookup (m : List (Int × anthropicToolCallState)) (k : Int) :
    Option anthropicToolCallState :=
  (m.find? (fun p => p.1 == k)).map Prod.snd

/-! ## messages/utils.go -/

def mapOpenAIStopReasonToAnthropic : Option String → Option String
  | none => none
  | some reason =>
    if reason = "stop" then some "end_turn"
    else if reason = "length" then some "max_tokens"
    else if reason = "tool_calls" then some "tool_use"
    else if reason = "content_filter" then some "end_turn"
    else none

/-! ## messages/stream.go -/

/-- Two's-complement wrap-around of a 64-bit Go `int`. -/
def wrapInt64 (x : Int) : Int :=
  (x + 2 ^ 63) % 2 ^ 64 - 2 ^ 63

def NewStreamState : AnthropicStreamState :=
  { MessageStartSent := false
    ContentBlockIndex := 0
    ContentBlockOpen := false
    ToolCalls := [] }

def isToolBlockOpen (state : AnthropicStreamState) : Bool :=
  if !state.ContentBlockOpen then false
  else state.ToolCalls.any
    (fun tc => tc.2.AnthropicBlockIndex == state.ContentBlockIndex)

def chunkUsagePromptTokens (chunk : ChatCompletionChunk) : Int :=
  match chunk.Usage with
  | none => 0
  | some usage =>
    match usage.PromptTokensDetails with
    | none => usage.PromptTokens
    | some details => wrapInt64 (usage.PromptTokens - details.CachedTokens)

def chunkUsageCachedPromptTokens (chunk : ChatCompletionChunk) : Option Int :=
  match chunk.Usage with
  | none => none
  | some usage =>
    match usage.PromptTokensDetails with
    | none => none
    | some details => some details.CachedTokens

def chunkUsageCompletionTokens (chunk : ChatCompletionChunk) : Int :=
  match chunk.Usage with
  | none => 0
  | some usage => usage.CompletionTokens

/-- The `usage` of the `message_start` event (lines 45-53 of stream.go). -/
def messageStartUsage (chunk : ChatCompletionChunk) : AnthropicUsage :=
  { InputTokens := chunkUsagePromptTokens chunk
    OutputTokens := 0
    CacheCreationInputTokens := none
    CacheReadInputTokens := chunkUsageCachedPromptTokens chunk
    ServiceTier := none }

/-- The `usage` of the `message_delta` event (lines 194-202 of stream.go). -/
def messageDeltaUsage (chunk : ChatCompletionChunk) : AnthropicUsage :=
  { InputTokens := chunkUsagePromptTokens chunk
    OutputTokens := chunkUsageCompletionTokens chunk
    CacheCreationInputTokens := none
    CacheReadInputTokens := chunkUsageCachedPromptTokens chunk
    ServiceTier := none }

/-- Lines 34-61 of stream.go: the `message_start` event of the first call. -/
def messageStartStep (chunk : ChatCompletionChunk)
    (state : AnthropicStreamState) : List SSEEvent × AnthropicStreamState :=
  if !state.MessageStartSent then
    ([SSEEvent.message_start chunk.ID chunk.Model (messageStartUsage chunk)],
      { state with MessageStartSent := true })
  else ([], state)

/-- Lines 63-108 of stream.go: the text delta of the first choice. -/
def textDeltaStep (content : Option String)
    (state : AnthropicStreamState) : List SSEEvent × AnthropicStreamState :=
  match content with
  | none => ([], state)
  | some text =>
    let r1 : List SSEEvent × AnthropicStreamState :=
      if state.ContentBlockOpen && isToolBlockOpen state then
        ([SSEEvent.content_block_stop state.ContentBlockIndex],
          { state with
            ContentBlockIndex := state.ContentBlockIndex + 1
            ContentBlockOpen := false })
      else ([], state)
    let r2 : List SSEEvent × AnthropicStreamState :=
      if !r1.2.ContentBlockOpen then
        ([SSEEvent.content_block_start r1.2.ContentBlockIndex
            (ContentBlockPayload.text "")],
          { r1.2 with ContentBlockOpen := true })
      else ([], r1.2)
    (r1.1 ++ r2.1 ++
      [SSEEvent.content_block_delta r2.2.ContentBlockIndex
        (BlockDelta.text_delta text)], r2.2)

/-- Lines 112-149 of stream.go: a fragment with id and name opens a
`tool_use` block and registers its upstream index. -/
def toolCallRegisterStep (toolCall : ToolCall)
    (state : AnthropicStreamState) : List SSEEvent × AnthropicStreamState :=
  if toolCall.ID ≠ "" ∧ toolCall.Function.Name ≠ "" then
    let r1 : List SSEEvent × AnthropicStreamState :=
      if state.ContentBlockOpen then
        ([SSEEvent.content_block_stop state.ContentBlockIndex],
          { state with
            ContentBlockIndex := state.ContentBlockIndex + 1
            ContentBlockOpen := false })
      else ([], state)
    let s2 : AnthropicStreamState :=
      { r1.2 with
        ToolCalls := mapInsert r1.2.ToolCalls toolCall.Index
          { ID := toolCall.ID
            Name := toolCall.Function.Name
            AnthropicBlockIndex := r1.2.ContentBlockIndex } }
    (r1.1 ++
      [SSEEvent.content_block_start s2.ContentBlockIndex
        (ContentBlockPayload.tool_use toolCall.ID toolCall.Function.Name)],
      { s2 with ContentBlockOpen := true })
  else ([], state)

/-- Lines 151-167 of stream.go: argument text of a registered fragment. -/
def toolCallArgumentsStep (toolCall : ToolCall)
    (state : AnthropicStreamState) : List SSEEvent × AnthropicStreamState :=
  if toolCall.Function.Arguments ≠ "" then
    match mapLookup state.ToolCalls toolCall.Index with
    | some info =>
      ([SSEEvent.content_block_delta info.AnthropicBlockIndex
          (BlockDelta.input_json_delta toolCall.Function.Arguments)], state)
    | none => ([], state)
  else ([], state)

/-- The body of the loop over `delta.ToolCalls` (lines 111-168). -/
def toolCallStep (toolCall : ToolCall)
    (state : AnthropicStreamState) : List SSEEvent × AnthropicStreamState :=
  let r1 := toolCallRegisterStep toolCall state
  let r2 := toolCallArgumentsStep toolCall r1.2
  (r1.1 ++ r2.1, r2.2)

/-- The loop over `delta.ToolCalls` (lines 110-169). -/
def toolCallsStep : List ToolCall → AnthropicStreamState →
    List SSEEvent × AnthropicStreamState
  | [], state => ([], state)
  | toolCall :: rest, state =>
    let r1 := toolCallStep toolCall state
    let r2 := toolCallsStep rest r1.2
    (r1.1 ++ r2.1, r2.2)

/-- Lines 171-216 of stream.go: the finish reason of the first choice. -/
def finishStep (chunk : ChatCompletionChunk) (finishReason : Option String)
    (state : AnthropicStreamState) : List SSEEvent × AnthropicStreamState :=
  match finishReason with
  | none => ([], state)
  | some reason =>
    if reason ≠ "" then
      let r1 : List SSEEvent × AnthropicStreamState :=
        if state.ContentBlockOpen then
          ([SSEEvent.content_block_stop state.ContentBlockIndex],
            { state with ContentBlockOpen := false })
        else ([], state)
      (r1.1 ++
        [SSEEvent.message_delta
          (mapOpenAIStopReasonToAnthropic (some reason))
          (messageDeltaUsage chunk),
         SSEEvent.message_stop], r1.2)
    else ([], state)

/-- The events of a chunk before its finish reason is looked at
(lines 34-169): message start, text delta, tool-call deltas. -/
def translateDeltas (chunk : ChatCompletionChunk) (choice : Choice)
    (state : AnthropicStreamState) : List SSEEvent × AnthropicStreamState :=
  let r1 := messageStartStep chunk state
  let r2 := textDeltaStep choice.Delta.Content r1.2
  let r3 := toolCallsStep choice.Delta.ToolCalls r2.2
  (r1.1 ++ r2.1 ++ r3.1, r3.2)

def TranslateChunkToAnthropicEvents (chunk : ChatCompletionChunk)
    (state : AnthropicStreamState) : List SSEEvent × AnthropicStreamState :=
  match chunk.Choices with
  | [] => ([], state)
  | choice :: _ =>
    let r1 := translateDeltas chunk choice state
    let r2 := finishStep chunk choice.FinishReason r1.2
    (r1.1 ++ r2.1, r2.2)

/-- Successive calls of `TranslateChunkToAnthropicEvents` on one stream
state, the events concatenated in order: what `forwardMessagesStream`
writes for a sequence of decoded chunks. -/
def translateChunks : List ChatCompletionChunk → AnthropicStreamState →
    List SSEEvent × AnthropicStreamState
  | [], state => ([], state)
  | chunk :: rest, state =>
    let r1 := TranslateChunkToAnthropicEvents chunk state
    let r2 := translateChunks rest r1.2
    (r1.1 ++ r2.1, r2.2)

/-! ## Observations on event lists -/

def SSEEvent.isMessageStart : SSEEvent → Bool
  | .message_start _ _ _ => true
  | _ => false

def SSEEvent.isBlockStart : SSEEvent → Bool
  | .content_block_start _ _ => true
  | _ => false

def SSEEvent.isBlockDelta : SSEEvent → Bool
  | .content_block_delta _ _ => true
  | _ => false

def SSEEvent.isTextDelta : SSEEvent → Bool
  | .content_block_delta _ (.text_delta _) => true
  | _ => false

def SSEEvent.isInputJSONDelta : SSEEvent → Bool
  | .content_block_delta _ (.input_json_delta _) => true
  | _ => false

def SSEEvent.isBlockStop : SSEEvent → Bool
  | .content_block_stop _ => true
  | _ => false

def SSEEvent.isMessageDelta : SSEEvent → Bool
  | .message_delta _ _ => true
  | _ => false

def SSEEvent.isMessageStop : SSEEvent → Bool
  | .message_stop => true
  | _ => false

/-- The `index` field of the three content-block events. -/
def SSEEvent.blockIndex : SSEEvent → Option Int
  | .content_block_start i _ => some i
  | .content_block_delta i _ => some i
  | .content_block_stop i => some i
  | _ => none

/-- Indices of the `content_block_start` events, in emission order. -/
def startIndices (events : List SSEEvent) : List Int :=
  events.filterMap fun e =>
    match e with
    | .content_block_start i _ => some i
    | _ => none

/-- Indices of the `content_block_stop` events, in emission order. -/
def stopIndices (events : List SSEEvent) : List Int :=
  events.filterMap fun e =>
    match e with
    | .content_block_stop i => some i
    | _ => none

/-- The chunk has a first choice whose finish reason is present and
non-empty (the test of line 171 of stream.go). -/
def hasFinishReason (chunk : ChatCompletionChunk) : Bool :=
  match chunk.Choices with
  | [] => false
  | choice :: _ =>
    match choice.FinishReason with
    | none => false
    | some reason => reason != ""

/-- A text-only chunk: its first choice has content, no tool calls and no
(or an empty) finish reason. -/
def isTextOnlyChunk (chunk : ChatCompletionChunk) : Bool :=
  match chunk.Choices with
  | [] => false
  | choice :: _ =>
    choice.Delta.Content.isSome && choice.Delta.ToolCalls.isEmpty
      && !hasFinishReason chunk

/-- A finish chunk: its first choice has no content, no tool calls and a
non-empty finish reason. -/
def isFinishOnlyChunk (chunk : ChatCompletionChunk) : Bool :=
  match chunk.Choices with
  | [] => false
  | choice :: _ =>
    choice.Delta.Content.isNone && choice.Delta.ToolCalls.isEmpty
      && hasFinishReason chunk

/-- The content fragment of the first choice of a chunk (empty when the
chunk has no choice or no content). -/
def chunkText (chunk : ChatCompletionChunk) : String :=
  match chunk.Choices with
  | [] => ""
  | choice :: _ => choice.Delta.Content.getD ""

/-- The finish reason of the first choice of a chunk. -/
def chunkFinishReason (chunk : ChatCompletionChunk) : Option String :=
  match chunk.Choices with
  | [] => none
  | choice :: _ => choice.FinishReason

/-- The state while the first text block is open and no tool call has been
registered. -/
def textOpenState : AnthropicStreamState :=
  { MessageStartSent := true
    ContentBlockIndex := 0
    ContentBlockOpen := true
    ToolCalls := [] }

/-- A text chunk with content "Hi" and no finish reason. -/
def hiChunk : ChatCompletionChunk :=
  { ID := "chatcmpl-1"
    Model := "gpt-4o"
    Choices := [{ Index := 0
                  Delta := { Content := some "Hi", Role := none, ToolCalls := [] }
                  FinishReason := none }]
    Usage := none }

/-- A chunk with no content and finish reason "stop". -/
def stopChunk : ChatCompletionChunk :=
  { ID := "chatcmpl-1"
    Model := "gpt-4o"
    Choices := [{ Index := 0
                  Delta := { Content := none, Role := none, ToolCalls := [] }
                  FinishReason := some "stop" }]
    Usage := none }

/-- The block that the state considers open, if any. -/
def openBlock (state : AnthropicStreamState) : Option Int :=
  if state.ContentBlockOpen then some state.ContentBlockIndex else none

/-- Replays the `content_block_start` / `content_block_stop` events of an
event list against the currently open block `cur`: a start is only allowed
when no block is open, a stop only for the block that is open.  Returns the
block left open at the end, or `none` when an event is out of place. -/
def blockScan : Option Int → List SSEEvent → Option (Option Int)
  | cur, [] => some cur
  | cur, SSEEvent.content_block_start i _ :: rest =>
    if cur = none then blockScan (some i) rest else none
  | cur, SSEEvent.content_block_stop i :: rest =>
    if cur = some i then blockScan none rest else none
  | cur, SSEEvent.message_start _ _ _ :: rest => blockScan cur rest
  | cur, SSEEvent.content_block_delta _ _ :: rest => blockScan cur rest
  | cur, SSEEvent.message_delta _ _ :: rest => blockScan cur rest
  | cur, SSEEvent.message_stop :: rest => blockScan cur rest

/-- The `content_block_start` and `content_block_stop` events of a list. -/
def blockEvents (events : List SSEEvent) : List SSEEvent :=
  events.filter fun e => e.isBlockStart || e.isBlockStop

/-- A list of start/stop events strictly alternates, beginning with a start,
and every stop carries the index of the start right before it. -/
def startStopAlternate : List SSEEvent → Bool
  | [] => true
  | [SSEEvent.content_block_start _ _] => true
  | SSEEvent.content_block_start i _ :: SSEEvent.content_block_stop j :: rest =>
    i == j && startStopAlternate rest
  | _ => false

/-- Whether the last start/stop event of the list is a start (`acc` when
the list has no such event). -/
def lastBlockEventIsStart : Bool → List SSEEvent → Bool
  | acc, [] => acc
  | _, SSEEvent.content_block_start _ _ :: rest => lastBlockEventIsStart true rest
  | _, SSEEvent.content_block_stop _ :: rest => lastBlockEventIsStart false rest
  | acc, SSEEvent.message_start _ _ _ :: rest => lastBlockEventIsStart acc rest
  | acc, SSEEvent.content_block_delta _ _ :: rest => lastBlockEventIsStart acc rest
  | acc, SSEEvent.message_delta _ _ :: rest => lastBlockEventIsStart acc rest
  | acc, SSEEvent.message_stop :: rest => lastBlockEventIsStart acc rest

/-- The number of blocks opened so far according to the state: the current
index, plus one when the block at that index is open. -/
def blocksOpened (state : AnthropicStreamState) : Int :=
  state.ContentBlockIndex + (if state.ContentBlockOpen then 1 else 0)

/-- The `k` consecutive integers `base, base + 1, ..`. -/
def consecutiveFrom (base : Int) (k : Nat) : List Int :=
  (List.range k).map fun (j : Nat) => base + (j : Int)

/-- A chunk whose first choice opens a tool call (id "call_1", name "f"). -/
def toolStartChunk : ChatCompletionChunk :=
  { ID := "chatcmpl-1"
    Model := "gpt-4o"
    Choices := [{ Index := 0
                  Delta := { Content := none
                             Role := none
                             ToolCalls := [{ Index := 0
                                             ID := "call_1"
                                             Kind := "function"
                                             Function := { Name := "f", Arguments := "" } }] }
                  FinishReason := none }]
    Usage := none }

/-- One of the three content-block events. -/
def SSEEvent.isContentBlockEvent (e : SSEEvent) : Bool :=
  e.isBlockStart || e.isBlockDelta || e.isBlockStop

/-- The chunk has at least one choice. -/
def hasChoice (chunk : ChatCompletionChunk) : Bool :=
  !chunk.Choices.isEmpty

/-- A chunk with content "x" and no finish reason. -/
def lateTextChunk : ChatCompletionChunk :=
  { ID := "chatcmpl-1"
    Model := "gpt-4o"
    Choices := [{ Index := 0
                  Delta := { Content := some "x", Role := none, ToolCalls := [] }
                  FinishReason := none }]
    Usage := none }

/-- A finish chunk with usage: prompt_tokens 100, completion_tokens 30,
cached_tokens 20. -/
def usageChunk : ChatCompletionChunk :=
  { ID := "chatcmpl-1"
    Model := "gpt-4o"
    Choices := [{ Index := 0
                  Delta := { Content := none, Role := none, ToolCalls := [] }
                  FinishReason := some "stop" }]
    Usage := some { PromptTokens := 100
                    CompletionTokens := 30
                    TotalTokens := 130
                    PromptTokensDetails := some { CachedTokens := 20 } } }

/-- The fragment carries both a non-empty id and a non-empty function name
(the test of line 112 of stream.go): it registers its upstream index. -/
def ToolCall.registers (toolCall : ToolCall) : Bool :=
  toolCall.ID != "" && toolCall.Function.Name != ""

/-- The phases that one call of `TranslateChunkToAnthropicEvents` runs in
order, one `toolCall` step per tool-call fragment. -/
inductive Step where
  | messageStart (chunk : ChatCompletionChunk)
  | textDelta (content : Option String)
  | toolCall (fragment : ToolCall)
  | finish (chunk : ChatCompletionChunk) (reason : Option String)
deriving DecidableEq

def Step.run : Step → AnthropicStreamState → List SSEEvent × AnthropicStreamState
  | .messageStart chunk, state => messageStartStep chunk state
  | .textDelta content, state => textDeltaStep content state
  | .toolCall fragment, state => toolCallStep fragment state
  | .finish chunk reason, state => finishStep chunk reason state

def runSteps : List Step → AnthropicStreamState →
    List SSEEvent × AnthropicStreamState
  | [], state => ([], state)
  | step :: rest, state =>
    let r1 := step.run state
    let r2 := runSteps rest r1.2
    (r1.1 ++ r2.1, r2.2)

/-- The step does not register upstream index `u`: it is not a tool-call
fragment with id and name whose index is `u`. -/
def Step.keeps (u : Int) : Step → Bool
  | .toolCall fragment => !fragment.registers || fragment.Index != u
  | _ => true

/-- The phases of one call, in the order in which the Go code runs them. -/
def chunkSteps (chunk : ChatCompletionChunk) : List Step :=
  match chunk.Choices with
  | [] => []
  | choice :: _ =>
    Step.messageStart chunk :: Step.textDelta choice.Delta.Content ::
      (choice.Delta.ToolCalls.map Step.toolCall ++
        [Step.finish chunk choice.FinishReason])

/-- A chunk whose first choice carries the single tool-call fragment
`toolCall`. -/
def toolChunk (toolCall : ToolCall) : ChatCompletionChunk :=
  { ID := "chatcmpl-1"
    Model := "gpt-4o"
    Choices := [{ Index := 0
                  Delta := { Content := none, Role := none, ToolCalls := [toolCall] }
                  FinishReason := none }]
    Usage := none }

/-- First fragment of the tool call with upstream index `u`. -/
def startFragment (u : Int) (id : String) (name : String) : ToolCall :=
  { Index := u, ID := id, Kind := "function",
    Function := { Name := name, Arguments := "" } }

/-- Argument fragment for the tool call with upstream index `u`. -/
def argsFragment (u : Int) (text : String) : ToolCall :=
  { Index := u, ID := "", Kind := "",
    Function := { Name := "", Arguments := text } }

/-- A chunk with no content and finish reason "tool_calls". -/
def toolCallsFinishChunk : ChatCompletionChunk :=
  { ID := "chatcmpl-1"
    Model := "gpt-4o"
    Choices := [{ Index := 0
                  Delta := { Content := none, Role := none, ToolCalls := [] }
                  FinishReason := some "tool_calls" }]
    Usage := none }

/-- The interleaved sequence start(0), start(1), args(0), args(1), args(0),
finish("tool_calls"). -/
def interleavedChunks : List ChatCompletionChunk :=
  [toolChunk (startFragment 0 "call_a" "f"),
   toolChunk (startFragment 1 "call_b" "g"),
   toolChunk (argsFragment 0 "\x7b\"a\""),
   toolChunk (argsFragment 1 "\x7b\"b\""),
   toolChunk (argsFragment 0 ":1\x7d"),
   toolCallsFinishChunk]

/-! ## Upstream messages (services/copilot/chat_completions.go) -/

structure ContentImage where
  URL : String
  Detail : Option String
deriving DecidableEq, Repr

/-- Go `ContentPart`; the Go field `Type` is called `Kind` here. -/
structure ContentPart where
  Kind : String
  Text : Option String
  ImageURL : Option ContentImage
deriving DecidableEq, Repr

/-- Go `MessageContent`: a string, a part list, or neither (JSON `null`). -/
structure MessageContent where
  StringValue : Option String
  Parts : List ContentPart
deriving DecidableEq, Repr

structure Message where
  Role : String
  Content : MessageContent
  Name : Option String
  ToolCalls : List ToolCall
  ToolCallID : Option String
deriving DecidableEq, Repr

/-! ## Anthropic request types (messages/types.go) -/

/-- Go `AnthropicImageSource`; the Go field `Type` is called `Kind` here. -/
structure AnthropicImageSource where
  Kind : String
  MediaType : String
  Data : String
deriving DecidableEq, Repr

/-- Go `AnthropicContentBlock`, with the type `α` of the dynamically typed
fields (`Content interface{}` and the values of `Input
map[string]interface{}`) left open; `Input = none` is the nil map.  The Go
field `Type` is called `Kind` here. -/
structure AnthropicContentBlockOf (α : Type) where
  Kind : String
  Text : Option String
  Source : Option AnthropicImageSource
  ToolUseID : Option String
  Content : α
  IsError : Option Bool
  ID : Option String
  Name : Option String
  Input : Option (List (String × α))
  Thinking : Option String
  Signature : Option String

/-- The values of Go `interface{}` that this code tells apart: what
`json.Unmarshal` stores in an `interface{}` (nil, bool, float64, string,
`[]interface{}`, `map[string]interface{}`) and the typed slice
`[]AnthropicContentBlock`. -/
inductive GoValue where
  | nil
  | bool (value : Bool)
  | number (value : Rat)
  | string (value : String)
  | slice (items : List GoValue)
  | object (fields : List (String × GoValue))
  | blocks (items : List (AnthropicContentBlockOf GoValue))

abbrev AnthropicContentBlock := AnthropicContentBlockOf GoValue

structure AnthropicTextBlock where
  Kind : String
  Text : String
deriving DecidableEq, Repr

structure AnthropicThinkingBlock where
  Kind : String
  Thinking : String
  Signature : String
deriving DecidableEq, Repr

structure AnthropicToolResultBlock where
  Kind : String
  ToolUseID : String
  Content : GoValue
  IsError : Option Bool

/-- Go `AnthropicMessageContent`: a string or a block list. -/
structure AnthropicMessageContent where
  String : Option String
  Blocks : List AnthropicContentBlock

structure AnthropicMessage where
  Role : String
  Content : AnthropicMessageContent

def AnthropicContentBlockOf.AsText (b : AnthropicContentBlock) :
    Option AnthropicTextBlock :=
  if b.Kind ≠ "text" then none
  else
    match b.Text with
    | none => none
    | some text => some { Kind := "text", Text := text }

def AnthropicContentBlockOf.AsThinking (b : AnthropicContentBlock) :
    Option AnthropicThinkingBlock :=
  if b.Kind ≠ "thinking" then none
  else
    match b.Thinking with
    | none => none
    | some thinking =>
      some { Kind := "thinking", Thinking := thinking,
             Signature := b.Signature.getD "" }

def AnthropicContentBlockOf.AsToolResult (b : AnthropicContentBlock) :
    Option AnthropicToolResultBlock :=
  if b.Kind ≠ "tool_result" then none
  else
    match b.ToolUseID with
    | none => none
    | some toolUseID =>
      some { Kind := "tool_result", ToolUseID := toolUseID,
             Content := b.Content, IsError := b.IsError }

/-! ## messages/utils.go, messages/translate_openai.go -/

/-- The loop of `joinWithDoubleNewline`; `i` is the loop index. -/
def joinWithDoubleNewlineLoop : Nat → List String → String → String
  | _, [], result => result
  | i, part :: rest, result =>
    joinWithDoubleNewlineLoop (i + 1) rest
      ((if i > 0 then result ++ "\n\n" else result) ++ part)

def joinWithDoubleNewline (parts : List String) : String :=
  joinWithDoubleNewlineLoop 0 parts ""

/-- Go `mapContentBlocks`; its `error` result is always nil. -/
def mapContentBlocks (blocks : List AnthropicContentBlock) : MessageContent :=
  let hasImage := blocks.any fun block => block.Kind == "image"
  if !hasImage then
    let texts := blocks.filterMap fun block =>
      match block.AsText with
      | some text => some text.Text
      | none =>
        match block.AsThinking with
        | some thinking => some thinking.Thinking
        | none => none
    let joined := joinWithDoubleNewline texts
    if joined = "" then { StringValue := none, Parts := [] }
    else { StringValue := some joined, Parts := [] }
  else
    { StringValue := none
      Parts := blocks.filterMap fun block =>
        if block.Kind = "text" then
          block.Text.map fun text =>
            { Kind := "text", Text := some text, ImageURL := none }
        else if block.Kind = "thinking" then
          block.Thinking.map fun text =>
            { Kind := "text", Text := some text, ImageURL := none }
        else if block.Kind = "image" then
          block.Source.map fun source =>
            { Kind := "image_url"
              Text := none
              ImageURL := some
                { URL := "data:" ++ source.MediaType ++ ";base64," ++ source.Data
                  Detail := some "auto" } }
        else none }

/-- The two uses that `ensureBlocksSlice` makes of the standard library
`encoding/json`, which is not part of the repository: re-encoding a dynamic
value with `json.Marshal` and decoding the bytes with `json.Unmarshal` into an
`AnthropicContentBlock` (`reparseBlock`, lines 65-72 of utils.go) or into an
`[]AnthropicContentBlock` (`reparseBlocks`, lines 77-84); the decoder calls
`AnthropicContentBlock.UnmarshalJSON` for each block.  They are parameters
of the model: what is proved about `handleUserMessage` holds for every
choice of them. -/
structure JSONReparse where
  reparseBlock : GoValue → Except String AnthropicContentBlock
  reparseBlocks : GoValue → Except String (List AnthropicContentBlock)

def ensureBlocksSlice (json : JSONReparse) :
    GoValue → Except String (List AnthropicContentBlock)
  | .nil => .ok []
  | .blocks val => .ok val
  | .slice val => val.mapM json.reparseBlock
  | val => json.reparseBlocks val

def mapGenericContent (json : JSONReparse) :
    GoValue → Except String MessageContent
  | .string content => .ok { StringValue := some content, Parts := [] }
  | .blocks content => .ok (mapContentBlocks content)
  | .slice content =>
    match ensureBlocksSlice json (.slice content) with
    | .error err => .error err
    | .ok blocks => .ok (mapContentBlocks blocks)
  | .nil => .ok { StringValue := none, Parts := [] }
  | content =>
    match ensureBlocksSlice json content with
    | .error err => .error err
    | .ok blocks => .ok (mapContentBlocks blocks)

/-- The upstream `user` message that carries `content`. -/
def userMessage (content : MessageContent) : Message :=
  { Role := "user", Content := content, Name := none, ToolCalls := [],
    ToolCallID := none }

/-- The upstream `tool` message for a tool result. -/
def toolMessage (toolCallID : String) (content : MessageContent) : Message :=
  { Role := "tool", Content := content, Name := none, ToolCalls := [],
    ToolCallID := some toolCallID }

/-- The loop of `handleUserMessage` (lines 139-165 of translate_openai.go)
over the remaining blocks, with the variables `result` and `pending`. -/
def handleUserMessageLoop (json : JSONReparse) :
    List AnthropicContentBlock → List Message → List AnthropicContentBlock →
    Except String (List Message × List AnthropicContentBlock)
  | [], result, pending => .ok (result, pending)
  | block :: rest, result, pending =>
    match block.AsToolResult with
    | some toolResult =>
      let flushed : List Message × List AnthropicContentBlock :=
        if pending.length > 0 then
          (result ++ [userMessage (mapContentBlocks pending)], [])
        else (result, pending)
      match mapGenericContent json toolResult.Content with
      | .error err => .error err
      | .ok msgContent =>
        handleUserMessageLoop json rest
          (flushed.1 ++ [toolMessage toolResult.ToolUseID msgContent]) flushed.2
    | none => handleUserMessageLoop json rest result (pending ++ [block])

def handleUserMessage (json : JSONReparse) (message : AnthropicMessage) :
    Except String (List Message) :=
  match message.Content.String with
  | some text => .ok [userMessage { StringValue := some text, Parts := [] }]
  | none =>
    match handleUserMessageLoop json message.Content.Blocks [] [] with
    | .error err => .error err
    | .ok (result, pending) =>
      let result1 :=
        if pending.length > 0 then
          result ++ [userMessage (mapContentBlocks pending)]
        else result
      let result2 :=
        if result1.length = 0 then
          result1 ++ [userMessage { StringValue := none, Parts := [] }]
        else result1
      .ok result2

/-! ## The tool-result splitting rule, as the specification words it -/

/-- Pending non-tool-result blocks are merged into one user message, if
there are any. -/
def flushPending (pending : List AnthropicContentBlock) : List Message :=
  match pending with
  | [] => []
  | _ :: _ => [userMessage (mapContentBlocks pending)]

/-- The splitting rule in the words of the specification: scanning the
blocks in order, each `tool_result` block yields first one user message
merging the pending blocks accumulated so far (if any), then one `tool`
message with the block's tool-use id and the content mapped from its payload;
at the end one trailing user message carries the remaining pending blocks. -/
def splitToolResults (json : JSONReparse) :
    List AnthropicContentBlock → List AnthropicContentBlock →
    Except String (List Message)
  | pending, [] => .ok (flushPending pending)
  | pending, block :: rest =>
    match block.AsToolResult with
    | some toolResult =>
      match mapGenericContent json toolResult.Content with
      | .error err => .error err
      | .ok content =>
        match splitToolResults json [] rest with
        | .error err => .error err
        | .ok tail =>
          .ok (flushPending pending ++
            (toolMessage toolResult.ToolUseID content :: tail))
    | none => splitToolResults json (pending ++ [block]) rest

/-- A `text` block. -/
def textBlock (text : String) : AnthropicContentBlock :=
  { Kind := "text", Text := some text, Source := none, ToolUseID := none,
    Content := GoValue.nil, IsError := none, ID := none, Name := none,
    Input := none, Thinking := none, Signature := none }

/-- A `tool_result` block with a tool-use id and a payload. -/
def toolResultBlock (toolUseID : String) (content : GoValue) :
    AnthropicContentBlock :=
  { Kind := "tool_result", Text := none, Source := none,
    ToolUseID := some toolUseID, Content := content, IsError := none,
    ID := none, Name := none, Input := none, Thinking := none,
    Signature := none }

/-- A re-parse that rejects every value. -/
def rejectAll : JSONReparse :=
  { reparseBlock := fun _ => .error "json: cannot unmarshal"
    reparseBlocks := fun _ => .error "json: cannot unmarshal" }

/-! ## The content-merge rule, as the specification words it -/

/-- The text that a block contributes to merged content: the text of a
`text` block, the thinking of a `thinking` block. -/
def blockText (block : AnthropicContentBlock) : Option String :=
  if block.Kind = "text" then block.Text
  else if block.Kind = "thinking" then block.Thinking
  else none

/-- A part of type "text". -/
def textPart (text : String) : ContentPart :=
  { Kind := "text", Text := some text, ImageURL := none }

/-- A part of type "image_url" whose URL is the `data:` URI of the source,
with detail "auto". -/
def imagePart (source : AnthropicImageSource) : ContentPart :=
  { Kind := "image_url"
    Text := none
    ImageURL := some
      { URL := "data:" ++ source.MediaType ++ ";base64," ++ source.Data
        Detail := some "auto" } }

/-- The part that a block becomes in a part list: a `text` or `thinking`
block becomes a text part with its text, an `image` block an image-url part
built from its source; blocks of other types (and a block that does not carry
the field of its type) become no part. -/
def blockPart (block : AnthropicContentBlock) : Option ContentPart :=
  if block.Kind = "text" then block.Text.map textPart
  else if block.Kind = "thinking" then block.Thinking.map textPart
  else if block.Kind = "image" then block.Source.map imagePart
  else none

/-- A `thinking` block. -/
def thinkingBlock (thinking : String) : AnthropicContentBlock :=
  { Kind := "thinking", Text := none, Source := none, ToolUseID := none,
    Content := GoValue.nil, IsError := none, ID := none, Name := none,
    Input := none, Thinking := some thinking, Signature := none }

/-- An `image` block. -/
def imageBlock (mediaType : String) (data : String) : AnthropicContentBlock :=
  { Kind := "image", Text := none
    Source := some { Kind := "base64", MediaType := mediaType, Data := data }
    ToolUseID := none, Content := GoValue.nil, IsError := none, ID := none,
    Name := none, Input := none, Thinking := none, Signature := none }

/-! ## Upstream responses (services/copilot/chat_completions.go) -/

structure ResponseMessage where
  Role : String
  Content : MessageContent
  ToolCalls : List ToolCall
deriving DecidableEq, Repr

/-- Go `ChoiceNonStreaming` (the field `Logprobs` is never read and is left
out). -/
structure ChoiceNonStreaming where
  Index : Int
  Message : ResponseMessage
  FinishReason : String
deriving DecidableEq, Repr

structure ChatUsage where
  PromptTokens : Int
  CompletionTokens : Int
  TotalTokens : Int
  PromptTokensDetails : Option PromptTokensDetails
deriving DecidableEq, Repr

/-- Go `ChatCompletionResponse` (fields `Object`, `Created`,
`SystemFingerprint` are never read by the translator and are left out). -/
structure ChatCompletionResponse where
  ID : String
  Model : String
  Choices : List ChoiceNonStreaming
  Usage : Option ChatUsage
deriving DecidableEq, Repr

/-! ## Anthropic responses (messages/types.go) -/

/-- Go `AnthropicAssistantContentBlock`; the Go field `Type` is called `Kind`
here, `Input = none` is the nil map. -/
structure AnthropicAssistantContentBlock where
  Kind : String
  Text : Option String
  ID : Option String
  Name : Option String
  Input : Option (List (String × GoValue))
  Thinking : Option String
  Signature : Option String

/-- Go `AnthropicResponse`; the Go field `Type` is called `Kind` here. -/
structure AnthropicResponse where
  ID : String
  Kind : String
  Role : String
  Content : List AnthropicAssistantContentBlock
  Model : String
  StopReason : Option String
  StopSequence : Option String
  Usage : AnthropicUsage

/-! ## messages/translate_anthropic.go -/

/-- Go `strings.Join(elems, sep)` (standard library). -/
def stringsJoin (elems : List String) (sep : String) : String :=
  sep.intercalate elems

def getAnthropicTextBlocks (content : MessageContent) :
    List AnthropicAssistantContentBlock :=
  match content.StringValue with
  | some text =>
    [{ Kind := "text", Text := some text, ID := none, Name := none,
       Input := none, Thinking := none, Signature := none }]
  | none =>
    if content.Parts.length = 0 then []
    else
      let texts := content.Parts.filterMap fun part =>
        if part.Kind = "text" then part.Text else none
      if texts.length = 0 then []
      else
        [{ Kind := "text", Text := some (stringsJoin texts "\n\n"), ID := none,
           Name := none, Input := none, Thinking := none, Signature := none }]

/-- The `input` of the tool-use block built for one tool call (lines 82-87
of translate_anthropic.go).  `unmarshalObject` stands for `json.Unmarshal`
(standard library `encoding/json`) of the argument text into the fresh map
`input`: the map afterwards, or the decoding error.  The map afterwards is
`none` when it is the nil map, which is what `json.Unmarshal` leaves for the
JSON text `null`, reporting no error. -/
def toolUseInput (unmarshalObject : String → Except String (Option (List (String × GoValue))))
    (call : ToolCall) : Option (List (String × GoValue)) :=
  if call.Function.Arguments ≠ "" then
    match unmarshalObject call.Function.Arguments with
    | .ok input => input
    | .error _ => some [("raw_arguments", GoValue.string call.Function.Arguments)]
  else some []

def getAnthropicToolUseBlocks
    (unmarshalObject : String → Except String (Option (List (String × GoValue))))
    (toolCalls : List ToolCall) : List AnthropicAssistantContentBlock :=
  if toolCalls.length = 0 then []
  else
    toolCalls.map fun call =>
      { Kind := "tool_use", Text := none, ID := some call.ID
        Name := some call.Function.Name
        Input := toolUseInput unmarshalObject call
        Thinking := none, Signature := none }

def mapFinishReason (reason : String) : Option String :=
  if reason = "" then none
  else mapOpenAIStopReasonToAnthropic (some reason)

def usagePromptTokens (resp : ChatCompletionResponse) : Int :=
  match resp.Usage with
  | none => 0
  | some usage =>
    match usage.PromptTokensDetails with
    | none => usage.PromptTokens
    | some details => wrapInt64 (usage.PromptTokens - details.CachedTokens)

def usageCompletionTokens (resp : ChatCompletionResponse) : Int :=
  match resp.Usage with
  | none => 0
  | some usage => usage.CompletionTokens

def usageCachedPromptTokens (resp : ChatCompletionResponse) : Option Int :=
  match resp.Usage with
  | none => none
  | some usage =>
    match usage.PromptTokensDetails with
    | none => none
    | some details => some details.CachedTokens

/-- The loop over `response.Choices` (lines 19-30 of translate_anthropic.go)
with the variables `textBlocks`, `toolBlocks` and `stopReason`. -/
def translateChoicesLoop
    (unmarshalObject : String → Except String (Option (List (String × GoValue)))) :
    List ChoiceNonStreaming →
    List AnthropicAssistantContentBlock → List AnthropicAssistantContentBlock →
    Option String →
    List AnthropicAssistantContentBlock × List AnthropicAssistantContentBlock ×
      Option String
  | [], textBlocks, toolBlocks, stopReason => (textBlocks, toolBlocks, stopReason)
  | choice :: rest, textBlocks, toolBlocks, stopReason =>
    let stopReason1 :=
      match stopReason with
      | none => mapFinishReason choice.FinishReason
      | some reason => some reason
    let stopReason2 :=
      if choice.FinishReason = "tool_calls" then some "tool_use" else stopReason1
    translateChoicesLoop unmarshalObject rest
      (textBlocks ++ getAnthropicTextBlocks choice.Message.Content)
      (toolBlocks ++ getAnthropicToolUseBlocks unmarshalObject choice.Message.ToolCalls)
      stopReason2

/-- Go `TranslateToAnthropic`; its `error` result is always nil. -/
def TranslateToAnthropic
    (unmarshalObject : String → Except String (Option (List (String × GoValue))))
    (response : ChatCompletionResponse) : AnthropicResponse :=
  let stopReason0 : Option String :=
    match response.Choices with
    | [] => none
    | choice :: _ => mapFinishReason choice.FinishReason
  let r := translateChoicesLoop unmarshalObject response.Choices [] [] stopReason0
  let usage : AnthropicUsage :=
    { InputTokens := usagePromptTokens response
      OutputTokens := usageCompletionTokens response
      CacheCreationInputTokens := none
      CacheReadInputTokens := usageCachedPromptTokens response
      ServiceTier := none }
  { ID := response.ID
    Kind := "message"
    Role := "assistant"
    Content := r.1 ++ r.2.1
    Model := response.Model
    StopReason := r.2.2
    StopSequence := none
    Usage := usage }

/-! ## The stop reason of a response, as the specification words it -/

/-- "tool_use" if any choice has finish reason "tool_calls"; otherwise the
mapped reason of the first choice, in order, whose finish reason is non-empty
and mappable; absent when there is none. -/
def responseStopReason (choices : List ChoiceNonStreaming) : Option String :=
  if choices.any (fun choice => choice.FinishReason == "tool_calls") then
    some "tool_use"
  else (choices.filterMap fun choice => mapFinishReason choice.FinishReason).head?

/-- A choice with string content, tool calls and a finish reason. -/
def sampleChoice (text : String) (toolCalls : List ToolCall) (finishReason : String) :
    ChoiceNonStreaming :=
  { Index := 0
    Message := { Role := "assistant"
                 Content := { StringValue := some text, Parts := [] }
                 ToolCalls := toolCalls }
    FinishReason := finishReason }

/-- A response with the given choices and usage. -/
def sampleResponse (choices : List ChoiceNonStreaming) (usage : Option ChatUsage) :
    ChatCompletionResponse :=
  { ID := "chatcmpl-1", Model := "gpt-4o", Choices := choices, Usage := usage }

/-- A decoder that rejects every argument text. -/
def rejectArguments : String → Except String (Option (List (String × GoValue))) :=
  fun _ => .error "invalid character"

/-! ## Anthropic request payload (messages/types.go) -/

/-- Go `AnthropicSystemPrompt`: a string or a list of text blocks. -/
structure AnthropicSystemPrompt where
  String : Option String
  Blocks : List AnthropicTextBlock
deriving DecidableEq, Repr

structure AnthropicMetadata where
  UserID : Option String
deriving DecidableEq, Repr

/-- Go `AnthropicThinkingConfig`; the Go field `Type` is called `Kind`. -/
structure AnthropicThinkingConfig where
  Kind : String
  BudgetTokens : Option Int
deriving DecidableEq, Repr

/-- Go `AnthropicToolChoice`; the Go field `Type` is called `Kind`. -/
structure AnthropicToolChoice where
  Kind : String
  Name : Option String
deriving DecidableEq, Repr

/-- Go `AnthropicTool`; `InputSchema = none` is the nil map. -/
structure AnthropicTool where
  Name : String
  Description : Option String
  InputSchema : Option (List (String × GoValue))

/-- Go `AnthropicToolUseBlock`; the Go field `Type` is called `Kind`. -/
structure AnthropicToolUseBlock where
  Kind : String
  ID : String
  Name : String
  Input : Option (List (String × GoValue))

/-- Go `AnthropicImageBlock`; the Go field `Type` is called `Kind`. -/
structure AnthropicImageBlock where
  Kind : String
  Source : AnthropicImageSource
deriving DecidableEq, Repr

/-- Go `AnthropicMessagesPayload`; `float64` values are carried as
rationals, they are only passed through. -/
structure AnthropicMessagesPayload where
  Model : String
  Messages : List AnthropicMessage
  MaxTokens : Int
  System : Option AnthropicSystemPrompt
  Metadata : Option AnthropicMetadata
  StopSequences : List String
  Stream : Option Bool
  Temperature : Option Rat
  TopP : Option Rat
  TopK : Option Int
  Tools : List AnthropicTool
  ToolChoice : Option AnthropicToolChoice
  Thinking : Option AnthropicThinkingConfig
  ServiceTier : Option String

def AnthropicContentBlockOf.AsImage (b : AnthropicContentBlock) :
    Option AnthropicImageBlock :=
  if b.Kind ≠ "image" then none
  else
    match b.Source with
    | none => none
    | some source => some { Kind := "image", Source := source }

def AnthropicContentBlockOf.AsToolUse (b : AnthropicContentBlock) :
    Option AnthropicToolUseBlock :=
  if b.Kind ≠ "tool_use" then none
  else
    match b.ID, b.Name with
    | some id, some name =>
      some { Kind := "tool_use", ID := id, Name := name
             Input := some (match b.Input with
                            | none => []
                            | some input => input) }
    | _, _ => none

/-! ## Upstream request payload (services/copilot/chat_completions.go) -/

/-- Go `copilot.Function`; `Parameters interface{}` receives the tool's
input schema map. -/
structure Function where
  Name : String
  Description : Option String
  Parameters : Option (List (String × GoValue))

/-- Go `copilot.Tool`; the Go field `Type` is called `Kind`. -/
structure Tool where
  Kind : String
  Function : Function

structure ToolChoiceFunctionValue where
  Name : String
deriving DecidableEq, Repr

/-- Go `ToolChoiceValue`; the Go field `Type` is called `Kind`. -/
structure ToolChoiceValue where
  Kind : String
  Function : ToolChoiceFunctionValue
deriving DecidableEq, Repr

structure ToolChoice where
  StringValue : Option String
  ObjectValue : Option ToolChoiceValue
deriving DecidableEq, Repr

/-- The values that `TranslateToOpenAI` stores in `Stop interface{}`: nil, a
string, or a string slice. -/
inductive StopValue where
  | absent
  | single (sequence : String)
  | list (sequences : List String)
deriving DecidableEq, Repr

/-- Go `ChatCompletionsPayload`, with the fields that `TranslateToOpenAI`
sets; the others (`N`, `FrequencyPenalty`, `PresencePenalty`, `LogitBias`,
`Logprobs`, `ResponseFormat`, `Seed`) keep their zero value. -/
structure ChatCompletionsPayload where
  Messages : List Message
  Model : String
  Temperature : Option Rat
  TopP : Option Rat
  MaxTokens : Option Int
  Stop : StopValue
  Stream : Option Bool
  Tools : List Tool
  ToolChoice : Option ToolChoice
  User : Option String

/-! ## messages/translate_openai.go, continued -/

/-- Go `strings.HasPrefix(s, p)` (standard library). -/
def stringsHasPrefix (s : String) (p : String) : Bool :=
  p.data.isPrefixOf s.data

def translateModelName (model : String) : String :=
  if stringsHasPrefix model "claude-sonnet-4-" then "claude-sonnet-4"
  else if stringsHasPrefix model "claude-opus-" then "claude-opus-4"
  else model

/-- Go `translateSystemPrompt`; its `error` result is always nil. -/
def translateSystemPrompt (system : Option AnthropicSystemPrompt) : List Message :=
  match system with
  | none => []
  | some system =>
    match system.String with
    | some text =>
      [{ Role := "system", Content := { StringValue := some text, Parts := [] },
         Name := none, ToolCalls := [], ToolCallID := none }]
    | none =>
      if system.Blocks.length > 0 then
        let texts := system.Blocks.map fun block => block.Text
        [{ Role := "system"
           Content := { StringValue := some (joinWithDoubleNewline texts), Parts := [] }
           Name := none, ToolCalls := [], ToolCallID := none }]
      else []

/-- The first loop of `handleAssistantMessage` (lines 202-218 of
translate_openai.go) with the variables `toolUseBlocks`, `textParts` and
`hasImage`. -/
def handleAssistantMessageLoop :
    List AnthropicContentBlock → List AnthropicToolUseBlock → List String → Bool →
    List AnthropicToolUseBlock × List String × Bool
  | [], toolUseBlocks, textParts, hasImage => (toolUseBlocks, textParts, hasImage)
  | block :: rest, toolUseBlocks, textParts, hasImage =>
    match block.AsToolUse with
    | some toolUse =>
      handleAssistantMessageLoop rest (toolUseBlocks ++ [toolUse]) textParts hasImage
    | none =>
      match block.AsText with
      | some text =>
        handleAssistantMessageLoop rest toolUseBlocks (textParts ++ [text.Text]) hasImage
      | none =>
        match block.AsThinking with
        | some thinking =>
          handleAssistantMessageLoop rest toolUseBlocks
            (textParts ++ [thinking.Thinking]) hasImage
        | none =>
          match block.AsImage with
          | some _ => handleAssistantMessageLoop rest toolUseBlocks textParts true
          | none => handleAssistantMessageLoop rest toolUseBlocks textParts hasImage

/-- The upstream tool call built for one tool-use block (lines 231-252).
`marshalObject` stands for `json.Marshal` (standard library `encoding/json`)
of the input map, which `ensureMap` returns unchanged; `json.Marshal` cannot
fail on the values of `GoValue`, so the error exits of the loop are not
represented. -/
def assistantToolCall (marshalObject : List (String × GoValue) → String)
    (toolBlock : AnthropicToolUseBlock) : ToolCall :=
  let arguments :=
    match toolBlock.Input with
    | none => "\x7b\x7d"
    | some input => marshalObject input
  { Index := 0, ID := toolBlock.ID, Kind := "function"
    Function := { Name := toolBlock.Name, Arguments := arguments } }

/-- Go `handleAssistantMessage`; in the model its `error` result is always
nil (see `assistantToolCall`; `mapContentBlocks` never fails). -/
def handleAssistantMessage (marshalObject : List (String × GoValue) → String)
    (message : AnthropicMessage) : List Message :=
  match message.Content.String with
  | some text =>
    [{ Role := "assistant", Content := { StringValue := some text, Parts := [] },
       Name := none, ToolCalls := [], ToolCallID := none }]
  | none =>
    let r := handleAssistantMessageLoop message.Content.Blocks [] [] false
    if r.1.length > 0 then
      let content := stringsJoin r.2.1 "\n\n"
      let msgContent : MessageContent :=
        if content ≠ "" then { StringValue := some content, Parts := [] }
        else { StringValue := none, Parts := [] }
      [{ Role := "assistant", Content := msgContent, Name := none
         ToolCalls := r.1.map (assistantToolCall marshalObject)
         ToolCallID := none }]
    else if r.2.2 then
      [{ Role := "assistant", Content := mapContentBlocks message.Content.Blocks,
         Name := none, ToolCalls := [], ToolCallID := none }]
    else
      [{ Role := "assistant"
         Content := { StringValue := some (stringsJoin r.2.1 "\n\n"), Parts := [] }
         Name := none, ToolCalls := [], ToolCallID := none }]

/-- The loop of `translateAnthropicMessages` (lines 105-122) with the
variable `result`. -/
def translateAnthropicMessagesLoop (json : JSONReparse)
    (marshalObject : List (String × GoValue) → String) :
    List AnthropicMessage → List Message → Except String (List Message)
  | [], result => .ok result
  | message :: rest, result =>
    if message.Role = "user" then
      match handleUserMessage json message with
      | .error err => .error err
      | .ok userMessages =>
        translateAnthropicMessagesLoop json marshalObject rest (result ++ userMessages)
    else if message.Role = "assistant" then
      translateAnthropicMessagesLoop json marshalObject rest
        (result ++ handleAssistantMessage marshalObject message)
    else translateAnthropicMessagesLoop json marshalObject rest result

def translateAnthropicMessages (json : JSONReparse)
    (marshalObject : List (String × GoValue) → String)
    (messages : List AnthropicMessage) : Except String (List Message) :=
  translateAnthropicMessagesLoop json marshalObject messages []

def translateAnthropicTools (tools : List AnthropicTool) : List Tool :=
  if tools.length = 0 then []
  else
    tools.map fun tool =>
      { Kind := "function"
        Function := { Name := tool.Name, Description := tool.Description,
                      Parameters := tool.InputSchema } }

def translateAnthropicToolChoice (choice : Option AnthropicToolChoice) :
    Option ToolChoice :=
  match choice with
  | none => none
  | some choice =>
    if choice.Kind = "auto" then
      some { StringValue := some "auto", ObjectValue := none }
    else if choice.Kind = "any" then
      some { StringValue := some "required", ObjectValue := none }
    else if choice.Kind = "tool" then
      match choice.Name with
      | some name =>
        some { StringValue := none
               ObjectValue := some { Kind := "function", Function := { Name := name } } }
      | none => none
    else if choice.Kind = "none" then
      some { StringValue := some "none", ObjectValue := none }
    else none

def TranslateToOpenAI (json : JSONReparse)
    (marshalObject : List (String × GoValue) → String)
    (payload : AnthropicMessagesPayload) : Except String ChatCompletionsPayload :=
  let systemMessages := translateSystemPrompt payload.System
  match translateAnthropicMessages json marshalObject payload.Messages with
  | .error err => .error err
  | .ok otherMessages =>
    let maxTokens : Option Int :=
      if payload.MaxTokens > 0 then some payload.MaxTokens else none
    let stop : StopValue :=
      match payload.StopSequences with
      | [] => StopValue.absent
      | [sequence] => StopValue.single sequence
      | sequences => StopValue.list sequences
    let userID : Option String :=
      match payload.Metadata with
      | none => none
      | some metadata => metadata.UserID
    .ok { Model := translateModelName payload.Model
          Messages := systemMessages ++ otherMessages
          MaxTokens := maxTokens
          Stop := stop
          Stream := payload.Stream
          Temperature := payload.Temperature
          TopP := payload.TopP
          User := userID
          Tools := translateAnthropicTools payload.Tools
          ToolChoice := translateAnthropicToolChoice payload.ToolChoice }

/-! ## The request translation rules, as the specification words them -/

/-- The upstream tool call of a `tool_use` block: the block's id, type
"function", the block's name, and the serialization of the block's input, of
the empty object when the block has none.  Other blocks have no tool call. -/
def blockToolCall (marshalObject : List (String × GoValue) → String)
    (block : AnthropicContentBlock) : Option ToolCall :=
  if block.Kind = "tool_use" then
    match block.ID, block.Name with
    | some id, some name =>
      some { Index := 0, ID := id, Kind := "function"
             Function := { Name := name
                           Arguments := marshalObject (block.Input.getD []) } }
    | _, _ => none
  else none

/-- Whether the message has one of the two roles that are converted. -/
def hasConvertedRole (message : AnthropicMessage) : Bool :=
  message.Role == "user" || message.Role == "assistant"

/-- The conversion of one message with role "user" or "assistant". -/
def convertMessage (json : JSONReparse)
    (marshalObject : List (String × GoValue) → String)
    (message : AnthropicMessage) : Except String (List Message) :=
  if message.Role = "user" then handleUserMessage json message
  else .ok (handleAssistantMessage marshalObject message)

/-- The upstream `system` message with the given string content. -/
def systemMessage (text : String) : Message :=
  { Role := "system", Content := { StringValue := some text, Parts := [] },
    Name := none, ToolCalls := [], ToolCallID := none }

/-! ## Sample requests -/

/-- One field of `sampleMarshal`. -/
def sampleMarshalField (field : String × GoValue) : String :=
  match field.2 with
  | GoValue.string value => "\x22" ++ field.1 ++ "\x22:\x22" ++ value ++ "\x22"
  | _ => "\x22" ++ field.1 ++ "\x22:null"

/-- A sample of `json.Marshal` on maps: exact on the empty map and on maps
with one key whose value is null or a string without characters to escape. -/
def sampleMarshal (fields : List (String × GoValue)) : String :=
  "\x7b" ++ ",".intercalate (fields.map sampleMarshalField) ++ "\x7d"

/-- A `tool_use` block with the given id, name and input. -/
def toolUseBlock (id : String) (name : String)
    (input : Option (List (String × GoValue))) : AnthropicContentBlock :=
  { Kind := "tool_use", Text := none, Source := none, ToolUseID := none
    Content := GoValue.nil, IsError := none, ID := some id, Name := some name
    Input := input, Thinking := none, Signature := none }

/-- A message with the given role and block-list content. -/
def blocksMessage (role : String) (blocks : List AnthropicContentBlock) :
    AnthropicMessage :=
  { Role := role, Content := { String := none, Blocks := blocks } }

/-- A message with the given role and plain-string content. -/
def stringMessage (role : String) (text : String) : AnthropicMessage :=
  { Role := role, Content := { String := some text, Blocks := [] } }

/-- A request with the given model, system prompt and messages, every other
field at its zero value. -/
def samplePayload (model : String) (system : Option AnthropicSystemPrompt)
    (messages : List AnthropicMessage) : AnthropicMessagesPayload :=
  { Model := model, Messages := messages, MaxTokens := 0, System := system
    Metadata := none, StopSequences := [], Stream := none, Temperature := none
    TopP := none, TopK := none, Tools := [], ToolChoice := none, Thinking := none
    ServiceTier := none }

/-! ## streaming/reader.go -/

/-- Go `copilot.SSEMessage` (services/copilot/chat_completions.go). -/
structure SSEMessage where
  Event : String
  Data : String
deriving DecidableEq, Repr

/-- Go `unicode.IsSpace` (standard library): the characters with the Unicode
White_Space property. -/
def unicodeIsSpace (c : Char) : Bool :=
  (0x09 ≤ c.toNat && c.toNat ≤ 0x0D) || c.toNat == 0x20 || c.toNat == 0x85 ||
  c.toNat == 0xA0 || c.toNat == 0x1680 || (0x2000 ≤ c.toNat && c.toNat ≤ 0x200A) ||
  c.toNat == 0x2028 || c.toNat == 0x2029 || c.toNat == 0x202F ||
  c.toNat == 0x205F || c.toNat == 0x3000

/-- Go `strings.TrimSpace` (standard library): the string without its
leading and trailing white space. -/
def stringsTrimSpace (s : String) : String :=
  ⟨((s.data.dropWhile unicodeIsSpace).reverse.dropWhile unicodeIsSpace).reverse⟩

/-- The variables `currentEvent` and `dataBuilder` of the goroutine of
`ReadSSE`; `dataBuilder` holds the content of the `strings.Builder`. -/
structure ReaderState where
  currentEvent : String
  dataBuilder : String
deriving DecidableEq, Repr

/-- The closure `flush` of `ReadSSE` (lines 29-43), with the context not
cancelled and the consumer receiving every frame: the frames sent on the
channel and the variables afterwards.  `dataBuilder.Len() == 0` holds exactly
when the builder's content is the empty string. -/
def flush (state : ReaderState) : List SSEMessage × ReaderState :=
  if state.dataBuilder = "" then ([], state)
  else
    ([{ Event := state.currentEvent, Data := state.dataBuilder }],
     { currentEvent := "", dataBuilder := "" })

/-- One iteration of the scan loop of `ReadSSE` (lines 45-69) on the line
`scanner.Text()`.  The slices `line[len("event:"):]` and `line[len("data:"):]`
drop a prefix of ASCII characters, 6 and 5 of them. -/
def readLine (line : String) (state : ReaderState) : List SSEMessage × ReaderState :=
  if line = "" then flush state
  else if stringsHasPrefix line "event:" then
    ([], { state with currentEvent := stringsTrimSpace (line.drop 6) })
  else if stringsHasPrefix line "data:" then
    let builder :=
      if state.dataBuilder ≠ "" then state.dataBuilder ++ "\n" else state.dataBuilder
    ([], { state with dataBuilder := builder ++ stringsTrimSpace (line.drop 5) })
  else ([], state)

/-- The scan loop of `ReadSSE` over the remaining lines, then the final
`flush()` of line 71: the frames sent on the channel, in order. -/
def readLines : List String → ReaderState → List SSEMessage
  | [], state => (flush state).1
  | line :: rest, state =>
    let r := readLine line state
    r.1 ++ readLines rest r.2

/-- The variables of `ReadSSE` after the scan loop has consumed the lines,
before the final flush. -/
def readerStateAfter : List String → ReaderState → ReaderState
  | [], state => state
  | line :: rest, state => readerStateAfter rest (readLine line state).2

/-- Go `Reader.ReadSSE` as a function of the lines that `bufio.Scanner`
yields from the response body: the frames sent on the channel. -/
def ReadSSE (lines : List String) : List SSEMessage :=
  readLines lines { currentEvent := "", dataBuilder := "" }

/-! ## The host loop (server/server.go) and the stream error event -/

/-- The field `Error` of Go `AnthropicErrorEvent`; the Go field `Type` is
called `Kind`. -/
structure AnthropicErrorDetail where
  Kind : String
  Message : String
deriving DecidableEq, Repr

/-- Go `AnthropicErrorEvent`; the Go field `Type` is called `Kind`. -/
structure AnthropicErrorEvent where
  Kind : String
  Error : AnthropicErrorDetail
deriving DecidableEq, Repr

/-- A Go `SSEEvent` that `forwardMessagesStream` writes to the response, kept
as its typed payload: an event of `TranslateChunkToAnthropicEvents`, or the
error event of `TranslateStreamError`. -/
inductive StreamOutput where
  | event (payload : SSEEvent)
  | error (payload : AnthropicErrorEvent)
deriving DecidableEq, Repr

/-- The `Type` field of the Go `SSEEvent`, written after `event: `. -/
def StreamOutput.Type : StreamOutput → String
  | .event payload => payload.Type
  | .error payload => payload.Kind

/-- Go `TranslateStreamError` (messages/stream.go). -/
def TranslateStreamError : StreamOutput :=
  .error { Kind := "error"
           Error := { Kind := "api_error"
                      Message := "An unexpected error occurred during streaming." } }

/-- The `for` loop of `forwardMessagesStream` (lines 349-392 of server.go)
over the frames received from the channel until it is closed, with the
request context not cancelled: the events written to the response, in order,
and the stream state when the loop ends.  `decodeChunk` stands for
`json.Unmarshal` (standard library `encoding/json`) of the frame data into a
`ChatCompletionChunk`.  `TranslateChunkToAnthropicEvents` returns no error,
so the branch for its error is not represented. -/
def forwardMessagesStreamLoop (decodeChunk : String → Except String ChatCompletionChunk) :
    List SSEMessage → AnthropicStreamState → List StreamOutput × AnthropicStreamState
  | [], streamState => ([], streamState)
  | chunk :: rest, streamState =>
    if chunk.Data = "[DONE]" then ([], streamState)
    else if chunk.Data = "" then forwardMessagesStreamLoop decodeChunk rest streamState
    else
      match decodeChunk chunk.Data with
      | .error _ => ([TranslateStreamError], streamState)
      | .ok parsed =>
        let r := TranslateChunkToAnthropicEvents parsed streamState
        let tail := forwardMessagesStreamLoop decodeChunk rest r.2
        (r.1.map StreamOutput.event ++ tail.1, tail.2)

/-- Go `forwardMessagesStream` on the frames of the channel: the events
written to the response. -/
def forwardMessagesStream (decodeChunk : String → Except String ChatCompletionChunk)
    (frames : List SSEMessage) : List StreamOutput :=
  (forwardMessagesStreamLoop decodeChunk frames NewStreamState).1

/-! ## The host loop, as the specification words it -/

/-- The decoded chunks of the frames that carry a payload. -/
def decodedChunks (decodeChunk : String → Except String ChatCompletionChunk)
    (frames : List SSEMessage) : List ChatCompletionChunk :=
  frames.filterMap fun frame =>
    if frame.Data = "" then none
    else
      match decodeChunk frame.Data with
      | .ok chunk => some chunk
      | .error _ => none

/-- The loop gets past the frame: it is not the sentinel, and it is empty or
its payload decodes. -/
def passesFrame (decodeChunk : String → Except String ChatCompletionChunk)
    (frame : SSEMessage) : Prop :=
  frame.Data ≠ "[DONE]" ∧ (frame.Data = "" ∨ ∃ chunk, decodeChunk frame.Data = .ok chunk)

/-- A sample of the chunk decoder: the payloads "hi" and "stop" stand for the
JSON texts of `hiChunk` and `stopChunk`, every other payload is rejected. -/
def sampleDecodeChunk (data : String) : Except String ChatCompletionChunk :=
  if data = "hi" then .ok hiChunk
  else if data = "stop" then .ok stopChunk
  else .error "invalid character"

/-- A sample of `json.Unmarshal` into a fresh `map[string]interface{}`: for
the JSON text `null` it reports no error and leaves the nil map (the standard
library sets a map to nil for a JSON null), for the empty object the empty
map, for the object with the member "city" that member, and for every other
text an error. -/
def sampleUnmarshal (text : String) : Except String (Option (List (String × GoValue))) :=
  if text = "null" then .ok none
  else if text = "\x7b\x7d" then .ok (some [])
  else if text = "\x7b\x22city\x22:\x22Paris\x22\x7d" then
    .ok (some [("city", GoValue.string "Paris")])
  else .error "json: cannot unmarshal"

/-- An upstream tool call with the given id, function name and arguments. -/
def sampleToolCall (id : String) (name : String) (arguments : String) : ToolCall :=
  { Index := 0, ID := id, Kind := "function"
    Function := { Name := name, Arguments := arguments } }

/-! ## Observations for the text carried by a stream -/

/-- Texts of the `text_delta` events, in emission order. -/
def textDeltaTexts (events : List SSEEvent) : List String :=
  events.filterMap fun e =>
    match e with
    | .content_block_delta _ (.text_delta text) => some text
    | _ => none

/-- The content fragment of the first choice of a chunk, when the chunk has
a choice and that choice has content. -/
def chunkContent (chunk : ChatCompletionChunk) : Option String :=
  match chunk.Choices with
  | [] => none
  | choice :: _ => choice.Delta.Content

/-- The `message_delta` events of an event list, as pairs of stop reason and
usage. -/
def messageDeltas (events : List SSEEvent) : List (Option String × AnthropicUsage) :=
  events.filterMap fun e =>
    match e with
    | .message_delta stopReason usage => some (stopReason, usage)
    | _ => none

/-! ## Decoding a content block (messages/types.go) -/

/-- The calls of `json.Unmarshal` (standard library `encoding/json`) that
`AnthropicContentBlock.UnmarshalJSON` makes.  `decodeObject` decodes the data
into the raw map `map[string]json.RawMessage`, kept as an association list
with one entry per key.  The other decoders take the raw message of a member,
`none` being the nil raw message that indexing the map gives for a missing
key, and give the value that `json.Unmarshal` leaves in a fresh variable of
the target type, or the error. -/
structure BlockDecoders where
  decodeObject : String → Except String (List (String × String))
  decodeString : Option String → Except String String
  decodeSource : Option String → Except String AnthropicImageSource
  decodeValue : Option String → Except String GoValue
  decodeBool : Option String → Except String Bool
  decodeMap : Option String → Except String (Option (List (String × GoValue)))

/-- Go `raw[key]` on the raw map. -/
def rawLookup (raw : List (String × String)) (key : String) : Option String :=
  (raw.find? fun member => member.1 == key).map Prod.snd

/-- The zero value of `AnthropicContentBlock` with its type set. -/
def zeroContentBlock (kind : String) : AnthropicContentBlock :=
  { Kind := kind, Text := none, Source := none, ToolUseID := none
    Content := GoValue.nil, IsError := none, ID := none, Name := none
    Input := none, Thinking := none, Signature := none }

/-- Go `(*AnthropicContentBlock).UnmarshalJSON` called on a zero block, as
`json.Unmarshal` does for a fresh value or slice element: the block on
success, the error otherwise. -/
def AnthropicContentBlock.UnmarshalJSON (json : BlockDecoders) (data : String) :
    Except String AnthropicContentBlock :=
  match json.decodeObject data with
  | .error err => .error err
  | .ok raw =>
    let kindResult : Except String String :=
      match rawLookup raw "type" with
      | some t => json.decodeString (some t)
      | none => .ok ""
    match kindResult with
    | .error err => .error err
    | .ok kind =>
      let b := zeroContentBlock kind
      if kind = "text" then
        match json.decodeString (rawLookup raw "text") with
        | .error err => .error err
        | .ok text => .ok { b with Text := some text }
      else if kind = "image" then
        match json.decodeSource (rawLookup raw "source") with
        | .error err => .error err
        | .ok source => .ok { b with Source := some source }
      else if kind = "tool_result" then
        match json.decodeString (rawLookup raw "tool_use_id") with
        | .error err => .error err
        | .ok toolUseID =>
          let contentResult : Except String GoValue :=
            match rawLookup raw "content" with
            | some contentRaw => json.decodeValue (some contentRaw)
            | none => .ok GoValue.nil
          match contentResult with
          | .error err => .error err
          | .ok content =>
            let isErrorResult : Except String (Option Bool) :=
              match rawLookup raw "is_error" with
              | some isErr =>
                match json.decodeBool (some isErr) with
                | .error err => .error err
                | .ok flag => .ok (some flag)
              | none => .ok none
            match isErrorResult with
            | .error err => .error err
            | .ok isError =>
              .ok { b with ToolUseID := some toolUseID, Content := content,
                           IsError := isError }
      else if kind = "tool_use" then
        match json.decodeString (rawLookup raw "id") with
        | .error err => .error err
        | .ok id =>
          match json.decodeString (rawLookup raw "name") with
          | .error err => .error err
          | .ok name =>
            match json.decodeMap (rawLookup raw "input") with
            | .error err => .error err
            | .ok input => .ok { b with ID := some id, Name := some name, Input := input }
      else if kind = "thinking" then
        match json.decodeString (rawLookup raw "thinking") with
        | .error err => .error err
        | .ok thinking =>
          let signature : Option String :=
            match rawLookup raw "signature" with
            | some signatureRaw =>
              match json.decodeString (some signatureRaw) with
              | .ok value => some value
              | .error _ => none
            | none => none
          .ok { b with Thinking := some thinking, Signature := signature }
      else
        let text : Option String :=
          match json.decodeString (rawLookup raw "text") with
          | .ok value => some value
          | .error _ => none
        let source : Option AnthropicImageSource :=
          match rawLookup raw "source" with
          | some sourceRaw =>
            match json.decodeSource (some sourceRaw) with
            | .ok value => some value
            | .error _ => none
          | none => none
        .ok { b with Text := text, Source := source }

/-- The five block types that `UnmarshalJSON` knows. -/
def knownBlockTypes : List String :=
  ["text", "image", "tool_result", "tool_use", "thinking"]

/-- A sample of the decoders: the object with the members type "audio", text
"hi" and id "x" decodes to its raw map, the three quoted strings decode to
their values, and everything else is an error. -/
def sampleBlockDecoders : BlockDecoders :=
  { decodeObject := fun data =>
      if data = "\x7b\x22type\x22:\x22audio\x22,\x22text\x22:\x22hi\x22,\x22id\x22:\x22x\x22\x7d"
      then .ok [("type", "\x22audio\x22"), ("text", "\x22hi\x22"), ("id", "\x22x\x22")]
      else .error "json: cannot unmarshal"
    decodeString := fun raw =>
      if raw = some "\x22audio\x22" then .ok "audio"
      else if raw = some "\x22hi\x22" then .ok "hi"
      else if raw = some "\x22x\x22" then .ok "x"
      else .error "unexpected end of JSON input"
    decodeSource := fun _ => .error "unexpected end of JSON input"
    decodeValue := fun _ => .error "unexpected end of JSON input"
    decodeBool := fun _ => .error "unexpected end of JSON input"
    decodeMap := fun _ => .error "unexpected end of JSON input" }

/-! ## Theorems -/

theorem translateChunks_append (a b : List ChatCompletionChunk)
    (s : AnthropicStreamState) :
    translateChunks (a ++ b) s =
      ((translateChunks a s).1 ++ (translateChunks b (translateChunks a s).2).1,
        (translateChunks b (translateChunks a s).2).2) := by
  induction a generalizing s with
  | nil => simp [translateChunks]
  | cons c rest ih => simp [translateChunks, ih, List.append_assoc]

/-! ### Text-only streams -/

theorem textOnly_first (c : ChatCompletionChunk)
    (h : isTextOnlyChunk c = true) :
    TranslateChunkToAnthropicEvents c NewStreamState =
      ([SSEEvent.message_start c.ID c.Model (messageStartUsage c),
        SSEEvent.content_block_start 0 (ContentBlockPayload.text ""),
        SSEEvent.content_block_delta 0 (BlockDelta.text_delta (chunkText c))],
       textOpenState) := by
  unfold isTextOnlyChunk hasFinishReason at h
  unfold TranslateChunkToAnthropicEvents chunkText
  cases hc : c.Choices with
  | nil => simp [hc] at h
  | cons choice rest =>
    simp only [hc] at h ⊢
    cases hcont : choice.Delta.Content with
    | none => simp [hcont] at h
    | some t =>
      cases htc : choice.Delta.ToolCalls with
      | cons a b => simp [htc] at h
      | nil =>
        cases hf : choice.FinishReason with
        | none =>
          simp [translateDeltas, messageStartStep, textDeltaStep, toolCallsStep,
            finishStep, NewStreamState, isToolBlockOpen, hcont, htc, hf,
            textOpenState]
        | some r =>
          simp [hcont, htc, hf] at h
          subst h
          simp [translateDeltas, messageStartStep, textDeltaStep, toolCallsStep,
            finishStep, NewStreamState, isToolBlockOpen, hcont, htc, hf,
            textOpenState]

theorem textOnly_next (c : ChatCompletionChunk)
    (h : isTextOnlyChunk c = true) :
    TranslateChunkToAnthropicEvents c textOpenState =
      ([SSEEvent.content_block_delta 0 (BlockDelta.text_delta (chunkText c))],
        textOpenState) := by
  unfold isTextOnlyChunk hasFinishReason at h
  unfold TranslateChunkToAnthropicEvents chunkText
  cases hc : c.Choices with
  | nil => simp [hc] at h
  | cons choice rest =>
    simp only [hc] at h ⊢
    cases hcont : choice.Delta.Content with
    | none => simp [hcont] at h
    | some t =>
      cases htc : choice.Delta.ToolCalls with
      | cons a b => simp [htc] at h
      | nil =>
        cases hf : choice.FinishReason with
        | none =>
          simp [translateDeltas, messageStartStep, textDeltaStep, toolCallsStep,
            finishStep, textOpenState, isToolBlockOpen, hcont, htc, hf]
        | some r =>
          simp [hcont, htc, hf] at h
          subst h
          simp [translateDeltas, messageStartStep, textDeltaStep, toolCallsStep,
            finishStep, textOpenState, isToolBlockOpen, hcont, htc, hf]

theorem finishOnly_last (c : ChatCompletionChunk)
    (h : isFinishOnlyChunk c = true) :
    TranslateChunkToAnthropicEvents c textOpenState =
      ([SSEEvent.content_block_stop 0,
        SSEEvent.message_delta
          (mapOpenAIStopReasonToAnthropic (chunkFinishReason c))
          (messageDeltaUsage c),
        SSEEvent.message_stop],
       { textOpenState with ContentBlockOpen := false }) := by
  unfold isFinishOnlyChunk hasFinishReason at h
  unfold TranslateChunkToAnthropicEvents chunkFinishReason
  cases hc : c.Choices with
  | nil => simp [hc] at h
  | cons choice rest =>
    simp only [hc] at h ⊢
    cases hcont : choice.Delta.Content with
    | some t => simp [hcont] at h
    | none =>
      cases htc : choice.Delta.ToolCalls with
      | cons a b => simp [htc] at h
      | nil =>
        cases hf : choice.FinishReason with
        | none => simp [hcont, htc, hf] at h
        | some r =>
          simp [hcont, htc, hf] at h
          simp [translateDeltas, messageStartStep, textDeltaStep, toolCallsStep,
            finishStep, textOpenState, isToolBlockOpen, hcont, htc, hf, h]

theorem textOnly_run (cs : List ChatCompletionChunk)
    (fin : ChatCompletionChunk)
    (hcs : ∀ c ∈ cs, isTextOnlyChunk c = true)
    (hfin : isFinishOnlyChunk fin = true) :
    (translateChunks (cs ++ [fin]) textOpenState).1 =
      cs.map (fun c =>
        SSEEvent.content_block_delta 0 (BlockDelta.text_delta (chunkText c))) ++
      [SSEEvent.content_block_stop 0,
        SSEEvent.message_delta
          (mapOpenAIStopReasonToAnthropic (chunkFinishReason fin))
          (messageDeltaUsage fin),
        SSEEvent.message_stop] := by
  induction cs with
  | nil => simp [translateChunks, finishOnly_last fin hfin]
  | cons c rest ih =>
    have hc := hcs c (List.mem_cons_self _ _)
    have hrest : ∀ c ∈ rest, isTextOnlyChunk c = true :=
      fun x hx => hcs x (List.mem_cons_of_mem _ hx)
    simp only [List.cons_append, translateChunks, textOnly_next c hc,
      List.map_cons]
    simp
    exact ih hrest


theorem textOnly_stream (c : ChatCompletionChunk) (rest : List ChatCompletionChunk)
    (fin : ChatCompletionChunk)
    (hc : isTextOnlyChunk c = true)
    (hrest : ∀ x ∈ rest, isTextOnlyChunk x = true)
    (hfin : isFinishOnlyChunk fin = true) :
    (translateChunks (c :: rest ++ [fin]) NewStreamState).1 =
      SSEEvent.message_start c.ID c.Model (messageStartUsage c) ::
      SSEEvent.content_block_start 0 (ContentBlockPayload.text "") ::
      ((c :: rest).map (fun x =>
        SSEEvent.content_block_delta 0 (BlockDelta.text_delta (chunkText x))) ++
      [SSEEvent.content_block_stop 0,
        SSEEvent.message_delta
          (mapOpenAIStopReasonToAnthropic (chunkFinishReason fin))
          (messageDeltaUsage fin),
        SSEEvent.message_stop]) := by
  simp only [List.cons_append, translateChunks, textOnly_first c hc]
  simp
  exact textOnly_run rest fin hrest hfin

/-- C1.  From a fresh state, a text-only chunk `c`, further text-only chunks
`rest` and one finish chunk `fin` translate to: for the two-chunk sequence
with content "Hi" and finish reason "stop", exactly the six events
`message_start`, `content_block_start` (text, index 0), `content_block_delta`
(text_delta "Hi", index 0), `content_block_stop` (index 0), `message_delta`
(stop_reason "end_turn"), `message_stop`; and in general exactly one
`content_block_start`, exactly one `content_block_stop`, one text delta per
text chunk (and no other delta), every block index being 0. -/
theorem C1_text_block_lifecycle (c : ChatCompletionChunk)
    (rest : List ChatCompletionChunk) (fin : ChatCompletionChunk)
    (hc : isTextOnlyChunk c = true)
    (hrest : ∀ x ∈ rest, isTextOnlyChunk x = true)
    (hfin : isFinishOnlyChunk fin = true) :
    (rest = [] → chunkText c = "Hi" → chunkFinishReason fin = some "stop" →
      (translateChunks (c :: rest ++ [fin]) NewStreamState).1 =
        [SSEEvent.message_start c.ID c.Model (messageStartUsage c),
         SSEEvent.content_block_start 0 (ContentBlockPayload.text ""),
         SSEEvent.content_block_delta 0 (BlockDelta.text_delta "Hi"),
         SSEEvent.content_block_stop 0,
         SSEEvent.message_delta (some "end_turn") (messageDeltaUsage fin),
         SSEEvent.message_stop]) ∧
    ((translateChunks (c :: rest ++ [fin]) NewStreamState).1.countP
        SSEEvent.isBlockStart = 1) ∧
    ((translateChunks (c :: rest ++ [fin]) NewStreamState).1.countP
        SSEEvent.isBlockStop = 1) ∧
    ((translateChunks (c :: rest ++ [fin]) NewStreamState).1.countP
        SSEEvent.isTextDelta = (c :: rest).length) ∧
    ((translateChunks (c :: rest ++ [fin]) NewStreamState).1.countP
        SSEEvent.isBlockDelta = (c :: rest).length) ∧
    (∀ e ∈ (translateChunks (c :: rest ++ [fin]) NewStreamState).1,
      ∀ i, e.blockIndex = some i → i = 0) := by
  rw [textOnly_stream c rest fin hc hrest hfin]
  have hmapT : ∀ l : List ChatCompletionChunk,
      (l.map (fun x => SSEEvent.content_block_delta 0
        (BlockDelta.text_delta (chunkText x)))).countP SSEEvent.isTextDelta = l.length := by
    intro l; induction l with
    | nil => rfl
    | cons a t ih => simp [List.countP_cons, ih, SSEEvent.isTextDelta]
  have hmapD : ∀ l : List ChatCompletionChunk,
      (l.map (fun x => SSEEvent.content_block_delta 0
        (BlockDelta.text_delta (chunkText x)))).countP SSEEvent.isBlockDelta = l.length := by
    intro l; induction l with
    | nil => rfl
    | cons a t ih => simp [List.countP_cons, ih, SSEEvent.isBlockDelta]
  have hmapS : ∀ l : List ChatCompletionChunk,
      (l.map (fun x => SSEEvent.content_block_delta 0
        (BlockDelta.text_delta (chunkText x)))).countP SSEEvent.isBlockStart = 0 := by
    intro l; induction l with
    | nil => rfl
    | cons a t ih => simp [List.countP_cons, ih, SSEEvent.isBlockStart]
  have hmapP : ∀ l : List ChatCompletionChunk,
      (l.map (fun x => SSEEvent.content_block_delta 0
        (BlockDelta.text_delta (chunkText x)))).countP SSEEvent.isBlockStop = 0 := by
    intro l; induction l with
    | nil => rfl
    | cons a t ih => simp [List.countP_cons, ih, SSEEvent.isBlockStop]
  refine ⟨?_, ?_, ?_, ?_, ?_, ?_⟩
  · intro hr ht hf
    subst hr
    simp [ht, hf, mapOpenAIStopReasonToAnthropic]
  · rw [List.countP_cons, List.countP_cons, List.countP_append, hmapS]
    simp [List.countP_cons, SSEEvent.isBlockStart]
  · rw [List.countP_cons, List.countP_cons, List.countP_append, hmapP]
    simp [List.countP_cons, SSEEvent.isBlockStop]
  · rw [List.countP_cons, List.countP_cons, List.countP_append, hmapT]
    simp [List.countP_cons, SSEEvent.isTextDelta]
  · rw [List.countP_cons, List.countP_cons, List.countP_append, hmapD]
    simp [List.countP_cons, SSEEvent.isBlockDelta]
  · intro e he i hi
    simp only [List.mem_cons, List.mem_append, List.mem_map, List.mem_singleton] at he
    rcases he with he | he | ⟨x, _, he⟩ | he | he | he | he
    all_goals first
      | (subst he; simp [SSEEvent.blockIndex] at hi; try omega)
      | (cases he)

theorem C1_text_block_lifecycle_witness :
    (translateChunks [hiChunk, stopChunk] NewStreamState).1 =
      [SSEEvent.message_start "chatcmpl-1" "gpt-4o" (messageStartUsage hiChunk),
       SSEEvent.content_block_start 0 (ContentBlockPayload.text ""),
       SSEEvent.content_block_delta 0 (BlockDelta.text_delta "Hi"),
       SSEEvent.content_block_stop 0,
       SSEEvent.message_delta (some "end_turn") (messageDeltaUsage stopChunk),
       SSEEvent.message_stop] :=
  (C1_text_block_lifecycle hiChunk [] stopChunk (by decide)
    (by intro x hx; cases hx) (by decide)).1 rfl (by decide) (by decide)

/-! ### Block open/close discipline -/

theorem blockScan_append (cur : Option Int) (a b : List SSEEvent) :
    blockScan cur (a ++ b) = (blockScan cur a).bind (fun c => blockScan c b) := by
  induction a generalizing cur with
  | nil => simp [blockScan]
  | cons e rest ih =>
    cases e <;> simp [blockScan, ih]
    · split <;> simp
    · split <;> simp

theorem messageStartStep_scan (chunk : ChatCompletionChunk) (s : AnthropicStreamState) :
    blockScan (openBlock s) (messageStartStep chunk s).1 =
      some (openBlock (messageStartStep chunk s).2) := by
  unfold messageStartStep
  split <;> simp [blockScan, openBlock]

theorem textDeltaStep_scan (content : Option String) (s : AnthropicStreamState) :
    blockScan (openBlock s) (textDeltaStep content s).1 =
      some (openBlock (textDeltaStep content s).2) := by
  unfold textDeltaStep
  cases content with
  | none => simp [blockScan]
  | some t =>
    cases ho : s.ContentBlockOpen <;> cases ht : isToolBlockOpen s <;>
      simp [blockScan, openBlock, ho, ht]

theorem toolCallArgumentsStep_snd (tc : ToolCall) (s : AnthropicStreamState) :
    (toolCallArgumentsStep tc s).2 = s := by
  unfold toolCallArgumentsStep
  split
  · split <;> rfl
  · rfl

theorem toolCallArgumentsStep_fst (tc : ToolCall) (s : AnthropicStreamState) :
    (toolCallArgumentsStep tc s).1 =
      if tc.Function.Arguments ≠ "" then
        match mapLookup s.ToolCalls tc.Index with
        | some info =>
          [SSEEvent.content_block_delta info.AnthropicBlockIndex
            (BlockDelta.input_json_delta tc.Function.Arguments)]
        | none => []
      else [] := by
  unfold toolCallArgumentsStep
  split
  · split <;> simp_all
  · rfl

theorem toolCallArgumentsStep_scan (cur : Option Int) (tc : ToolCall)
    (s : AnthropicStreamState) :
    blockScan cur (toolCallArgumentsStep tc s).1 = some cur := by
  rw [toolCallArgumentsStep_fst]
  split
  · split <;> simp [blockScan]
  · simp [blockScan]

theorem toolCallRegisterStep_scan (tc : ToolCall) (s : AnthropicStreamState) :
    blockScan (openBlock s) (toolCallRegisterStep tc s).1 =
      some (openBlock (toolCallRegisterStep tc s).2) := by
  unfold toolCallRegisterStep
  by_cases hreg : tc.ID ≠ "" ∧ tc.Function.Name ≠ ""
  · cases ho : s.ContentBlockOpen <;> simp [hreg, blockScan, openBlock, ho]
  · simp [hreg, blockScan]

theorem toolCallStep_scan (tc : ToolCall) (s : AnthropicStreamState) :
    blockScan (openBlock s) (toolCallStep tc s).1 =
      some (openBlock (toolCallStep tc s).2) := by
  simp [toolCallStep, blockScan_append, toolCallRegisterStep_scan,
    toolCallArgumentsStep_scan, toolCallArgumentsStep_snd]

theorem toolCallsStep_scan (tcs : List ToolCall) (s : AnthropicStreamState) :
    blockScan (openBlock s) (toolCallsStep tcs s).1 =
      some (openBlock (toolCallsStep tcs s).2) := by
  induction tcs generalizing s with
  | nil => simp [toolCallsStep, blockScan]
  | cons tc rest ih =>
    simp [toolCallsStep, blockScan_append, toolCallStep_scan, ih]

theorem finishStep_scan (chunk : ChatCompletionChunk) (fr : Option String) (s : AnthropicStreamState) :
    blockScan (openBlock s) (finishStep chunk fr s).1 =
      some (openBlock (finishStep chunk fr s).2) := by
  unfold finishStep
  cases fr with
  | none => simp [blockScan]
  | some r =>
    by_cases hr : r ≠ "" <;> cases ho : s.ContentBlockOpen <;>
      simp [blockScan, openBlock, ho, hr]

theorem translateChunk_scan (chunk : ChatCompletionChunk) (s : AnthropicStreamState) :
    blockScan (openBlock s) (TranslateChunkToAnthropicEvents chunk s).1 =
      some (openBlock (TranslateChunkToAnthropicEvents chunk s).2) := by
  unfold TranslateChunkToAnthropicEvents
  cases chunk.Choices with
  | nil => simp [blockScan]
  | cons choice rest =>
    simp [translateDeltas, blockScan_append, messageStartStep_scan, textDeltaStep_scan,
      toolCallsStep_scan, finishStep_scan]

theorem translateChunks_scan (cs : List ChatCompletionChunk) (s : AnthropicStreamState) :
    blockScan (openBlock s) (translateChunks cs s).1 =
      some (openBlock (translateChunks cs s).2) := by
  induction cs generalizing s with
  | nil => simp [translateChunks, blockScan]
  | cons c rest ih =>
    simp [translateChunks, blockScan_append, translateChunk_scan, ih]

theorem blockScan_alternate (l : List SSEEvent) :
    ∀ (cur r : Option Int), blockScan cur l = some r →
      (cur = none → startStopAlternate (blockEvents l) = true) ∧
      (∀ i b, cur = some i →
        startStopAlternate (SSEEvent.content_block_start i b :: blockEvents l) = true) ∧
      lastBlockEventIsStart cur.isSome l = r.isSome := by
  induction l with
  | nil =>
    intro cur r h
    simp [blockScan] at h
    subst h
    simp [blockEvents, startStopAlternate, lastBlockEventIsStart]
  | cons e rest ih =>
    intro cur r h
    cases e with
    | content_block_start j b =>
      simp only [blockScan] at h
      split at h
      · rename_i hc
        subst hc
        have := ih (some j) r h
        refine ⟨fun _ => ?_, fun i b hi => (by cases hi), ?_⟩
        · simpa [blockEvents, SSEEvent.isBlockStart] using this.2.1 j b rfl
        · simpa [lastBlockEventIsStart] using this.2.2
      · cases h
    | content_block_stop j =>
      simp only [blockScan] at h
      split at h
      · rename_i hc
        subst hc
        have := ih none r h
        refine ⟨fun hn => (by cases hn), fun i b hi => ?_, ?_⟩
        · cases hi
          have h1 := this.1 rfl
          simp [blockEvents, SSEEvent.isBlockStart, SSEEvent.isBlockStop, startStopAlternate]
          simpa [blockEvents] using h1
        · simpa [lastBlockEventIsStart] using this.2.2
      · cases h
    | message_start a b c =>
      simp only [blockScan] at h
      simpa [blockEvents, SSEEvent.isBlockStart, SSEEvent.isBlockStop, lastBlockEventIsStart]
        using ih cur r h
    | content_block_delta a b =>
      simp only [blockScan] at h
      simpa [blockEvents, SSEEvent.isBlockStart, SSEEvent.isBlockStop, lastBlockEventIsStart]
        using ih cur r h
    | message_delta a b =>
      simp only [blockScan] at h
      simpa [blockEvents, SSEEvent.isBlockStart, SSEEvent.isBlockStop, lastBlockEventIsStart]
        using ih cur r h
    | message_stop =>
      simp only [blockScan] at h
      simpa [blockEvents, SSEEvent.isBlockStart, SSEEvent.isBlockStop, lastBlockEventIsStart]
        using ih cur r h

/-- C4.  For every chunk sequence translated from a fresh state, the
`content_block_start` and `content_block_stop` events of the concatenated
output strictly alternate beginning with a start, every stop carries the
index of the start right before it, and after the calls
`state.ContentBlockOpen` is true exactly when the last such event emitted so
far was a start. -/
theorem C4_one_open_block (cs : List ChatCompletionChunk) :
    startStopAlternate (blockEvents (translateChunks cs NewStreamState).1) = true ∧
    ((translateChunks cs NewStreamState).2.ContentBlockOpen =
      lastBlockEventIsStart false (translateChunks cs NewStreamState).1) := by
  have h := translateChunks_scan cs NewStreamState
  have h0 : openBlock NewStreamState = none := rfl
  rw [h0] at h
  have := blockScan_alternate _ _ _ h
  refine ⟨this.1 rfl, ?_⟩
  have h2 := this.2.2
  simp only [Option.isSome_none] at h2
  rw [h2]
  unfold openBlock
  split <;> simp_all

/-! ### Block indices -/

theorem startIndices_append (a b : List SSEEvent) :
    startIndices (a ++ b) = startIndices a ++ startIndices b := by
  simp [startIndices, List.filterMap_append]

theorem consecutiveFrom_append (base : Int) (k1 k2 : Nat) :
    consecutiveFrom base k1 ++ consecutiveFrom (base + k1) k2 =
      consecutiveFrom base (k1 + k2) := by
  unfold consecutiveFrom
  rw [List.range_add, List.map_append, List.map_map]
  congr 1
  apply List.map_congr_left
  intro j _
  simp only [Function.comp]
  push_cast
  ring

theorem messageStartStep_starts (chunk : ChatCompletionChunk) (s : AnthropicStreamState) :
    startIndices (messageStartStep chunk s).1 = [] ∧
      blocksOpened (messageStartStep chunk s).2 = blocksOpened s := by
  unfold messageStartStep
  split <;> simp [startIndices, blocksOpened]

theorem textDeltaStep_starts (content : Option String) (s : AnthropicStreamState) :
    ∃ k, startIndices (textDeltaStep content s).1 = consecutiveFrom (blocksOpened s) k ∧
      blocksOpened (textDeltaStep content s).2 = blocksOpened s + k := by
  unfold textDeltaStep
  cases content with
  | none => exact ⟨0, by simp [startIndices, consecutiveFrom]⟩
  | some t =>
    cases ho : s.ContentBlockOpen
    · exact ⟨1, by simp [startIndices, consecutiveFrom, blocksOpened, ho, List.range_succ]⟩
    · cases ht : isToolBlockOpen s
      · exact ⟨0, by simp [startIndices, consecutiveFrom, blocksOpened, ho, ht]⟩
      · exact ⟨1, by simp [startIndices, consecutiveFrom, blocksOpened, ho, ht, List.range_succ]⟩

theorem toolCallArgumentsStep_starts (tc : ToolCall) (s : AnthropicStreamState) :
    startIndices (toolCallArgumentsStep tc s).1 = [] := by
  rw [toolCallArgumentsStep_fst]
  split
  · split <;> simp [startIndices]
  · simp [startIndices]

theorem toolCallStep_starts (tc : ToolCall) (s : AnthropicStreamState) :
    ∃ k, startIndices (toolCallStep tc s).1 = consecutiveFrom (blocksOpened s) k ∧
      blocksOpened (toolCallStep tc s).2 = blocksOpened s + k := by
  simp only [toolCallStep, startIndices_append, toolCallArgumentsStep_starts,
    toolCallArgumentsStep_snd, List.append_nil]
  unfold toolCallRegisterStep
  by_cases hreg : tc.ID ≠ "" ∧ tc.Function.Name ≠ ""
  · cases ho : s.ContentBlockOpen
    · exact ⟨1, by simp [hreg, startIndices, consecutiveFrom, blocksOpened, ho, List.range_succ]⟩
    · exact ⟨1, by simp [hreg, startIndices, consecutiveFrom, blocksOpened, ho, List.range_succ]⟩
  · exact ⟨0, by simp [hreg, startIndices, consecutiveFrom]⟩

theorem toolCallsStep_starts (tcs : List ToolCall) (s : AnthropicStreamState) :
    ∃ k, startIndices (toolCallsStep tcs s).1 = consecutiveFrom (blocksOpened s) k ∧
      blocksOpened (toolCallsStep tcs s).2 = blocksOpened s + k := by
  induction tcs generalizing s with
  | nil => exact ⟨0, by simp [toolCallsStep, startIndices, consecutiveFrom]⟩
  | cons tc rest ih =>
    obtain ⟨k1, h1, h1'⟩ := toolCallStep_starts tc s
    obtain ⟨k2, h2, h2'⟩ := ih (toolCallStep tc s).2
    refine ⟨k1 + k2, ?_, ?_⟩
    · simp only [toolCallsStep, startIndices_append, h1, h2, h1']
      exact consecutiveFrom_append _ _ _
    · simp only [toolCallsStep, h2', h1']
      push_cast; ring

theorem translateDeltas_starts (chunk : ChatCompletionChunk) (choice : Choice)
    (s : AnthropicStreamState) :
    ∃ k, startIndices (translateDeltas chunk choice s).1 = consecutiveFrom (blocksOpened s) k ∧
      blocksOpened (translateDeltas chunk choice s).2 = blocksOpened s + k := by
  obtain ⟨h0, h0'⟩ := messageStartStep_starts chunk s
  obtain ⟨k1, h1, h1'⟩ := textDeltaStep_starts choice.Delta.Content (messageStartStep chunk s).2
  obtain ⟨k2, h2, h2'⟩ := toolCallsStep_starts choice.Delta.ToolCalls
    (textDeltaStep choice.Delta.Content (messageStartStep chunk s).2).2
  refine ⟨k1 + k2, ?_, ?_⟩
  · simp only [translateDeltas, startIndices_append, h0, h1, h2, h1', h0', List.nil_append]
    exact consecutiveFrom_append _ _ _
  · simp only [translateDeltas, h2', h1', h0']
    push_cast; ring

theorem finishStep_starts (chunk : ChatCompletionChunk) (fr : Option String)
    (s : AnthropicStreamState) :
    startIndices (finishStep chunk fr s).1 = [] := by
  unfold finishStep
  cases fr with
  | none => simp [startIndices]
  | some r =>
    by_cases hr : r ≠ "" <;> cases ho : s.ContentBlockOpen <;> simp [startIndices, hr]

theorem finishStep_noFinish (chunk : ChatCompletionChunk) (fr : Option String)
    (s : AnthropicStreamState) (h : fr = none ∨ fr = some "") :
    finishStep chunk fr s = ([], s) := by
  rcases h with h | h <;> subst h <;> simp [finishStep]

theorem translateChunk_starts (chunk : ChatCompletionChunk) (s : AnthropicStreamState) :
    ∃ k, startIndices (TranslateChunkToAnthropicEvents chunk s).1 =
        consecutiveFrom (blocksOpened s) k ∧
      (hasFinishReason chunk = false →
        blocksOpened (TranslateChunkToAnthropicEvents chunk s).2 = blocksOpened s + k) := by
  unfold TranslateChunkToAnthropicEvents hasFinishReason
  cases hc : chunk.Choices with
  | nil => exact ⟨0, by simp [startIndices, consecutiveFrom]⟩
  | cons choice rest =>
    obtain ⟨k, h1, h2⟩ := translateDeltas_starts chunk choice s
    refine ⟨k, ?_, ?_⟩
    · simp [startIndices_append, finishStep_starts, h1]
    · intro hf
      have : choice.FinishReason = none ∨ choice.FinishReason = some "" := by
        cases hfr : choice.FinishReason with
        | none => exact Or.inl rfl
        | some r => simp [hfr] at hf; exact Or.inr (by rw [hf])
      simp only [finishStep_noFinish _ _ _ this]
      exact h2

theorem translateChunks_starts (cs : List ChatCompletionChunk) :
    ∀ s : AnthropicStreamState,
    (∀ c ∈ cs.dropLast, hasFinishReason c = false) →
    ∃ k, startIndices (translateChunks cs s).1 = consecutiveFrom (blocksOpened s) k := by
  induction cs with
  | nil => intro s _; exact ⟨0, by simp [translateChunks, startIndices, consecutiveFrom]⟩
  | cons c rest ih =>
    intro s h
    obtain ⟨k1, h1, h1'⟩ := translateChunk_starts c s
    cases rest with
    | nil =>
      refine ⟨k1, ?_⟩
      have hnil : startIndices ([] : List SSEEvent) = [] := rfl
      rw [translateChunks, translateChunks]
      simp only [startIndices_append, h1, hnil, List.append_nil]
    | cons c2 rest2 =>
      have hc : hasFinishReason c = false := h c (by simp [List.dropLast])
      have hrest : ∀ x ∈ (c2 :: rest2).dropLast, hasFinishReason x = false := by
        intro x hx
        exact h x (by simp [List.dropLast]; exact Or.inr hx)
      obtain ⟨k2, h2⟩ := ih (TranslateChunkToAnthropicEvents c s).2 hrest
      refine ⟨k1 + k2, ?_⟩
      rw [translateChunks]
      simp only [startIndices_append, h1, h2, h1' hc]
      exact consecutiveFrom_append _ _ _

/-- C3.  For every chunk sequence translated from a fresh state in which
only the last chunk may carry a non-empty finish reason, the indices of the
`content_block_start` events, in emission order, are exactly 0, 1, 2, ..
(strictly increasing, starting at 0). -/
theorem C3_start_indices_increase (cs : List ChatCompletionChunk)
    (h : ∀ c ∈ cs.dropLast, hasFinishReason c = false) :
    startIndices (translateChunks cs NewStreamState).1 =
      (List.range (startIndices (translateChunks cs NewStreamState).1).length).map
        (fun (j : Nat) => (j : Int)) := by
  obtain ⟨k, hk⟩ := translateChunks_starts cs NewStreamState h
  rw [hk]
  have hb : blocksOpened NewStreamState = 0 := by decide
  unfold consecutiveFrom
  rw [List.length_map, List.length_range, hb]
  apply List.map_congr_left
  intro j _
  exact zero_add _

theorem C3_start_indices_increase_witness :
    startIndices (translateChunks [hiChunk, toolStartChunk, hiChunk, stopChunk] NewStreamState).1 =
      (List.range (startIndices
        (translateChunks [hiChunk, toolStartChunk, hiChunk, stopChunk] NewStreamState).1).length).map
        (fun (j : Nat) => (j : Int)) :=
  C3_start_indices_increase [hiChunk, toolStartChunk, hiChunk, stopChunk] (by decide)

theorem stopIndices_append (a b : List SSEEvent) :
    stopIndices (a ++ b) = stopIndices a ++ stopIndices b := by
  simp [stopIndices, List.filterMap_append]

theorem blockScan_indices (l : List SSEEvent) :
    ∀ (cur r : Option Int), blockScan cur l = some r →
      stopIndices l ++ r.toList = cur.toList ++ startIndices l := by
  induction l with
  | nil =>
    intro cur r h
    simp [blockScan] at h
    subst h
    simp [stopIndices, startIndices]
  | cons e rest ih =>
    intro cur r h
    cases e with
    | content_block_start j b =>
      simp only [blockScan] at h
      split at h
      · rename_i hc
        subst hc
        have := ih (some j) r h
        simpa [stopIndices, startIndices] using this
      · cases h
    | content_block_stop j =>
      simp only [blockScan] at h
      split at h
      · rename_i hc
        subst hc
        have := ih none r h
        simpa [stopIndices, startIndices] using this
      · cases h
    | message_start a b c =>
      simp only [blockScan] at h
      simpa [stopIndices, startIndices] using ih cur r h
    | content_block_delta a b =>
      simp only [blockScan] at h
      simpa [stopIndices, startIndices] using ih cur r h
    | message_delta a b =>
      simp only [blockScan] at h
      simpa [stopIndices, startIndices] using ih cur r h
    | message_stop =>
      simp only [blockScan] at h
      simpa [stopIndices, startIndices] using ih cur r h

theorem count_stop_eq (i : Int) (l : List SSEEvent) :
    l.count (SSEEvent.content_block_stop i) = (stopIndices l).count i := by
  induction l with
  | nil => simp [stopIndices]
  | cons e rest ih =>
    cases e with
    | content_block_stop j =>
      by_cases hj : j = i
      · subst hj
        simp [stopIndices] at ih ⊢
        exact ih
      · have hne : (SSEEvent.content_block_stop j == SSEEvent.content_block_stop i) = false := by
          simp [hj]
        have hne2 : (j == i) = false := by simp [hj]
        simp only [List.count_cons, hne, stopIndices, List.filterMap_cons, hne2] at ih ⊢
        simpa using ih
    | _ => simpa [stopIndices, List.count_cons] using ih

theorem consecutiveFrom_nodup (base : Int) (k : Nat) : (consecutiveFrom base k).Nodup := by
  unfold consecutiveFrom
  apply List.Nodup.map
  · intro a b hab
    simp only at hab
    omega
  · exact List.nodup_range k

/-- In an event list that replays to "no block open" and whose start indices
are pairwise distinct, every start is followed by exactly one stop of its
index. -/
theorem start_closed_once (out : List SSEEvent) (cur : Option Int)
    (hscan : blockScan cur out = some none) (hnd : (startIndices out).Nodup)
    (pre post : List SSEEvent) (i : Int) (b : ContentBlockPayload)
    (hsplit : out = pre ++ SSEEvent.content_block_start i b :: post) :
    post.count (SSEEvent.content_block_stop i) = 1 := by
  subst hsplit
  rw [blockScan_append] at hscan
  cases hp : blockScan cur pre with
  | none => simp [hp] at hscan
  | some c1 =>
    simp only [hp, Option.some_bind, blockScan] at hscan
    split at hscan
    · have hA := blockScan_indices post _ _ hscan
      simp only [Option.toList, List.append_nil, List.singleton_append] at hA
      rw [count_stop_eq, hA]
      rw [startIndices_append] at hnd
      have hnd2 : (startIndices (SSEEvent.content_block_start i b :: post)).Nodup :=
        (List.nodup_append.mp hnd).2.1
      have hcons : startIndices (SSEEvent.content_block_start i b :: post) =
          i :: startIndices post := by simp [startIndices]
      rw [hcons] at hnd2
      have hni : i ∉ startIndices post := (List.nodup_cons.mp hnd2).1
      simp [List.count_cons, List.count_eq_zero_of_not_mem hni]
    · cases hscan

/-! ### Which events each phase can emit -/

theorem messageStartStep_sent (chunk : ChatCompletionChunk) (s : AnthropicStreamState) :
    (messageStartStep chunk s).2.MessageStartSent = true := by
  unfold messageStartStep
  cases h : s.MessageStartSent <;> simp [h]

theorem messageStartStep_fst (chunk : ChatCompletionChunk) (s : AnthropicStreamState) :
    (messageStartStep chunk s).1 =
      if s.MessageStartSent then []
      else [SSEEvent.message_start chunk.ID chunk.Model (messageStartUsage chunk)] := by
  unfold messageStartStep
  cases h : s.MessageStartSent <;> simp [h]

theorem textDeltaStep_kinds (content : Option String) (s : AnthropicStreamState) :
    ∀ e ∈ (textDeltaStep content s).1, e.isContentBlockEvent = true := by
  unfold textDeltaStep
  cases content with
  | none => simp
  | some t =>
    cases ho : s.ContentBlockOpen <;> cases ht : isToolBlockOpen s <;>
      simp [ho, ht, SSEEvent.isContentBlockEvent, SSEEvent.isBlockStart,
        SSEEvent.isBlockDelta, SSEEvent.isBlockStop]

theorem textDeltaStep_sent (content : Option String) (s : AnthropicStreamState) :
    (textDeltaStep content s).2.MessageStartSent = s.MessageStartSent := by
  unfold textDeltaStep
  cases content with
  | none => simp
  | some t =>
    cases ho : s.ContentBlockOpen <;> cases ht : isToolBlockOpen s <;> simp [ho, ht]

theorem toolCallRegisterStep_kinds (tc : ToolCall) (s : AnthropicStreamState) :
    ∀ e ∈ (toolCallRegisterStep tc s).1, e.isContentBlockEvent = true := by
  unfold toolCallRegisterStep
  by_cases hreg : tc.ID ≠ "" ∧ tc.Function.Name ≠ ""
  · cases ho : s.ContentBlockOpen <;>
      simp [hreg, ho, SSEEvent.isContentBlockEvent, SSEEvent.isBlockStart,
        SSEEvent.isBlockDelta, SSEEvent.isBlockStop]
  · simp [hreg]

theorem toolCallRegisterStep_sent (tc : ToolCall) (s : AnthropicStreamState) :
    (toolCallRegisterStep tc s).2.MessageStartSent = s.MessageStartSent := by
  unfold toolCallRegisterStep
  by_cases hreg : tc.ID ≠ "" ∧ tc.Function.Name ≠ ""
  · cases ho : s.ContentBlockOpen <;> simp [hreg, ho]
  · simp [hreg]

theorem toolCallArgumentsStep_kinds (tc : ToolCall) (s : AnthropicStreamState) :
    ∀ e ∈ (toolCallArgumentsStep tc s).1, e.isContentBlockEvent = true := by
  rw [toolCallArgumentsStep_fst]
  split
  · split <;> simp [SSEEvent.isContentBlockEvent, SSEEvent.isBlockDelta]
  · simp

theorem toolCallStep_kinds (tc : ToolCall) (s : AnthropicStreamState) :
    ∀ e ∈ (toolCallStep tc s).1, e.isContentBlockEvent = true := by
  intro e he
  simp only [toolCallStep, List.mem_append] at he
  rcases he with he | he
  · exact toolCallRegisterStep_kinds tc s e he
  · exact toolCallArgumentsStep_kinds tc _ e he

theorem toolCallStep_sent (tc : ToolCall) (s : AnthropicStreamState) :
    (toolCallStep tc s).2.MessageStartSent = s.MessageStartSent := by
  simp [toolCallStep, toolCallArgumentsStep_snd, toolCallRegisterStep_sent]

theorem toolCallsStep_kinds (tcs : List ToolCall) (s : AnthropicStreamState) :
    ∀ e ∈ (toolCallsStep tcs s).1, e.isContentBlockEvent = true := by
  induction tcs generalizing s with
  | nil => simp [toolCallsStep]
  | cons tc rest ih =>
    intro e he
    simp only [toolCallsStep, List.mem_append] at he
    rcases he with he | he
    · exact toolCallStep_kinds tc s e he
    · exact ih _ e he

theorem toolCallsStep_sent (tcs : List ToolCall) (s : AnthropicStreamState) :
    (toolCallsStep tcs s).2.MessageStartSent = s.MessageStartSent := by
  induction tcs generalizing s with
  | nil => simp [toolCallsStep]
  | cons tc rest ih => simp [toolCallsStep, ih, toolCallStep_sent]

theorem finishStep_some (chunk : ChatCompletionChunk) (r : String) (hr : r ≠ "")
    (s : AnthropicStreamState) :
    finishStep chunk (some r) s =
      ((if s.ContentBlockOpen then [SSEEvent.content_block_stop s.ContentBlockIndex] else []) ++
        [SSEEvent.message_delta (mapOpenAIStopReasonToAnthropic (some r))
          (messageDeltaUsage chunk), SSEEvent.message_stop],
       { s with ContentBlockOpen := false }) := by
  unfold finishStep
  cases ho : s.ContentBlockOpen <;> simp [hr, ho]
  cases s; simp_all

theorem finishStep_sent (chunk : ChatCompletionChunk) (fr : Option String)
    (s : AnthropicStreamState) :
    (finishStep chunk fr s).2.MessageStartSent = s.MessageStartSent := by
  unfold finishStep
  cases fr with
  | none => simp
  | some r => by_cases hr : r ≠ "" <;> cases ho : s.ContentBlockOpen <;> simp [hr, ho]

theorem finishStep_noStart (chunk : ChatCompletionChunk) (fr : Option String)
    (s : AnthropicStreamState) :
    ∀ e ∈ (finishStep chunk fr s).1, e.isMessageStart = false := by
  unfold finishStep
  cases fr with
  | none => simp
  | some r =>
    by_cases hr : r ≠ "" <;> cases ho : s.ContentBlockOpen <;>
      simp [hr, ho, SSEEvent.isMessageStart]

theorem contentBlockEvent_kinds (e : SSEEvent) (h : e.isContentBlockEvent = true) :
    e.isMessageStart = false ∧ e.isMessageDelta = false ∧ e.isMessageStop = false := by
  cases e <;> simp_all [SSEEvent.isContentBlockEvent, SSEEvent.isBlockStart,
    SSEEvent.isBlockDelta, SSEEvent.isBlockStop, SSEEvent.isMessageStart,
    SSEEvent.isMessageDelta, SSEEvent.isMessageStop]

theorem translateDeltas_kinds (chunk : ChatCompletionChunk) (choice : Choice)
    (s : AnthropicStreamState) :
    ∀ e ∈ (translateDeltas chunk choice s).1,
      e.isMessageDelta = false ∧ e.isMessageStop = false := by
  intro e he
  simp only [translateDeltas, List.mem_append] at he
  rcases he with (he | he) | he
  · rw [messageStartStep_fst] at he
    split at he
    · cases he
    · simp at he; subst he; simp [SSEEvent.isMessageDelta, SSEEvent.isMessageStop]
  · exact (contentBlockEvent_kinds e (textDeltaStep_kinds _ _ e he)).2
  · exact (contentBlockEvent_kinds e (toolCallsStep_kinds _ _ e he)).2

theorem translateDeltas_sent (chunk : ChatCompletionChunk) (choice : Choice)
    (s : AnthropicStreamState) :
    (translateDeltas chunk choice s).2.MessageStartSent = true := by
  simp [translateDeltas, toolCallsStep_sent, textDeltaStep_sent, messageStartStep_sent]

/-! ### The finish step -/

theorem translateChunk_finish (state : AnthropicStreamState) (chunk : ChatCompletionChunk)
    (choice : Choice) (rest : List Choice) (r : String)
    (hc : chunk.Choices = choice :: rest) (hf : choice.FinishReason = some r)
    (hr : r ≠ "") :
    TranslateChunkToAnthropicEvents chunk state =
      ((translateDeltas chunk choice state).1 ++
        ((if (translateDeltas chunk choice state).2.ContentBlockOpen then
            [SSEEvent.content_block_stop
              (translateDeltas chunk choice state).2.ContentBlockIndex]
          else []) ++
        [SSEEvent.message_delta (mapOpenAIStopReasonToAnthropic (some r))
          (messageDeltaUsage chunk), SSEEvent.message_stop]),
       { (translateDeltas chunk choice state).2 with ContentBlockOpen := false }) := by
  unfold TranslateChunkToAnthropicEvents
  simp only [hc, hf, finishStep_some chunk r hr]

theorem translateChunk_noFinish (state : AnthropicStreamState) (chunk : ChatCompletionChunk)
    (choice : Choice) (rest : List Choice)
    (hc : chunk.Choices = choice :: rest) (hf : hasFinishReason chunk = false) :
    TranslateChunkToAnthropicEvents chunk state = translateDeltas chunk choice state := by
  unfold TranslateChunkToAnthropicEvents
  unfold hasFinishReason at hf
  simp only [hc] at hf ⊢
  have : choice.FinishReason = none ∨ choice.FinishReason = some "" := by
    cases hfr : choice.FinishReason with
    | none => exact Or.inl rfl
    | some r => simp [hfr] at hf; exact Or.inr (by rw [hf])
  simp [finishStep_noFinish _ _ _ this]

/-- C8.  For every state and every chunk whose first choice has a non-empty
finish reason `r`, the returned events are the events of the chunk's deltas
followed by: a `content_block_stop` for the current block index exactly when
a block is open after the deltas were processed, then the one `message_delta`
of the call, whose stop reason is the table-mapped value of `r` (absent when
`r` is not in the table), then `message_stop` as the last event; afterwards
`ContentBlockOpen` is false.  A chunk whose finish reason is absent or empty
emits neither `message_delta` nor `message_stop`. -/
theorem C8_finish_step (state : AnthropicStreamState) (chunk : ChatCompletionChunk) :
    (∀ (choice : Choice) (rest : List Choice) (r : String),
      chunk.Choices = choice :: rest → choice.FinishReason = some r → r ≠ "" →
      (TranslateChunkToAnthropicEvents chunk state).1 =
        (translateDeltas chunk choice state).1 ++
          ((if (translateDeltas chunk choice state).2.ContentBlockOpen then
              [SSEEvent.content_block_stop
                (translateDeltas chunk choice state).2.ContentBlockIndex]
            else []) ++
          [SSEEvent.message_delta (mapOpenAIStopReasonToAnthropic (some r))
            (messageDeltaUsage chunk), SSEEvent.message_stop]) ∧
      (∀ e ∈ (translateDeltas chunk choice state).1,
        e.isMessageDelta = false ∧ e.isMessageStop = false) ∧
      (TranslateChunkToAnthropicEvents chunk state).1.countP SSEEvent.isMessageDelta = 1 ∧
      (TranslateChunkToAnthropicEvents chunk state).1.countP SSEEvent.isMessageStop = 1 ∧
      (r ≠ "stop" → r ≠ "length" → r ≠ "tool_calls" → r ≠ "content_filter" →
        mapOpenAIStopReasonToAnthropic (some r) = none) ∧
      (TranslateChunkToAnthropicEvents chunk state).2.ContentBlockOpen = false) ∧
    (hasFinishReason chunk = false →
      ∀ e ∈ (TranslateChunkToAnthropicEvents chunk state).1,
        e.isMessageDelta = false ∧ e.isMessageStop = false) := by
  constructor
  · intro choice rest r hc hf hr
    have hk := translateDeltas_kinds chunk choice state
    have hcd : (translateDeltas chunk choice state).1.countP SSEEvent.isMessageDelta = 0 :=
      List.countP_eq_zero.mpr (fun e he => by simp [(hk e he).1])
    have hcs : (translateDeltas chunk choice state).1.countP SSEEvent.isMessageStop = 0 :=
      List.countP_eq_zero.mpr (fun e he => by simp [(hk e he).2])
    rw [translateChunk_finish state chunk choice rest r hc hf hr]
    refine ⟨rfl, hk, ?_, ?_, ?_, rfl⟩
    · simp only [List.countP_append, hcd]
      split <;> simp [List.countP_cons, SSEEvent.isMessageDelta]
    · simp only [List.countP_append, hcs]
      split <;> simp [List.countP_cons, SSEEvent.isMessageStop]
    · intro h1 h2 h3 h4
      simp [mapOpenAIStopReasonToAnthropic, h1, h2, h3, h4]
  · intro hf
    cases hc : chunk.Choices with
    | nil => simp [TranslateChunkToAnthropicEvents, hc]
    | cons choice rest =>
      rw [translateChunk_noFinish state chunk choice rest hc hf]
      exact translateDeltas_kinds chunk choice state

theorem C8_finish_step_witness :
    (TranslateChunkToAnthropicEvents stopChunk textOpenState).1 =
      [SSEEvent.content_block_stop 0,
       SSEEvent.message_delta (some "end_turn") (messageDeltaUsage stopChunk),
       SSEEvent.message_stop] ∧
    (∀ e ∈ (TranslateChunkToAnthropicEvents hiChunk textOpenState).1,
      e.isMessageDelta = false ∧ e.isMessageStop = false) :=
  ⟨((C8_finish_step textOpenState stopChunk).1 _ [] "stop" rfl rfl (by decide)).1,
   (C8_finish_step textOpenState hiChunk).2 (by decide)⟩

/-! ### `message_start` -/

theorem translateChunk_nil (chunk : ChatCompletionChunk) (s : AnthropicStreamState)
    (h : chunk.Choices = []) : TranslateChunkToAnthropicEvents chunk s = ([], s) := by
  simp [TranslateChunkToAnthropicEvents, h]

theorem translateDeltas_noStart (chunk : ChatCompletionChunk) (choice : Choice)
    (s : AnthropicStreamState) (hs : s.MessageStartSent = true) :
    ∀ e ∈ (translateDeltas chunk choice s).1, e.isMessageStart = false := by
  intro e he
  simp only [translateDeltas, List.mem_append] at he
  rcases he with (he | he) | he
  · rw [messageStartStep_fst] at he
    simp [hs] at he
  · exact (contentBlockEvent_kinds e (textDeltaStep_kinds _ _ e he)).1
  · exact (contentBlockEvent_kinds e (toolCallsStep_kinds _ _ e he)).1

theorem translateChunk_sent (chunk : ChatCompletionChunk) (s : AnthropicStreamState)
    (hs : s.MessageStartSent = true) :
    (∀ e ∈ (TranslateChunkToAnthropicEvents chunk s).1, e.isMessageStart = false) ∧
      (TranslateChunkToAnthropicEvents chunk s).2.MessageStartSent = true := by
  unfold TranslateChunkToAnthropicEvents
  cases hc : chunk.Choices with
  | nil => simp [hs]
  | cons choice rest =>
    refine ⟨?_, ?_⟩
    · intro e he
      simp only [List.mem_append] at he
      rcases he with he | he
      · exact translateDeltas_noStart chunk choice s hs e he
      · exact finishStep_noStart _ _ _ e he
    · simp [finishStep_sent, translateDeltas_sent]

theorem translateChunk_first (chunk : ChatCompletionChunk) (s : AnthropicStreamState)
    (hs : s.MessageStartSent = false) (hc : hasChoice chunk = true) :
    (∃ rest, (TranslateChunkToAnthropicEvents chunk s).1 =
        SSEEvent.message_start chunk.ID chunk.Model (messageStartUsage chunk) :: rest ∧
        ∀ e ∈ rest, e.isMessageStart = false) ∧
      (TranslateChunkToAnthropicEvents chunk s).2.MessageStartSent = true := by
  unfold TranslateChunkToAnthropicEvents
  unfold hasChoice at hc
  cases hch : chunk.Choices with
  | nil => simp [hch] at hc
  | cons choice rest =>
    refine ⟨⟨(textDeltaStep choice.Delta.Content (messageStartStep chunk s).2).1 ++
        (toolCallsStep choice.Delta.ToolCalls
          (textDeltaStep choice.Delta.Content (messageStartStep chunk s).2).2).1 ++
        (finishStep chunk choice.FinishReason (translateDeltas chunk choice s).2).1, ?_, ?_⟩, ?_⟩
    · simp [translateDeltas, messageStartStep_fst, hs]
    · intro e he
      simp only [List.mem_append] at he
      rcases he with (he | he) | he
      · exact (contentBlockEvent_kinds e (textDeltaStep_kinds _ _ e he)).1
      · exact (contentBlockEvent_kinds e (toolCallsStep_kinds _ _ e he)).1
      · exact finishStep_noStart _ _ _ e he
    · simp [finishStep_sent, translateDeltas_sent]

theorem translateChunks_sent (cs : List ChatCompletionChunk) (s : AnthropicStreamState)
    (hs : s.MessageStartSent = true) :
    (∀ e ∈ (translateChunks cs s).1, e.isMessageStart = false) ∧
      (translateChunks cs s).2.MessageStartSent = true := by
  induction cs generalizing s with
  | nil => simp [translateChunks, hs]
  | cons c rest ih =>
    obtain ⟨h1, h2⟩ := translateChunk_sent c s hs
    obtain ⟨h3, h4⟩ := ih _ h2
    refine ⟨?_, by simpa [translateChunks] using h4⟩
    intro e he
    simp only [translateChunks, List.mem_append] at he
    rcases he with he | he
    · exact h1 e he
    · exact h3 e he

theorem translateChunks_first (cs : List ChatCompletionChunk) (s : AnthropicStreamState)
    (hs : s.MessageStartSent = false) :
    (cs.any hasChoice = false → (translateChunks cs s).1 = []) ∧
    (cs.any hasChoice = true →
      ∃ id model usage rest,
        (translateChunks cs s).1 = SSEEvent.message_start id model usage :: rest ∧
        ∀ e ∈ rest, e.isMessageStart = false) := by
  induction cs generalizing s with
  | nil => simp [translateChunks]
  | cons c rest ih =>
    by_cases hc : hasChoice c = true
    · obtain ⟨⟨tl, h1, h2⟩, h3⟩ := translateChunk_first c s hs hc
      obtain ⟨h4, _⟩ := translateChunks_sent rest _ h3
      refine ⟨by simp [hc], fun _ => ⟨c.ID, c.Model, messageStartUsage c,
        tl ++ (translateChunks rest (TranslateChunkToAnthropicEvents c s).2).1, ?_, ?_⟩⟩
      · simp [translateChunks, h1]
      · intro e he
        simp only [List.mem_append] at he
        rcases he with he | he
        · exact h2 e he
        · exact h4 e he
    · have hnil : c.Choices = [] := by
        unfold hasChoice at hc
        cases hch : c.Choices with
        | nil => rfl
        | cons a b => simp [hch] at hc
      have hc' : hasChoice c = false := by simpa using hc
      simp only [translateChunks, translateChunk_nil c s hnil, List.nil_append,
        List.any_cons, hc', Bool.false_or]
      exact ih s hs

/-- C6.  For every chunk sequence translated from a fresh state, the
concatenated output contains `message_start` exactly once if some chunk has
at least one choice and not at all otherwise; when present it is the very
first event; and once `state.MessageStartSent` is true no later call emits
`message_start` or resets the flag. -/
theorem C6_message_start_once (cs : List ChatCompletionChunk) :
    ((translateChunks cs NewStreamState).1.countP SSEEvent.isMessageStart =
      if cs.any hasChoice then 1 else 0) ∧
    (cs.any hasChoice = true →
      ∃ id model usage rest,
        (translateChunks cs NewStreamState).1 =
          SSEEvent.message_start id model usage :: rest) ∧
    (∀ (state : AnthropicStreamState) (chunk : ChatCompletionChunk),
      state.MessageStartSent = true →
        (∀ e ∈ (TranslateChunkToAnthropicEvents chunk state).1, e.isMessageStart = false) ∧
        (TranslateChunkToAnthropicEvents chunk state).2.MessageStartSent = true) := by
  obtain ⟨h0, h1⟩ := translateChunks_first cs NewStreamState rfl
  refine ⟨?_, ?_, fun state chunk hs => translateChunk_sent chunk state hs⟩
  · cases ha : cs.any hasChoice with
    | false => simp [h0 ha]
    | true =>
      obtain ⟨id, model, usage, rest, h2, h3⟩ := h1 ha
      have : rest.countP SSEEvent.isMessageStart = 0 :=
        List.countP_eq_zero.mpr (fun e he => by simp [h3 e he])
      simp [h2, List.countP_cons, this, SSEEvent.isMessageStart]
  · intro ha
    obtain ⟨id, model, usage, rest, h2, _⟩ := h1 ha
    exact ⟨id, model, usage, rest, h2⟩

theorem C6_message_start_once_witness :
    (∃ id model usage rest,
        (translateChunks [hiChunk, stopChunk] NewStreamState).1 =
          SSEEvent.message_start id model usage :: rest) ∧
    ((∀ e ∈ (TranslateChunkToAnthropicEvents hiChunk textOpenState).1,
        e.isMessageStart = false) ∧
      (TranslateChunkToAnthropicEvents hiChunk textOpenState).2.MessageStartSent = true) :=
  ⟨(C6_message_start_once [hiChunk, stopChunk]).2.1 (by decide),
   (C6_message_start_once []).2.2 textOpenState hiChunk rfl⟩

/-! ### `message_stop` -/

/-- In a list that ends with its only `message_stop`, nothing follows a
`message_stop`. -/
theorem messageStop_last (body pre post : List SSEEvent)
    (hbody : ∀ e ∈ body, e.isMessageStop = false)
    (h : body ++ [SSEEvent.message_stop] = pre ++ SSEEvent.message_stop :: post) :
    post = [] := by
  induction body generalizing pre with
  | nil =>
    cases pre with
    | nil => simpa using h.symm
    | cons p pre2 =>
      simp only [List.nil_append, List.cons_append, List.cons.injEq] at h
      obtain ⟨_, h2⟩ := h
      cases pre2 <;> simp at h2
  | cons b rest ih =>
    cases pre with
    | nil =>
      simp only [List.cons_append, List.nil_append, List.cons.injEq] at h
      have := hbody b (List.mem_cons_self _ _)
      rw [h.1] at this
      simp [SSEEvent.isMessageStop] at this
    | cons p pre2 =>
      simp only [List.cons_append, List.cons.injEq] at h
      exact ih pre2 (fun e he => hbody e (List.mem_cons_of_mem _ he)) h.2

theorem noStop_split (l pre post : List SSEEvent)
    (hl : ∀ e ∈ l, e.isMessageStop = false)
    (h : l = pre ++ SSEEvent.message_stop :: post) : False := by
  have := hl SSEEvent.message_stop (by rw [h]; simp)
  simp [SSEEvent.isMessageStop] at this

theorem translateChunk_noFinish_kinds (chunk : ChatCompletionChunk) (s : AnthropicStreamState)
    (hf : hasFinishReason chunk = false) :
    ∀ e ∈ (TranslateChunkToAnthropicEvents chunk s).1,
      e.isMessageDelta = false ∧ e.isMessageStop = false := by
  cases hc : chunk.Choices with
  | nil => simp [TranslateChunkToAnthropicEvents, hc]
  | cons choice rest =>
    rw [translateChunk_noFinish s chunk choice rest hc hf]
    exact translateDeltas_kinds chunk choice s

theorem translateChunks_noFinish_kinds (cs : List ChatCompletionChunk)
    (s : AnthropicStreamState) (hf : ∀ c ∈ cs, hasFinishReason c = false) :
    ∀ e ∈ (translateChunks cs s).1, e.isMessageStop = false := by
  induction cs generalizing s with
  | nil => simp [translateChunks]
  | cons c rest ih =>
    intro e he
    simp only [translateChunks, List.mem_append] at he
    rcases he with he | he
    · exact (translateChunk_noFinish_kinds c s (hf c (List.mem_cons_self _ _)) e he).2
    · exact ih _ (fun x hx => hf x (List.mem_cons_of_mem _ hx)) e he

/-- The events of one call are: events that are not `message_stop`, followed
by at most one final `message_stop`. -/
theorem translateChunk_stop_shape (chunk : ChatCompletionChunk) (s : AnthropicStreamState) :
    (∀ e ∈ (TranslateChunkToAnthropicEvents chunk s).1, e.isMessageStop = false) ∨
    (∃ body, (TranslateChunkToAnthropicEvents chunk s).1 = body ++ [SSEEvent.message_stop] ∧
      ∀ e ∈ body, e.isMessageStop = false) := by
  by_cases hf : hasFinishReason chunk = true
  · right
    unfold hasFinishReason at hf
    cases hc : chunk.Choices with
    | nil => simp [hc] at hf
    | cons choice rest =>
      simp only [hc] at hf
      cases hfr : choice.FinishReason with
      | none => simp [hfr] at hf
      | some r =>
        simp only [hfr, bne_iff_ne, ne_eq] at hf
        rw [translateChunk_finish s chunk choice rest r hc hfr hf]
        refine ⟨(translateDeltas chunk choice s).1 ++
          ((if (translateDeltas chunk choice s).2.ContentBlockOpen then
            [SSEEvent.content_block_stop (translateDeltas chunk choice s).2.ContentBlockIndex]
            else []) ++
          [SSEEvent.message_delta (mapOpenAIStopReasonToAnthropic (some r))
            (messageDeltaUsage chunk)]), by simp, ?_⟩
        intro e he
        simp only [List.mem_append, List.mem_singleton] at he
        rcases he with he | he | he
        · exact (translateDeltas_kinds chunk choice s e he).2
        · split at he
          · simp at he; subst he; rfl
          · cases he
        · subst he; rfl
  · left
    intro e he
    exact (translateChunk_noFinish_kinds chunk s (by simpa using hf) e he).2

theorem translateChunks_stop_last (cs : List ChatCompletionChunk) :
    ∀ (s : AnthropicStreamState),
    (∀ c ∈ cs.dropLast, hasFinishReason c = false) →
    ∀ pre post, (translateChunks cs s).1 = pre ++ SSEEvent.message_stop :: post →
      post = [] := by
  induction cs with
  | nil =>
    intro s _ pre post h
    simp [translateChunks] at h
  | cons c rest ih =>
    intro s hd pre post h
    cases rest with
    | nil =>
      simp only [translateChunks, List.append_nil] at h
      rcases translateChunk_stop_shape c s with hno | ⟨body, hb, hbody⟩
      · exact (noStop_split _ pre post hno h).elim
      · rw [hb] at h
        exact messageStop_last body pre post hbody h
    | cons c2 rest2 =>
      have hc : hasFinishReason c = false := hd c (by simp [List.dropLast])
      have hrest : ∀ x ∈ (c2 :: rest2).dropLast, hasFinishReason x = false := by
        intro x hx
        exact hd x (by simp [List.dropLast]; exact Or.inr hx)
      rw [translateChunks] at h
      simp only at h
      have hno := translateChunk_noFinish_kinds c s hc
      -- the `message_stop` lies in the events of the remaining chunks
      obtain ⟨a', hpre, hrest'⟩ : ∃ a', pre = (TranslateChunkToAnthropicEvents c s).1 ++ a' ∧
          (translateChunks (c2 :: rest2) (TranslateChunkToAnthropicEvents c s).2).1 =
            a' ++ SSEEvent.message_stop :: post := by
        rcases List.append_eq_append_iff.mp h with ⟨a', h1, h2⟩ | ⟨c', h1, h2⟩
        · exact ⟨a', h1, h2⟩
        · cases c' with
          | nil =>
            simp only [List.append_nil] at h1
            simp only [List.nil_append] at h2
            exact ⟨[], by simp [h1], by simpa using h2.symm⟩
          | cons x c'' =>
            simp only [List.cons_append, List.cons.injEq] at h2
            have := (hno SSEEvent.message_stop (by rw [h1, ← h2.1]; simp)).2
            simp [SSEEvent.isMessageStop] at this
      exact ih _ hrest a' post hrest'

/-- C7, counterexample.  When a chunk with content arrives after the chunk
that carried the finish reason, it is still translated: a
`content_block_start` and a `content_block_delta` follow `message_stop` in
the concatenated output. -/
theorem C7_counterexample :
    (translateChunks [stopChunk, lateTextChunk] NewStreamState).1 =
      [SSEEvent.message_start "chatcmpl-1" "gpt-4o" (messageStartUsage stopChunk),
       SSEEvent.message_delta (some "end_turn") (messageDeltaUsage stopChunk),
       SSEEvent.message_stop,
       SSEEvent.content_block_start 0 (ContentBlockPayload.text ""),
       SSEEvent.content_block_delta 0 (BlockDelta.text_delta "x")] := by
  decide

/-- C7, amended.  For every chunk sequence translated with one state in which
only the last chunk may carry a non-empty finish reason, nothing follows a
`message_stop` event in the concatenated output; in particular no
`content_block_start`, `content_block_delta` or `content_block_stop` does. -/
theorem C7_message_stop_terminates (state : AnthropicStreamState)
    (cs : List ChatCompletionChunk)
    (h : ∀ c ∈ cs.dropLast, hasFinishReason c = false)
    (pre post : List SSEEvent)
    (hsplit : (translateChunks cs state).1 = pre ++ SSEEvent.message_stop :: post) :
    post = [] ∧ ∀ e ∈ post, e.isContentBlockEvent = false := by
  have := translateChunks_stop_last cs state h pre post hsplit
  subst this
  exact ⟨rfl, by simp⟩

theorem C7_message_stop_terminates_witness :
    (translateChunks [hiChunk, stopChunk] NewStreamState).1 =
      [SSEEvent.message_start "chatcmpl-1" "gpt-4o" (messageStartUsage hiChunk),
       SSEEvent.content_block_start 0 (ContentBlockPayload.text ""),
       SSEEvent.content_block_delta 0 (BlockDelta.text_delta "Hi"),
       SSEEvent.content_block_stop 0,
       SSEEvent.message_delta (some "end_turn") (messageDeltaUsage stopChunk)] ++
      SSEEvent.message_stop :: [] ∧
    (([] : List SSEEvent) = [] ∧ ∀ e ∈ ([] : List SSEEvent), e.isContentBlockEvent = false) :=
  ⟨by decide, C7_message_stop_terminates NewStreamState [hiChunk, stopChunk] (by decide)
    [SSEEvent.message_start "chatcmpl-1" "gpt-4o" (messageStartUsage hiChunk),
     SSEEvent.content_block_start 0 (ContentBlockPayload.text ""),
     SSEEvent.content_block_delta 0 (BlockDelta.text_delta "Hi"),
     SSEEvent.content_block_stop 0,
     SSEEvent.message_delta (some "end_turn") (messageDeltaUsage stopChunk)]
    [] (by decide)⟩

/-! ### Every opened block is closed once -/

theorem translateChunk_finish_closed (chunk : ChatCompletionChunk) (s : AnthropicStreamState)
    (hf : hasFinishReason chunk = true) :
    (TranslateChunkToAnthropicEvents chunk s).2.ContentBlockOpen = false := by
  unfold hasFinishReason at hf
  cases hc : chunk.Choices with
  | nil => simp [hc] at hf
  | cons choice rest =>
    simp only [hc] at hf
    cases hfr : choice.FinishReason with
    | none => simp [hfr] at hf
    | some r =>
      simp only [hfr, bne_iff_ne, ne_eq] at hf
      rw [translateChunk_finish s chunk choice rest r hc hfr hf]

theorem translateChunk_finish_stop (chunk : ChatCompletionChunk) (s : AnthropicStreamState)
    (hf : hasFinishReason chunk = true) :
    ∃ body, (TranslateChunkToAnthropicEvents chunk s).1 = body ++ [SSEEvent.message_stop] ∧
      ∀ e ∈ body, e.isMessageStop = false := by
  rcases translateChunk_stop_shape chunk s with hno | h
  · exfalso
    unfold hasFinishReason at hf
    cases hc : chunk.Choices with
    | nil => simp [hc] at hf
    | cons choice rest =>
      simp only [hc] at hf
      cases hfr : choice.FinishReason with
      | none => simp [hfr] at hf
      | some r =>
        simp only [hfr, bne_iff_ne, ne_eq] at hf
        rw [translateChunk_finish s chunk choice rest r hc hfr hf] at hno
        have := hno SSEEvent.message_stop (by simp)
        simp [SSEEvent.isMessageStop] at this
  · exact h

theorem dropLast_concat_mem (init : List ChatCompletionChunk) (fin : ChatCompletionChunk) :
    (init ++ [fin]).dropLast = init := by
  simp

/-- C5.  For every chunk sequence translated from a fresh state whose last
chunk, and only the last, carries a non-empty finish reason: every
`content_block_start` with index `i` in the concatenated output is followed
by exactly one `content_block_stop` with index `i`; starts and stops strictly
alternate beginning with a start (no stop without a preceding unmatched
start); and `message_stop` is the last event, so every `content_block_stop`
precedes it. -/
theorem C5_blocks_closed_once (init : List ChatCompletionChunk) (fin : ChatCompletionChunk)
    (hinit : ∀ c ∈ init, hasFinishReason c = false)
    (hfin : hasFinishReason fin = true) :
    (∀ (pre post : List SSEEvent) (i : Int) (b : ContentBlockPayload),
      (translateChunks (init ++ [fin]) NewStreamState).1 =
          pre ++ SSEEvent.content_block_start i b :: post →
        post.count (SSEEvent.content_block_stop i) = 1) ∧
    startStopAlternate
      (blockEvents (translateChunks (init ++ [fin]) NewStreamState).1) = true ∧
    (∃ body, (translateChunks (init ++ [fin]) NewStreamState).1 =
        body ++ [SSEEvent.message_stop] ∧
      ∀ e ∈ body, e.isMessageStop = false) := by
  have hscan := translateChunks_scan (init ++ [fin]) NewStreamState
  have hclosed : (translateChunks (init ++ [fin]) NewStreamState).2.ContentBlockOpen = false := by
    rw [translateChunks_append]
    simp only [translateChunks, List.append_nil]
    exact translateChunk_finish_closed fin _ hfin
  have hopen : openBlock (translateChunks (init ++ [fin]) NewStreamState).2 = none := by
    simp [openBlock, hclosed]
  have h0 : openBlock NewStreamState = none := rfl
  rw [hopen, h0] at hscan
  have hdl : ∀ c ∈ (init ++ [fin]).dropLast, hasFinishReason c = false := by
    rw [dropLast_concat_mem]; exact hinit
  obtain ⟨k, hk⟩ := translateChunks_starts (init ++ [fin]) NewStreamState hdl
  have hnd : (startIndices (translateChunks (init ++ [fin]) NewStreamState).1).Nodup := by
    rw [hk]; exact consecutiveFrom_nodup _ _
  refine ⟨?_, ?_, ?_⟩
  · intro pre post i b hsplit
    exact start_closed_once _ none hscan hnd pre post i b hsplit
  · exact (blockScan_alternate _ _ _ hscan).1 rfl
  · rw [translateChunks_append]
    simp only [translateChunks, List.append_nil]
    obtain ⟨body, hb, hbody⟩ := translateChunk_finish_stop fin
      (translateChunks init NewStreamState).2 hfin
    refine ⟨(translateChunks init NewStreamState).1 ++ body, by rw [hb, List.append_assoc], ?_⟩
    intro e he
    simp only [List.mem_append] at he
    rcases he with he | he
    · exact translateChunks_noFinish_kinds init _ hinit e he
    · exact hbody e he

theorem C5_blocks_closed_once_witness :
    [SSEEvent.content_block_delta 0 (BlockDelta.text_delta "Hi"),
      SSEEvent.content_block_stop 0,
      SSEEvent.content_block_start 1 (ContentBlockPayload.tool_use "call_1" "f"),
      SSEEvent.content_block_stop 1,
      SSEEvent.message_delta (some "end_turn") (messageDeltaUsage stopChunk),
      SSEEvent.message_stop].count (SSEEvent.content_block_stop 0) = 1 :=
  (C5_blocks_closed_once [hiChunk, toolStartChunk] stopChunk (by decide) (by decide)).1
    [SSEEvent.message_start "chatcmpl-1" "gpt-4o" (messageStartUsage hiChunk)]
    [SSEEvent.content_block_delta 0 (BlockDelta.text_delta "Hi"),
      SSEEvent.content_block_stop 0,
      SSEEvent.content_block_start 1 (ContentBlockPayload.tool_use "call_1" "f"),
      SSEEvent.content_block_stop 1,
      SSEEvent.message_delta (some "end_turn") (messageDeltaUsage stopChunk),
      SSEEvent.message_stop] 0 (ContentBlockPayload.text "") (by decide)

/-! ### Usage accounting -/

theorem wrapInt64_of_inRange (x : Int) (h1 : -2 ^ 63 ≤ x) (h2 : x < 2 ^ 63) :
    wrapInt64 x = x := by
  unfold wrapInt64
  norm_num at h1 h2 ⊢
  omega

theorem translateChunk_finish_delta (chunk : ChatCompletionChunk) (s : AnthropicStreamState)
    (hf : hasFinishReason chunk = true) :
    ∃ body, (TranslateChunkToAnthropicEvents chunk s).1 =
        body ++ [SSEEvent.message_delta
          (mapOpenAIStopReasonToAnthropic (chunkFinishReason chunk))
          (messageDeltaUsage chunk), SSEEvent.message_stop] ∧
      ∀ e ∈ body, e.isMessageDelta = false := by
  unfold hasFinishReason at hf
  unfold chunkFinishReason
  cases hc : chunk.Choices with
  | nil => simp [hc] at hf
  | cons choice rest =>
    simp only [hc] at hf
    cases hfr : choice.FinishReason with
    | none => simp [hfr] at hf
    | some r =>
      simp only [hfr, bne_iff_ne, ne_eq] at hf
      rw [translateChunk_finish s chunk choice rest r hc hfr hf]
      refine ⟨(translateDeltas chunk choice s).1 ++
          (if (translateDeltas chunk choice s).2.ContentBlockOpen then
            [SSEEvent.content_block_stop (translateDeltas chunk choice s).2.ContentBlockIndex]
            else []), by simp [hfr], ?_⟩
      intro e he
      simp only [List.mem_append] at he
      rcases he with he | he
      · exact (translateDeltas_kinds chunk choice s e he).1
      · split at he
        · simp at he; subst he; rfl
        · cases he

/-- C9.  For every chunk with usage (prompt_tokens `p`, completion_tokens `c`,
optional cached_tokens `k`): the `message_start` emitted for it reports
input_tokens `p - k` (`p` when there is no cached breakdown), output_tokens 0
and cache_read_input_tokens `k` exactly when the breakdown is present; the
`message_delta` emitted for it reports input_tokens `p - k`, output_tokens `c`
and cache_read_input_tokens `k`; a chunk without usage reports 0 for each
count and no cache-read count.  `p - k` is the Go `int` subtraction, equal to
the mathematical difference whenever that is a 64-bit value.  For `p = 100`,
`k = 20`, `c = 30`: input_tokens 80 in `message_start`, and input_tokens 80,
output_tokens 30, cache_read_input_tokens 20 in `message_delta`. -/
theorem C9_usage_accounting (chunk : ChatCompletionChunk) :
    (chunk.Usage = none →
      messageStartUsage chunk =
        { InputTokens := 0, OutputTokens := 0, CacheCreationInputTokens := none,
          CacheReadInputTokens := none, ServiceTier := none } ∧
      messageDeltaUsage chunk =
        { InputTokens := 0, OutputTokens := 0, CacheCreationInputTokens := none,
          CacheReadInputTokens := none, ServiceTier := none }) ∧
    (∀ u : UsageDetails, chunk.Usage = some u → u.PromptTokensDetails = none →
      messageStartUsage chunk =
        { InputTokens := u.PromptTokens, OutputTokens := 0,
          CacheCreationInputTokens := none, CacheReadInputTokens := none,
          ServiceTier := none } ∧
      messageDeltaUsage chunk =
        { InputTokens := u.PromptTokens, OutputTokens := u.CompletionTokens,
          CacheCreationInputTokens := none, CacheReadInputTokens := none,
          ServiceTier := none }) ∧
    (∀ (u : UsageDetails) (d : PromptTokensDetails),
      chunk.Usage = some u → u.PromptTokensDetails = some d →
      messageStartUsage chunk =
        { InputTokens := wrapInt64 (u.PromptTokens - d.CachedTokens), OutputTokens := 0,
          CacheCreationInputTokens := none, CacheReadInputTokens := some d.CachedTokens,
          ServiceTier := none } ∧
      messageDeltaUsage chunk =
        { InputTokens := wrapInt64 (u.PromptTokens - d.CachedTokens),
          OutputTokens := u.CompletionTokens,
          CacheCreationInputTokens := none, CacheReadInputTokens := some d.CachedTokens,
          ServiceTier := none } ∧
      (-2 ^ 63 ≤ u.PromptTokens - d.CachedTokens →
        u.PromptTokens - d.CachedTokens < 2 ^ 63 →
        wrapInt64 (u.PromptTokens - d.CachedTokens) = u.PromptTokens - d.CachedTokens)) ∧
    (∀ state : AnthropicStreamState, state.MessageStartSent = false →
      hasChoice chunk = true →
      ∃ rest, (TranslateChunkToAnthropicEvents chunk state).1 =
          SSEEvent.message_start chunk.ID chunk.Model (messageStartUsage chunk) :: rest ∧
        ∀ e ∈ rest, e.isMessageStart = false) ∧
    (∀ state : AnthropicStreamState, hasFinishReason chunk = true →
      ∃ body, (TranslateChunkToAnthropicEvents chunk state).1 =
          body ++ [SSEEvent.message_delta
            (mapOpenAIStopReasonToAnthropic (chunkFinishReason chunk))
            (messageDeltaUsage chunk), SSEEvent.message_stop] ∧
        ∀ e ∈ body, e.isMessageDelta = false) ∧
    (∀ u : UsageDetails, chunk.Usage = some u → u.PromptTokens = 100 →
      u.CompletionTokens = 30 → u.PromptTokensDetails = some { CachedTokens := 20 } →
      (messageStartUsage chunk).InputTokens = 80 ∧
      messageDeltaUsage chunk =
        { InputTokens := 80, OutputTokens := 30, CacheCreationInputTokens := none,
          CacheReadInputTokens := some 20, ServiceTier := none }) := by
  refine ⟨?_, ?_, ?_, ?_, ?_, ?_⟩
  · intro h
    simp [messageStartUsage, messageDeltaUsage, chunkUsagePromptTokens,
      chunkUsageCachedPromptTokens, chunkUsageCompletionTokens, h]
  · intro u hu hd
    simp [messageStartUsage, messageDeltaUsage, chunkUsagePromptTokens,
      chunkUsageCachedPromptTokens, chunkUsageCompletionTokens, hu, hd]
  · intro u d hu hd
    refine ⟨?_, ?_, wrapInt64_of_inRange _⟩ <;>
    simp [messageStartUsage, messageDeltaUsage, chunkUsagePromptTokens,
      chunkUsageCachedPromptTokens, chunkUsageCompletionTokens, hu, hd]
  · intro state hs hc
    exact (translateChunk_first chunk state hs hc).1
  · intro state hf
    exact translateChunk_finish_delta chunk state hf
  · intro u hu hp hc hd
    have hw : wrapInt64 80 = 80 := by decide
    simp [messageStartUsage, messageDeltaUsage, chunkUsagePromptTokens,
      chunkUsageCachedPromptTokens, chunkUsageCompletionTokens, hu, hd, hp, hc, hw]

theorem C9_usage_accounting_witness :
    (messageStartUsage usageChunk).InputTokens = 80 ∧
    messageDeltaUsage usageChunk =
      { InputTokens := 80, OutputTokens := 30, CacheCreationInputTokens := none,
        CacheReadInputTokens := some 20, ServiceTier := none } :=
  (C9_usage_accounting usageChunk).2.2.2.2.2 _ rfl rfl rfl rfl

/-! ### Routing of tool-call argument deltas -/

theorem runSteps_append (a b : List Step) (s : AnthropicStreamState) :
    runSteps (a ++ b) s =
      ((runSteps a s).1 ++ (runSteps b (runSteps a s).2).1,
        (runSteps b (runSteps a s).2).2) := by
  induction a generalizing s with
  | nil => simp [runSteps]
  | cons st rest ih => simp [runSteps, ih, List.append_assoc]

theorem runSteps_toolCalls (tcs : List ToolCall) (s : AnthropicStreamState) :
    runSteps (tcs.map Step.toolCall) s = toolCallsStep tcs s := by
  induction tcs generalizing s with
  | nil => simp [runSteps, toolCallsStep]
  | cons tc rest ih => simp [runSteps, toolCallsStep, Step.run, ih]

theorem translateChunk_eq_runSteps (chunk : ChatCompletionChunk) (s : AnthropicStreamState) :
    TranslateChunkToAnthropicEvents chunk s = runSteps (chunkSteps chunk) s := by
  unfold TranslateChunkToAnthropicEvents chunkSteps
  cases chunk.Choices with
  | nil => simp [runSteps]
  | cons choice rest =>
    simp [runSteps, Step.run, runSteps_append, runSteps_toolCalls, translateDeltas,
      List.append_assoc]

theorem translateChunks_eq_runSteps (cs : List ChatCompletionChunk) (s : AnthropicStreamState) :
    translateChunks cs s = runSteps (cs.flatMap chunkSteps) s := by
  induction cs generalizing s with
  | nil => simp [translateChunks, runSteps]
  | cons c rest ih =>
    simp [translateChunks, List.flatMap_cons, runSteps_append, translateChunk_eq_runSteps, ih]

theorem mapLookup_insert_self (m : List (Int × anthropicToolCallState)) (k : Int)
    (v : anthropicToolCallState) : mapLookup (mapInsert m k v) k = some v := by
  simp [mapLookup, mapInsert]

theorem mapLookup_filter_ne (m : List (Int × anthropicToolCallState)) (k u : Int)
    (h : u ≠ k) :
    mapLookup (m.filter (fun p => p.1 != k)) u = mapLookup m u := by
  induction m with
  | nil => rfl
  | cons p rest ih =>
    unfold mapLookup at ih ⊢
    by_cases hp : p.1 = k
    · have hpk : (p.1 != k) = false := by simp [hp]
      have hpu : (p.1 == u) = false := by
        simp only [beq_eq_false_iff_ne, ne_eq]; rw [hp]; exact fun h' => h h'.symm
      rw [List.filter_cons_of_neg (by simp [hpk]), List.find?_cons_of_neg _ (by simp [hpu])]
      exact ih
    · have hpk : (p.1 != k) = true := by simp [hp]
      rw [List.filter_cons_of_pos (by simp [hpk])]
      by_cases hpu : p.1 = u
      · have hb : (p.1 == u) = true := by simp [hpu]
        rw [List.find?_cons_of_pos _ (by simp [hb]), List.find?_cons_of_pos _ (by simp [hb])]
      · have hb : (p.1 == u) = false := by simp [hpu]
        rw [List.find?_cons_of_neg _ (by simp [hb]), List.find?_cons_of_neg _ (by simp [hb])]
        exact ih

theorem mapLookup_insert_ne (m : List (Int × anthropicToolCallState)) (k u : Int)
    (v : anthropicToolCallState) (h : u ≠ k) :
    mapLookup (mapInsert m k v) u = mapLookup m u := by
  have := mapLookup_filter_ne m k u h
  unfold mapLookup at this ⊢
  have hk : (k == u) = false := by
    simp only [beq_eq_false_iff_ne, ne_eq]; exact fun h' => h h'.symm
  unfold mapInsert
  rw [List.find?_cons_of_neg _ (by simp [hk])]
  exact this

theorem messageStartStep_toolCalls (chunk : ChatCompletionChunk) (s : AnthropicStreamState) :
    (messageStartStep chunk s).2.ToolCalls = s.ToolCalls := by
  unfold messageStartStep
  split <;> rfl

theorem textDeltaStep_toolCalls (content : Option String) (s : AnthropicStreamState) :
    (textDeltaStep content s).2.ToolCalls = s.ToolCalls := by
  unfold textDeltaStep
  cases content with
  | none => rfl
  | some t =>
    cases ho : s.ContentBlockOpen <;> cases ht : isToolBlockOpen s <;> simp [ho, ht]

theorem finishStep_toolCalls (chunk : ChatCompletionChunk) (fr : Option String)
    (s : AnthropicStreamState) :
    (finishStep chunk fr s).2.ToolCalls = s.ToolCalls := by
  unfold finishStep
  cases fr with
  | none => rfl
  | some r => by_cases hr : r ≠ "" <;> cases ho : s.ContentBlockOpen <;> simp [hr, ho]

theorem registers_iff (tc : ToolCall) :
    tc.registers = true ↔ (tc.ID ≠ "" ∧ tc.Function.Name ≠ "") := by
  simp [ToolCall.registers]

theorem toolCallStep_noRegister (tc : ToolCall) (s : AnthropicStreamState)
    (h : tc.registers = false) :
    toolCallStep tc s = toolCallArgumentsStep tc s := by
  have hn : ¬ (tc.ID ≠ "" ∧ tc.Function.Name ≠ "") := by
    rw [← registers_iff]; simp [h]
  simp [toolCallStep, toolCallRegisterStep, hn]

theorem toolCallStep_register (tc : ToolCall) (s : AnthropicStreamState)
    (h : tc.registers = true) :
    (toolCallStep tc s).1 =
        (if s.ContentBlockOpen then [SSEEvent.content_block_stop s.ContentBlockIndex]
          else []) ++
        [SSEEvent.content_block_start (blocksOpened s)
          (ContentBlockPayload.tool_use tc.ID tc.Function.Name)] ++
        (if tc.Function.Arguments ≠ "" then
          [SSEEvent.content_block_delta (blocksOpened s)
            (BlockDelta.input_json_delta tc.Function.Arguments)]
          else []) ∧
      mapLookup (toolCallStep tc s).2.ToolCalls tc.Index =
        some { ID := tc.ID, Name := tc.Function.Name,
               AnthropicBlockIndex := blocksOpened s } := by
  have hr := (registers_iff tc).mp h
  simp only [toolCallStep, toolCallArgumentsStep_snd, toolCallArgumentsStep_fst]
  unfold toolCallRegisterStep
  cases ho : s.ContentBlockOpen <;>
    by_cases ha : tc.Function.Arguments ≠ "" <;>
    simp [hr, ho, ha, blocksOpened, mapLookup_insert_self]

theorem toolCallStep_lookup_ne (tc : ToolCall) (s : AnthropicStreamState) (u : Int)
    (h : tc.registers = true → tc.Index ≠ u) :
    mapLookup (toolCallStep tc s).2.ToolCalls u = mapLookup s.ToolCalls u := by
  cases hr : tc.registers with
  | false => rw [toolCallStep_noRegister tc s hr, toolCallArgumentsStep_snd]
  | true =>
    have hne : u ≠ tc.Index := fun h' => h hr h'.symm
    have hreg := (registers_iff tc).mp hr
    simp only [toolCallStep, toolCallArgumentsStep_snd]
    unfold toolCallRegisterStep
    cases ho : s.ContentBlockOpen <;> simp [hreg, ho, mapLookup_insert_ne _ _ _ _ hne]

theorem Step_run_lookup (st : Step) (s : AnthropicStreamState) (u : Int)
    (h : st.keeps u = true) :
    mapLookup (st.run s).2.ToolCalls u = mapLookup s.ToolCalls u := by
  cases st with
  | messageStart chunk => simp [Step.run, messageStartStep_toolCalls]
  | textDelta content => simp [Step.run, textDeltaStep_toolCalls]
  | toolCall fragment =>
    refine toolCallStep_lookup_ne fragment s u (fun hr => ?_)
    simpa [Step.keeps, hr] using h
  | finish chunk reason => simp [Step.run, finishStep_toolCalls]

theorem runSteps_lookup (steps : List Step) (s : AnthropicStreamState) (u : Int)
    (h : ∀ st ∈ steps, st.keeps u = true) :
    mapLookup (runSteps steps s).2.ToolCalls u = mapLookup s.ToolCalls u := by
  induction steps generalizing s with
  | nil => rfl
  | cons st rest ih =>
    simp only [runSteps]
    rw [ih _ (fun x hx => h x (List.mem_cons_of_mem _ hx)),
      Step_run_lookup st s u (h st (List.mem_cons_self _ _))]

theorem toolCallStep_delta (tc : ToolCall) (s : AnthropicStreamState)
    (info : anthropicToolCallState)
    (hreg : tc.registers = false) (hargs : tc.Function.Arguments ≠ "")
    (hl : mapLookup s.ToolCalls tc.Index = some info) :
    (toolCallStep tc s).1 =
      [SSEEvent.content_block_delta info.AnthropicBlockIndex
        (BlockDelta.input_json_delta tc.Function.Arguments)] := by
  rw [toolCallStep_noRegister tc s hreg, toolCallArgumentsStep_fst]
  simp [hargs, hl]


/-- C2, counterexample.  The upstream index 0 appears twice with id and name:
the first appearance opens block 0, the second closes it, opens block 1 and
binds index 0 to block 1 (the map entry is overwritten), so the argument text
that follows is addressed to block 1, not to the block assigned at the first
appearance of the index. -/
theorem C2_counterexample :
    (translateChunks
        [toolChunk (startFragment 0 "call_a" "f"),
         toolChunk (startFragment 0 "call_a" "f"),
         toolChunk (argsFragment 0 "x")] NewStreamState).1 =
      [SSEEvent.message_start "chatcmpl-1" "gpt-4o"
         (messageStartUsage (toolChunk (startFragment 0 "call_a" "f"))),
       SSEEvent.content_block_start 0 (ContentBlockPayload.tool_use "call_a" "f"),
       SSEEvent.content_block_stop 0,
       SSEEvent.content_block_start 1 (ContentBlockPayload.tool_use "call_a" "f"),
       SSEEvent.content_block_delta 1 (BlockDelta.input_json_delta "x")] ∧
    startIndices (TranslateChunkToAnthropicEvents
      (toolChunk (startFragment 0 "call_a" "f")) NewStreamState).1 = [0] := by
  decide

/-- C2, amended.  For every chunk sequence (viewed as the sequence of phases
the translator runs) and every state: if fragment `r` registers upstream
index `u` (non-empty id and name) and a later fragment `d` with the same index
carries argument text, no fragment in between registering `u` again (so `r`
is the most recent registration of `u`, the first appearance when `u` is
registered once), then the events of `d` are exactly one `input_json_delta`,
addressed to the index of the `content_block_start` that `r` emitted and
carrying the argument text of `d` unchanged, whatever happened in between
(whichever block is open).  A fragment that registers and carries argument
text addresses its delta to the block it has just opened.  From a fresh state
the sequence start(0),
start(1), args(0), args(1), args(0), finish("tool_calls") opens `tool_use`
blocks 0 and 1, sends the three deltas to blocks 0, 1, 0 in that order, and
stops both blocks before `message_stop`. -/
theorem C2_tool_delta_routing :
    (∀ (state : AnthropicStreamState) (cs : List ChatCompletionChunk)
        (pre mid post : List Step) (r d : ToolCall),
      cs.flatMap chunkSteps =
          pre ++ Step.toolCall r :: (mid ++ Step.toolCall d :: post) →
      r.registers = true → d.Index = r.Index →
      (∀ st ∈ mid, st.keeps r.Index = true) →
      d.registers = false → d.Function.Arguments ≠ "" →
      let s1 := (runSteps pre state).2
      let er := toolCallStep r s1
      let em := runSteps mid er.2
      let ed := toolCallStep d em.2
      ∃ i : Int,
        SSEEvent.content_block_start i
            (ContentBlockPayload.tool_use r.ID r.Function.Name) ∈ er.1 ∧
        startIndices er.1 = [i] ∧
        ed.1 = [SSEEvent.content_block_delta i
          (BlockDelta.input_json_delta d.Function.Arguments)] ∧
        (translateChunks cs state).1 =
          (runSteps pre state).1 ++ er.1 ++ em.1 ++ ed.1 ++ (runSteps post ed.2).1) ∧
    (∀ (state : AnthropicStreamState) (tc : ToolCall),
      tc.registers = true → tc.Function.Arguments ≠ "" →
      (toolCallStep tc state).1 =
        (if state.ContentBlockOpen then
            [SSEEvent.content_block_stop state.ContentBlockIndex] else []) ++
        [SSEEvent.content_block_start (blocksOpened state)
            (ContentBlockPayload.tool_use tc.ID tc.Function.Name),
          SSEEvent.content_block_delta (blocksOpened state)
            (BlockDelta.input_json_delta tc.Function.Arguments)]) ∧
    (translateChunks interleavedChunks NewStreamState).1 =
      [SSEEvent.message_start "chatcmpl-1" "gpt-4o"
         (messageStartUsage (toolChunk (startFragment 0 "call_a" "f"))),
       SSEEvent.content_block_start 0 (ContentBlockPayload.tool_use "call_a" "f"),
       SSEEvent.content_block_stop 0,
       SSEEvent.content_block_start 1 (ContentBlockPayload.tool_use "call_b" "g"),
       SSEEvent.content_block_delta 0 (BlockDelta.input_json_delta "\x7b\"a\""),
       SSEEvent.content_block_delta 1 (BlockDelta.input_json_delta "\x7b\"b\""),
       SSEEvent.content_block_delta 0 (BlockDelta.input_json_delta ":1\x7d"),
       SSEEvent.content_block_stop 1,
       SSEEvent.message_delta (some "tool_use") (messageDeltaUsage toolCallsFinishChunk),
       SSEEvent.message_stop] := by
  refine ⟨?_, ?_, by decide⟩
  · intro state cs pre mid post r d hsplit hr hidx hmid hd hargs s1 er em ed
    obtain ⟨hev, hlook⟩ := toolCallStep_register r s1 hr
    have hl : mapLookup em.2.ToolCalls d.Index =
        some { ID := r.ID, Name := r.Function.Name,
               AnthropicBlockIndex := blocksOpened s1 } := by
      rw [hidx]
      show mapLookup (runSteps mid er.2).2.ToolCalls r.Index = _
      rw [runSteps_lookup mid er.2 r.Index hmid]
      exact hlook
    refine ⟨blocksOpened s1, ?_, ?_, ?_, ?_⟩
    · show _ ∈ (toolCallStep r s1).1
      rw [hev]; simp
    · show startIndices (toolCallStep r s1).1 = _
      rw [hev]
      by_cases ha : r.Function.Arguments ≠ "" <;> cases ho : s1.ContentBlockOpen <;>
        simp [startIndices, ha]
    · exact toolCallStep_delta d em.2 _ hd hargs hl
    · rw [translateChunks_eq_runSteps, hsplit, runSteps_append]
      simp only [runSteps, Step.run, runSteps_append, List.append_assoc]
  · intro state tc hr hargs
    rw [(toolCallStep_register tc state hr).1]
    simp [hargs]

theorem C2_tool_delta_routing_witness :
    ∃ i : Int,
      SSEEvent.content_block_start i (ContentBlockPayload.tool_use "call_a" "f") ∈
        (toolCallStep (startFragment 0 "call_a" "f")
          (runSteps ((interleavedChunks.flatMap chunkSteps).take 2) NewStreamState).2).1 ∧
      startIndices (toolCallStep (startFragment 0 "call_a" "f")
          (runSteps ((interleavedChunks.flatMap chunkSteps).take 2) NewStreamState).2).1 = [i] ∧
      (toolCallStep (argsFragment 0 ":1\x7d")
          (runSteps (((interleavedChunks.flatMap chunkSteps).drop 3).take 15)
            (toolCallStep (startFragment 0 "call_a" "f")
              (runSteps ((interleavedChunks.flatMap chunkSteps).take 2)
                NewStreamState).2).2).2).1 =
        [SSEEvent.content_block_delta i (BlockDelta.input_json_delta ":1\x7d")] :=
  let ⟨i, h1, h2, h3, _⟩ := C2_tool_delta_routing.1 NewStreamState interleavedChunks
    ((interleavedChunks.flatMap chunkSteps).take 2)
    (((interleavedChunks.flatMap chunkSteps).drop 3).take 15)
    ((interleavedChunks.flatMap chunkSteps).drop 19)
    (startFragment 0 "call_a" "f") (argsFragment 0 ":1\x7d")
    (by decide) (by decide) rfl (by decide) (by decide) (by decide)
  ⟨i, h1, h2, h3⟩

/-! ### Splitting a user message at its tool results -/

theorem flushPending_eq (pending : List AnthropicContentBlock) (result : List Message) :
    (if pending.length > 0 then result ++ [userMessage (mapContentBlocks pending)]
      else result) = result ++ flushPending pending := by
  cases pending <;> simp [flushPending]

theorem handleUserMessageLoop_split (json : JSONReparse)
    (blocks : List AnthropicContentBlock) :
    ∀ (result : List Message) (pending : List AnthropicContentBlock),
      (handleUserMessageLoop json blocks result pending).map
          (fun rp => rp.1 ++ flushPending rp.2) =
        (splitToolResults json pending blocks).map (fun msgs => result ++ msgs) := by
  induction blocks with
  | nil =>
    intro result pending
    simp [handleUserMessageLoop, splitToolResults, Except.map]
  | cons block rest ih =>
    intro result pending
    unfold handleUserMessageLoop splitToolResults
    cases htr : block.AsToolResult with
    | none => simpa using ih result (pending ++ [block])
    | some toolResult =>
      simp only
      cases hmap : mapGenericContent json toolResult.Content with
      | error err => simp [Except.map]
      | ok content =>
        simp only
        cases pending with
        | nil =>
          have := ih (result ++ [toolMessage toolResult.ToolUseID content]) []
          simp only [List.length_nil, gt_iff_lt, lt_self_iff_false, if_false] at this ⊢
          rw [this]
          cases hs : splitToolResults json [] rest <;>
            simp [Except.map, flushPending]
        | cons p ps =>
          have := ih (result ++ [userMessage (mapContentBlocks (p :: ps))] ++
            [toolMessage toolResult.ToolUseID content]) []
          simp only [List.length_cons, gt_iff_lt, Nat.zero_lt_succ, if_true] at this ⊢
          rw [this]
          cases hs : splitToolResults json [] rest <;>
            simp [Except.map, flushPending]

theorem splitToolResults_ne_nil (json : JSONReparse) (blocks : List AnthropicContentBlock) :
    ∀ (pending : List AnthropicContentBlock) (msgs : List Message),
      (blocks ≠ [] ∨ pending ≠ []) →
      splitToolResults json pending blocks = .ok msgs → msgs ≠ [] := by
  induction blocks with
  | nil =>
    intro pending msgs h hs
    rcases h with h | h
    · exact (h rfl).elim
    · cases pending with
      | nil => exact (h rfl).elim
      | cons p ps =>
        simp [splitToolResults, flushPending] at hs
        rw [← hs]; simp
  | cons block rest ih =>
    intro pending msgs _ hs
    unfold splitToolResults at hs
    cases htr : block.AsToolResult with
    | none =>
      simp only [htr] at hs
      exact ih (pending ++ [block]) msgs (Or.inr (by simp)) hs
    | some toolResult =>
      simp only [htr] at hs
      cases hmap : mapGenericContent json toolResult.Content with
      | error err => simp [hmap] at hs
      | ok content =>
        simp only [hmap] at hs
        cases hsr : splitToolResults json [] rest with
        | error err => simp [hsr] at hs
        | ok tail =>
          simp only [hsr, Except.ok.injEq] at hs
          rw [← hs]; simp

theorem handleUserMessage_split (json : JSONReparse) (message : AnthropicMessage)
    (hstr : message.Content.String = none) :
    handleUserMessage json message =
      (splitToolResults json [] message.Content.Blocks).map
        (fun msgs => if msgs.length = 0 then
          msgs ++ [userMessage { StringValue := none, Parts := [] }] else msgs) := by
  have h := handleUserMessageLoop_split json message.Content.Blocks [] []
  unfold handleUserMessage
  simp only [hstr]
  cases hl : handleUserMessageLoop json message.Content.Blocks [] [] with
  | error err =>
    rw [hl] at h
    cases hs : splitToolResults json [] message.Content.Blocks with
    | error err2 => simp [hs, Except.map] at h ⊢; exact h
    | ok msgs => simp [hs, Except.map] at h
  | ok rp =>
    obtain ⟨r, p⟩ := rp
    rw [hl] at h
    cases hs : splitToolResults json [] message.Content.Blocks with
    | error err2 => simp [hs, Except.map] at h
    | ok msgs =>
      simp only [hs, Except.map, List.nil_append, Except.ok.injEq] at h ⊢
      rw [flushPending_eq, h]


/-- C10, counterexample.  For a user message whose block list is empty the
splitting rule yields no message (no tool result, no pending block), but
`handleUserMessage` returns one user message with empty content. -/
theorem C10_counterexample :
    handleUserMessage rejectAll
        { Role := "user", Content := { String := none, Blocks := [] } } =
      .ok [userMessage { StringValue := none, Parts := [] }] ∧
    splitToolResults rejectAll [] [] = .ok [] :=
  ⟨rfl, rfl⟩

/-- C10, amended.  For every user message with block-list content: when the
block list is not empty, `handleUserMessage` returns what the splitting rule
describes (`splitToolResults`: scanning the blocks in order, each
`tool_result` block with a tool-use id yields first one user message merging
the pending non-tool-result blocks, if any, then one `tool` message with the
block's tool-use id and the content mapped from its payload, and a trailing
user message carries the remaining pending blocks), or the error of the
first payload mapping that fails; when the block list is empty it returns
exactly one user message with empty content.  In particular text "a",
tool_result (id "t1", content "ok"), text "b" yields exactly the three
messages user "a", tool "t1" "ok", user "b". -/
theorem C10_tool_result_splitting (json : JSONReparse) (message : AnthropicMessage)
    (hstr : message.Content.String = none) :
    (message.Content.Blocks ≠ [] →
      handleUserMessage json message =
        splitToolResults json [] message.Content.Blocks) ∧
    (message.Content.Blocks = [] →
      handleUserMessage json message =
        .ok [userMessage { StringValue := none, Parts := [] }]) ∧
    (message.Content.Blocks =
        [textBlock "a", toolResultBlock "t1" (GoValue.string "ok"), textBlock "b"] →
      handleUserMessage json message =
        .ok [userMessage { StringValue := some "a", Parts := [] },
             toolMessage "t1" { StringValue := some "ok", Parts := [] },
             userMessage { StringValue := some "b", Parts := [] }]) := by
  have hsplit := handleUserMessage_split json message hstr
  refine ⟨?_, ?_, ?_⟩
  · intro hne
    rw [hsplit]
    cases hs : splitToolResults json [] message.Content.Blocks with
    | error err => rfl
    | ok msgs =>
      have hm := splitToolResults_ne_nil json _ [] msgs (Or.inl hne) hs
      have hlen : msgs.length ≠ 0 := fun h => hm (List.length_eq_zero.mp h)
      simp [Except.map, hlen]
  · intro hnil
    rw [hsplit, hnil]
    rfl
  · intro hb
    rw [hsplit, hb]
    rfl

theorem C10_tool_result_splitting_witness :
    handleUserMessage rejectAll
        { Role := "user"
          Content :=
            { String := none
              Blocks := [textBlock "a", toolResultBlock "t1" (GoValue.string "ok"),
                textBlock "b"] } } =
      .ok [userMessage { StringValue := some "a", Parts := [] },
           toolMessage "t1" { StringValue := some "ok", Parts := [] },
           userMessage { StringValue := some "b", Parts := [] }] :=
  (C10_tool_result_splitting rejectAll
    { Role := "user"
      Content :=
        { String := none
          Blocks := [textBlock "a", toolResultBlock "t1" (GoValue.string "ok"),
            textBlock "b"] } } rfl).2.2 rfl

/-! ### The content-merge rule -/

theorem joinLoop_eq_go (rest : List String) (i : Nat) (acc : String) :
    joinWithDoubleNewlineLoop (i + 1) rest acc = String.intercalate.go acc "\n\n" rest := by
  induction rest generalizing i acc with
  | nil => simp [joinWithDoubleNewlineLoop, String.intercalate.go]
  | cons a as ih =>
    simp only [joinWithDoubleNewlineLoop, String.intercalate.go]
    simp only [Nat.succ_pos, gt_iff_lt, Nat.zero_lt_succ, if_true]
    exact ih (i + 1) _

theorem joinWithDoubleNewline_eq (parts : List String) :
    joinWithDoubleNewline parts = String.intercalate "\n\n" parts := by
  cases parts with
  | nil => rfl
  | cons a as =>
    simp only [joinWithDoubleNewline, joinWithDoubleNewlineLoop, String.intercalate]
    simp only [gt_iff_lt, lt_self_iff_false, if_false]
    have : ("" : String) ++ a = a := by
      apply String.ext; simp
    rw [this]
    exact joinLoop_eq_go as 0 a

theorem mapContentBlocks_noImage (blocks : List AnthropicContentBlock)
    (h : ∀ b ∈ blocks, b.Kind ≠ "image") :
    mapContentBlocks blocks =
      if String.intercalate "\n\n" (blocks.filterMap blockText) = "" then
        { StringValue := none, Parts := [] }
      else
        { StringValue := some (String.intercalate "\n\n" (blocks.filterMap blockText))
          Parts := [] } := by
  have hany : (blocks.any fun block => block.Kind == "image") = false := by
    rw [List.any_eq_false]
    intro b hb
    simpa using h b hb
  have key : ∀ f : AnthropicContentBlock → Option String, (∀ b, f b = blockText b) →
      (if String.intercalate "\n\n" (blocks.filterMap f) = "" then
          ({ StringValue := none, Parts := [] } : MessageContent)
        else
          { StringValue := some (String.intercalate "\n\n" (blocks.filterMap f))
            Parts := [] }) =
      if String.intercalate "\n\n" (blocks.filterMap blockText) = "" then
        { StringValue := none, Parts := [] }
      else
        { StringValue := some (String.intercalate "\n\n" (blocks.filterMap blockText))
          Parts := [] } := by
    intro f hf
    have : f = blockText := funext hf
    subst this
    rfl
  unfold mapContentBlocks
  simp only [hany, joinWithDoubleNewline_eq, Bool.not_false, if_true]
  apply key
  intro b
  unfold AnthropicContentBlockOf.AsText AnthropicContentBlockOf.AsThinking blockText
  by_cases h1 : b.Kind = "text"
  · cases ht : b.Text <;> simp [h1, ht]
  · by_cases h2 : b.Kind = "thinking"
    · cases ht : b.Thinking <;> simp [h2, ht]
    · simp [h1, h2]

/-- C15.  For every block list that contains no image block,
`mapContentBlocks` returns either absent content (no string, no parts) or
plain-string content equal to the texts of the `text` and `thinking` blocks
joined in block order with a blank line; the content is absent exactly when
that join is empty, so the string content is never the empty string, and the
part list is always empty. -/
theorem C15_merge_without_image (blocks : List AnthropicContentBlock)
    (h : ∀ b ∈ blocks, b.Kind ≠ "image") :
    ((mapContentBlocks blocks =
        { StringValue := none, Parts := [] } ∧
        String.intercalate "\n\n" (blocks.filterMap blockText) = "") ∨
      (mapContentBlocks blocks =
        { StringValue := some (String.intercalate "\n\n" (blocks.filterMap blockText))
          Parts := [] } ∧
        String.intercalate "\n\n" (blocks.filterMap blockText) ≠ "")) ∧
    (mapContentBlocks blocks).StringValue ≠ some "" ∧
    (mapContentBlocks blocks).Parts = [] := by
  rw [mapContentBlocks_noImage blocks h]
  by_cases hj : String.intercalate "\n\n" (blocks.filterMap blockText) = ""
  · simp [hj]
  · rw [if_neg hj]
    refine ⟨Or.inr ⟨rfl, hj⟩, ?_, rfl⟩
    intro h2
    exact hj (Option.some.inj h2)

theorem C15_merge_without_image_witness :
    mapContentBlocks [textBlock "a", thinkingBlock "b", toolResultBlock "t1" GoValue.nil] =
      { StringValue := some "a\n\nb", Parts := [] } ∧
    mapContentBlocks [toolResultBlock "t1" GoValue.nil] =
      { StringValue := none, Parts := [] } :=
  ⟨((C15_merge_without_image
      [textBlock "a", thinkingBlock "b", toolResultBlock "t1" GoValue.nil]
      (by decide)).1.resolve_left (fun h => absurd h.2 (by decide))).1,
   ((C15_merge_without_image [toolResultBlock "t1" GoValue.nil]
      (by decide)).1.resolve_right (fun h => h.2 (by decide))).1⟩

/-- C16.  For every block list that contains at least one image block,
`mapContentBlocks` returns no string content and a part list that follows
block order: each `text` or `thinking` block becomes a part of type "text"
with that block's text, each `image` block a part of type "image_url" whose
URL is "data:", the media type, ";base64," and the base64 data of its source,
with detail "auto"; blocks of other types contribute no part.  (A block is
taken with the field of its type, as the decoder builds it; a block without
that field has nothing to contribute.) -/
theorem C16_merge_with_image (blocks : List AnthropicContentBlock)
    (h : ∃ b ∈ blocks, b.Kind = "image") :
    (mapContentBlocks blocks).StringValue = none ∧
    (mapContentBlocks blocks).Parts = blocks.filterMap blockPart ∧
    (∀ b ∈ blocks, ∀ text, b.Kind = "text" → b.Text = some text →
      blockPart b = some { Kind := "text", Text := some text, ImageURL := none }) ∧
    (∀ b ∈ blocks, ∀ text, b.Kind = "thinking" → b.Thinking = some text →
      blockPart b = some { Kind := "text", Text := some text, ImageURL := none }) ∧
    (∀ b ∈ blocks, ∀ source, b.Kind = "image" → b.Source = some source →
      blockPart b = some
        { Kind := "image_url", Text := none
          ImageURL := some
            { URL := "data:" ++ source.MediaType ++ ";base64," ++ source.Data
              Detail := some "auto" } }) ∧
    (∀ b ∈ blocks, b.Kind ≠ "text" → b.Kind ≠ "thinking" → b.Kind ≠ "image" →
      blockPart b = none) := by
  have hany : (blocks.any fun block => block.Kind == "image") = true := by
    rw [List.any_eq_true]
    obtain ⟨b, hb, hk⟩ := h
    exact ⟨b, hb, by simp [hk]⟩
  refine ⟨?_, ?_, ?_, ?_, ?_, ?_⟩
  · unfold mapContentBlocks; simp only [hany]; rfl
  · unfold mapContentBlocks; simp only [hany]; rfl
  · intro b _ text hk ht
    simp [blockPart, hk, ht, textPart]
  · intro b _ text hk ht
    have : b.Kind ≠ "text" := by rw [hk]; decide
    simp [blockPart, hk, ht, textPart, this]
  · intro b _ source hk hs
    have h1 : b.Kind ≠ "text" := by rw [hk]; decide
    have h2 : b.Kind ≠ "thinking" := by rw [hk]; decide
    simp [blockPart, hk, hs, imagePart, h1, h2]
  · intro b _ h1 h2 h3
    simp [blockPart, h1, h2, h3]

theorem C16_merge_with_image_witness :
    (mapContentBlocks
        [textBlock "a", imageBlock "image/png" "AAAA",
          toolResultBlock "t1" GoValue.nil, thinkingBlock "b"]).StringValue = none ∧
    (mapContentBlocks
        [textBlock "a", imageBlock "image/png" "AAAA",
          toolResultBlock "t1" GoValue.nil, thinkingBlock "b"]).Parts =
      [{ Kind := "text", Text := some "a", ImageURL := none },
       { Kind := "image_url", Text := none
         ImageURL := some { URL := "data:image/png;base64,AAAA", Detail := some "auto" } },
       { Kind := "text", Text := some "b", ImageURL := none }] :=
  ⟨(C16_merge_with_image _ ⟨imageBlock "image/png" "AAAA", by simp, rfl⟩).1,
   (C16_merge_with_image
      [textBlock "a", imageBlock "image/png" "AAAA",
        toolResultBlock "t1" GoValue.nil, thinkingBlock "b"]
      ⟨imageBlock "image/png" "AAAA", by simp, rfl⟩).2.1.trans (by decide)⟩

/-- C18.  `mapOpenAIStopReasonToAnthropic` maps "stop" to "end_turn",
"length" to "max_tokens", "tool_calls" to "tool_use" and "content_filter" to
"end_turn", returns no stop reason for every other string and for an absent
reason, and every value it returns is one of "end_turn", "max_tokens",
"tool_use". -/
theorem C18_stop_reason_table :
    mapOpenAIStopReasonToAnthropic (some "stop") = some "end_turn" ∧
    mapOpenAIStopReasonToAnthropic (some "length") = some "max_tokens" ∧
    mapOpenAIStopReasonToAnthropic (some "tool_calls") = some "tool_use" ∧
    mapOpenAIStopReasonToAnthropic (some "content_filter") = some "end_turn" ∧
    (∀ reason : String, reason ≠ "stop" → reason ≠ "length" →
      reason ≠ "tool_calls" → reason ≠ "content_filter" →
      mapOpenAIStopReasonToAnthropic (some reason) = none) ∧
    mapOpenAIStopReasonToAnthropic none = none ∧
    (∀ (reason : Option String) (mapped : String),
      mapOpenAIStopReasonToAnthropic reason = some mapped →
      mapped = "end_turn" ∨ mapped = "max_tokens" ∨ mapped = "tool_use") := by
  refine ⟨by decide, by decide, by decide, by decide, ?_, rfl, ?_⟩
  · intro reason h1 h2 h3 h4
    simp [mapOpenAIStopReasonToAnthropic, h1, h2, h3, h4]
  · intro reason mapped h
    cases reason with
    | none => simp [mapOpenAIStopReasonToAnthropic] at h
    | some r =>
      unfold mapOpenAIStopReasonToAnthropic at h
      simp only at h
      split at h
      · left; exact (Option.some.inj h).symm
      · split at h
        · right; left; exact (Option.some.inj h).symm
        · split at h
          · right; right; exact (Option.some.inj h).symm
          · split at h
            · left; exact (Option.some.inj h).symm
            · cases h

theorem C18_stop_reason_table_witness :
    mapOpenAIStopReasonToAnthropic (some "function_call") = none ∧
    ("end_turn" = "end_turn" ∨ "end_turn" = "max_tokens" ∨ "end_turn" = "tool_use") :=
  ⟨C18_stop_reason_table.2.2.2.2.1 "function_call" (by decide) (by decide) (by decide)
      (by decide),
   C18_stop_reason_table.2.2.2.2.2.2 (some "stop") "end_turn" (by decide)⟩

/-! ### The non-streaming response translator -/

theorem translateChoicesLoop_text
    (u : String → Except String (Option (List (String × GoValue))))
    (choices : List ChoiceNonStreaming) :
    ∀ (tb tlb : List AnthropicAssistantContentBlock) (sr : Option String),
      (translateChoicesLoop u choices tb tlb sr).1 =
        tb ++ choices.flatMap (fun choice => getAnthropicTextBlocks choice.Message.Content) := by
  induction choices with
  | nil => intro tb tlb sr; simp [translateChoicesLoop]
  | cons c rest ih =>
    intro tb tlb sr
    simp only [translateChoicesLoop, ih, List.flatMap_cons, List.append_assoc]

theorem translateChoicesLoop_tool
    (u : String → Except String (Option (List (String × GoValue))))
    (choices : List ChoiceNonStreaming) :
    ∀ (tb tlb : List AnthropicAssistantContentBlock) (sr : Option String),
      (translateChoicesLoop u choices tb tlb sr).2.1 =
        tlb ++ choices.flatMap
          (fun choice => getAnthropicToolUseBlocks u choice.Message.ToolCalls) := by
  induction choices with
  | nil => intro tb tlb sr; simp [translateChoicesLoop]
  | cons c rest ih =>
    intro tb tlb sr
    simp only [translateChoicesLoop, ih, List.flatMap_cons, List.append_assoc]

theorem mapFinishReason_toolCalls : mapFinishReason "tool_calls" = some "tool_use" := by
  decide

theorem translateChoicesLoop_stop
    (u : String → Except String (Option (List (String × GoValue))))
    (choices : List ChoiceNonStreaming) :
    ∀ (tb tlb : List AnthropicAssistantContentBlock) (sr : Option String),
      (translateChoicesLoop u choices tb tlb sr).2.2 =
        if choices.any (fun choice => choice.FinishReason == "tool_calls") then
          some "tool_use"
        else
          match sr with
          | some reason => some reason
          | none =>
            (choices.filterMap fun choice => mapFinishReason choice.FinishReason).head? := by
  induction choices with
  | nil => intro tb tlb sr; cases sr <;> simp [translateChoicesLoop]
  | cons c rest ih =>
    intro tb tlb sr
    simp only [translateChoicesLoop, ih, List.any_cons]
    by_cases hc : c.FinishReason = "tool_calls"
    · simp only [hc, if_true, beq_self_eq_true, Bool.true_or]
      split <;> rfl
    · have hb : (c.FinishReason == "tool_calls") = false := by simp [hc]
      simp only [hc, if_false, hb, Bool.false_or]
      by_cases hany : rest.any (fun choice => choice.FinishReason == "tool_calls") = true
      · simp only [hany, if_true]
      · simp only [hany, if_false]
        cases sr with
        | some reason => rfl
        | none =>
          cases hm : mapFinishReason c.FinishReason with
          | none => simp [List.filterMap_cons, hm]
          | some m => simp [List.filterMap_cons, hm]

theorem translateToAnthropic_stop
    (u : String → Except String (Option (List (String × GoValue))))
    (response : ChatCompletionResponse) :
    (TranslateToAnthropic u response).StopReason = responseStopReason response.Choices := by
  unfold TranslateToAnthropic responseStopReason
  simp only [translateChoicesLoop_stop]
  cases hch : response.Choices with
  | nil => simp
  | cons c rest =>
    simp only
    by_cases hany : (c :: rest).any (fun choice => choice.FinishReason == "tool_calls") = true
    · simp only [hany, if_true]
    · simp only [hany, if_false]
      cases hm : mapFinishReason c.FinishReason with
      | none => rfl
      | some m => simp [List.filterMap_cons, hm]

/-- C17.  For every upstream response (any number of choices) the stop
reason returned by `TranslateToAnthropic` is "tool_use" if any choice has
finish reason "tool_calls", wherever that choice stands; otherwise it is the
mapped reason of the first choice, in order, whose finish reason is non-empty
and mappable; and it is absent when no choice has a mappable finish reason
(in particular when there are no choices). -/
theorem C17_response_stop_reason
    (unmarshalObject : String → Except String (Option (List (String × GoValue))))
    (response : ChatCompletionResponse) :
    ((∃ choice ∈ response.Choices, choice.FinishReason = "tool_calls") →
      (TranslateToAnthropic unmarshalObject response).StopReason = some "tool_use") ∧
    ((∀ choice ∈ response.Choices, choice.FinishReason ≠ "tool_calls") →
      (TranslateToAnthropic unmarshalObject response).StopReason =
        (response.Choices.filterMap fun choice =>
          mapFinishReason choice.FinishReason).head?) ∧
    ((∀ choice ∈ response.Choices, mapFinishReason choice.FinishReason = none) →
      (TranslateToAnthropic unmarshalObject response).StopReason = none) ∧
    (∀ reason : String, mapFinishReason reason =
      if reason = "" then none else mapOpenAIStopReasonToAnthropic (some reason)) := by
  rw [translateToAnthropic_stop]
  unfold responseStopReason
  refine ⟨?_, ?_, ?_, fun _ => rfl⟩
  · rintro ⟨choice, hmem, hfr⟩
    have : response.Choices.any (fun choice => choice.FinishReason == "tool_calls") = true := by
      rw [List.any_eq_true]
      exact ⟨choice, hmem, by simp [hfr]⟩
    simp only [this, if_true]
  · intro hno
    have : response.Choices.any (fun choice => choice.FinishReason == "tool_calls") = false := by
      rw [List.any_eq_false]
      intro c hc
      simpa using hno c hc
    simp only [this]
    rfl
  · intro hnone
    have hno : response.Choices.any (fun choice => choice.FinishReason == "tool_calls") = false := by
      rw [List.any_eq_false]
      intro c hc hfr
      have h1 := hnone c hc
      have h2 : c.FinishReason = "tool_calls" := by simpa using hfr
      rw [h2, mapFinishReason_toolCalls] at h1
      cases h1
    have hfm : (response.Choices.filterMap fun choice =>
        mapFinishReason choice.FinishReason) = [] := by
      rw [List.filterMap_eq_nil_iff]
      exact hnone
    simp only [hno, hfm]
    rfl

theorem C17_response_stop_reason_witness :
    (TranslateToAnthropic rejectArguments
        (sampleResponse [sampleChoice "a" [] "stop", sampleChoice "b" [] "tool_calls",
          sampleChoice "c" [] "length"] none)).StopReason = some "tool_use" ∧
    (TranslateToAnthropic rejectArguments
        (sampleResponse [sampleChoice "a" [] "", sampleChoice "b" [] "unknown",
          sampleChoice "c" [] "length", sampleChoice "d" [] "stop"] none)).StopReason =
      some "max_tokens" ∧
    (TranslateToAnthropic rejectArguments
        (sampleResponse [sampleChoice "a" [] "", sampleChoice "b" [] "unknown"]
          none)).StopReason = none :=
  ⟨(C17_response_stop_reason rejectArguments _).1
      ⟨sampleChoice "b" [] "tool_calls", by simp [sampleResponse], rfl⟩,
   ((C17_response_stop_reason rejectArguments
      (sampleResponse [sampleChoice "a" [] "", sampleChoice "b" [] "unknown",
        sampleChoice "c" [] "length", sampleChoice "d" [] "stop"] none)).2.1
      (by decide)).trans (by decide),
   (C17_response_stop_reason rejectArguments
      (sampleResponse [sampleChoice "a" [] "", sampleChoice "b" [] "unknown"] none)).2.2.1
      (by decide)⟩


theorem getAnthropicTextBlocks_kind (content : MessageContent) :
    ∀ b ∈ getAnthropicTextBlocks content, b.Kind = "text" := by
  unfold getAnthropicTextBlocks
  intro b hb
  split at hb
  · simp at hb; rw [hb]
  · split at hb
    · cases hb
    · simp only at hb
      split at hb
      · cases hb
      · simp at hb; rw [hb]

theorem getAnthropicToolUseBlocks_eq
    (u : String → Except String (Option (List (String × GoValue)))) (toolCalls : List ToolCall) :
    getAnthropicToolUseBlocks u toolCalls =
      toolCalls.map fun call =>
        { Kind := "tool_use", Text := none, ID := some call.ID
          Name := some call.Function.Name
          Input := toolUseInput u call
          Thinking := none, Signature := none } := by
  unfold getAnthropicToolUseBlocks
  cases toolCalls <;> simp

theorem getAnthropicToolUseBlocks_kind
    (u : String → Except String (Option (List (String × GoValue)))) (toolCalls : List ToolCall) :
    ∀ b ∈ getAnthropicToolUseBlocks u toolCalls, b.Kind = "tool_use" := by
  rw [getAnthropicToolUseBlocks_eq]
  intro b hb
  simp only [List.mem_map] at hb
  obtain ⟨call, _, rfl⟩ := hb
  rfl

theorem toolUseBlocks_ids
    (u : String → Except String (Option (List (String × GoValue))))
    (choices : List ChoiceNonStreaming) :
    (choices.flatMap fun choice =>
        getAnthropicToolUseBlocks u choice.Message.ToolCalls).map
        (fun b => (b.ID, b.Name)) =
      (choices.flatMap fun choice => choice.Message.ToolCalls).map
        (fun call => (some call.ID, some call.Function.Name)) := by
  induction choices with
  | nil => rfl
  | cons c rest ih =>
    simp only [List.flatMap_cons, List.map_append, ih]
    rw [getAnthropicToolUseBlocks_eq, List.map_map]
    rfl

/-- C19.  For every upstream response the content returned by
`TranslateToAnthropic` is the text blocks of the choices, in choice order,
followed by the tool-use blocks of the choices, in choice order and within a
choice in tool-call order: every block of the first group has type "text",
every block of the second type "tool_use", and the second group has exactly
one block per upstream tool call, carrying that call's id and function
name. -/
theorem C19_response_content_order
    (unmarshalObject : String → Except String (Option (List (String × GoValue))))
    (response : ChatCompletionResponse) :
    (TranslateToAnthropic unmarshalObject response).Content =
      (response.Choices.flatMap fun choice =>
        getAnthropicTextBlocks choice.Message.Content) ++
      (response.Choices.flatMap fun choice =>
        getAnthropicToolUseBlocks unmarshalObject choice.Message.ToolCalls) ∧
    (∀ b ∈ (response.Choices.flatMap fun choice =>
        getAnthropicTextBlocks choice.Message.Content), b.Kind = "text") ∧
    (∀ b ∈ (response.Choices.flatMap fun choice =>
        getAnthropicToolUseBlocks unmarshalObject choice.Message.ToolCalls),
      b.Kind = "tool_use") ∧
    ((response.Choices.flatMap fun choice =>
        getAnthropicToolUseBlocks unmarshalObject choice.Message.ToolCalls).map
        (fun b => (b.ID, b.Name)) =
      (response.Choices.flatMap fun choice => choice.Message.ToolCalls).map
        (fun call => (some call.ID, some call.Function.Name))) ∧
    ((response.Choices.flatMap fun choice =>
        getAnthropicToolUseBlocks unmarshalObject choice.Message.ToolCalls).length =
      (response.Choices.flatMap fun choice => choice.Message.ToolCalls).length) := by
  refine ⟨?_, ?_, ?_, toolUseBlocks_ids unmarshalObject response.Choices, ?_⟩
  · unfold TranslateToAnthropic
    simp only [translateChoicesLoop_text, translateChoicesLoop_tool, List.nil_append]
  · intro b hb
    simp only [List.mem_flatMap] at hb
    obtain ⟨c, _, hb⟩ := hb
    exact getAnthropicTextBlocks_kind _ b hb
  · intro b hb
    simp only [List.mem_flatMap] at hb
    obtain ⟨c, _, hb⟩ := hb
    exact getAnthropicToolUseBlocks_kind _ _ b hb
  · have := congrArg List.length (toolUseBlocks_ids unmarshalObject response.Choices)
    simpa using this

/-- C20.  For every upstream response with usage (prompt_tokens `p`,
completion_tokens `c`, optional cached_tokens `k`), `TranslateToAnthropic`
reports input_tokens `p - k` when the cached breakdown is present and `p`
otherwise, output_tokens `c`, and cache_read_input_tokens `k` exactly when
the breakdown is present, so that input_tokens plus cache_read_input_tokens
is `p`; with no usage record it reports 0, 0 and no cache-read count.
`p - k` is the Go `int` subtraction: the sum gives back `p` in Go arithmetic
always, and in the integers whenever `p - k` is a 64-bit value. -/
theorem C20_response_usage
    (unmarshalObject : String → Except String (Option (List (String × GoValue))))
    (response : ChatCompletionResponse) :
    (response.Usage = none →
      (TranslateToAnthropic unmarshalObject response).Usage =
        { InputTokens := 0, OutputTokens := 0, CacheCreationInputTokens := none,
          CacheReadInputTokens := none, ServiceTier := none }) ∧
    (∀ u : ChatUsage, response.Usage = some u → u.PromptTokensDetails = none →
      (TranslateToAnthropic unmarshalObject response).Usage =
        { InputTokens := u.PromptTokens, OutputTokens := u.CompletionTokens,
          CacheCreationInputTokens := none, CacheReadInputTokens := none,
          ServiceTier := none }) ∧
    (∀ (u : ChatUsage) (d : PromptTokensDetails),
      response.Usage = some u → u.PromptTokensDetails = some d →
      (TranslateToAnthropic unmarshalObject response).Usage =
        { InputTokens := wrapInt64 (u.PromptTokens - d.CachedTokens),
          OutputTokens := u.CompletionTokens,
          CacheCreationInputTokens := none,
          CacheReadInputTokens := some d.CachedTokens, ServiceTier := none } ∧
      wrapInt64 (wrapInt64 (u.PromptTokens - d.CachedTokens) + d.CachedTokens) =
        wrapInt64 u.PromptTokens ∧
      (-2 ^ 63 ≤ u.PromptTokens - d.CachedTokens →
        u.PromptTokens - d.CachedTokens < 2 ^ 63 →
        (TranslateToAnthropic unmarshalObject response).Usage.InputTokens =
          u.PromptTokens - d.CachedTokens ∧
        (TranslateToAnthropic unmarshalObject response).Usage.InputTokens +
          d.CachedTokens = u.PromptTokens)) := by
  refine ⟨?_, ?_, ?_⟩
  · intro h
    simp [TranslateToAnthropic, usagePromptTokens, usageCompletionTokens,
      usageCachedPromptTokens, h]
  · intro u hu hd
    simp [TranslateToAnthropic, usagePromptTokens, usageCompletionTokens,
      usageCachedPromptTokens, hu, hd]
  · intro u d hu hd
    refine ⟨?_, ?_, ?_⟩
    · simp [TranslateToAnthropic, usagePromptTokens, usageCompletionTokens,
        usageCachedPromptTokens, hu, hd]
    · unfold wrapInt64
      norm_num
      omega
    · intro h1 h2
      have hw := wrapInt64_of_inRange _ h1 h2
      have hin : (TranslateToAnthropic unmarshalObject response).Usage.InputTokens =
          wrapInt64 (u.PromptTokens - d.CachedTokens) := by
        simp [TranslateToAnthropic, usagePromptTokens, hu, hd]
      rw [hin, hw]
      exact ⟨rfl, by ring⟩

theorem C20_response_usage_witness :
    (TranslateToAnthropic rejectArguments
        (sampleResponse []
          (some { PromptTokens := 100, CompletionTokens := 30, TotalTokens := 130
                  PromptTokensDetails := some { CachedTokens := 20 } }))).Usage.InputTokens =
      100 - 20 ∧
    (TranslateToAnthropic rejectArguments
        (sampleResponse []
          (some { PromptTokens := 100, CompletionTokens := 30, TotalTokens := 130
                  PromptTokensDetails := some { CachedTokens := 20 } }))).Usage.InputTokens +
      20 = 100 :=
  ((C20_response_usage rejectArguments
    (sampleResponse []
      (some { PromptTokens := 100, CompletionTokens := 30, TotalTokens := 130
              PromptTokensDetails := some { CachedTokens := 20 } }))).2.2
    { PromptTokens := 100, CompletionTokens := 30, TotalTokens := 130
      PromptTokensDetails := some { CachedTokens := 20 } }
    { CachedTokens := 20 } rfl rfl).2.2 (by decide) (by decide)

/-! ## The request translator (messages/translate_openai.go) -/

theorem handleAssistantMessageLoop_eq (blocks : List AnthropicContentBlock) :
    ∀ (toolUseBlocks : List AnthropicToolUseBlock) (textParts : List String)
      (hasImage : Bool),
      handleAssistantMessageLoop blocks toolUseBlocks textParts hasImage =
        (toolUseBlocks ++ blocks.filterMap AnthropicContentBlockOf.AsToolUse,
         textParts ++ blocks.filterMap blockText,
         hasImage || blocks.any fun b => b.AsImage.isSome) := by
  induction blocks with
  | nil => intro tu tp hi; simp [handleAssistantMessageLoop]
  | cons b rest ih =>
    intro tu tp hi
    unfold handleAssistantMessageLoop
    by_cases h1 : b.Kind = "tool_use"
    · have ht : blockText b = none := by simp [blockText, h1]
      have hi1 : b.AsImage = none := by
        simp [AnthropicContentBlockOf.AsImage, h1]
      have hx : b.AsText = none := by
        simp [AnthropicContentBlockOf.AsText, h1]
      have hk : b.AsThinking = none := by
        simp [AnthropicContentBlockOf.AsThinking, h1]
      cases hu : b.AsToolUse with
      | none =>
        simp only [hx, hk, hi1, ih]
        simp [List.filterMap_cons, hu, ht, hi1]
      | some toolUse =>
        simp only [ih]
        simp [List.filterMap_cons, hu, ht, hi1]
    · have hu : b.AsToolUse = none := by
        simp [AnthropicContentBlockOf.AsToolUse, h1]
      simp only [hu]
      by_cases h2 : b.Kind = "text"
      · have hi1 : b.AsImage = none := by
          simp [AnthropicContentBlockOf.AsImage, h2]
        have hk : b.AsThinking = none := by
          simp [AnthropicContentBlockOf.AsThinking, h2]
        cases hx : b.Text with
        | none =>
          have hx1 : b.AsText = none := by
            simp [AnthropicContentBlockOf.AsText, hx]
          have ht : blockText b = none := by simp [blockText, h2, hx]
          simp only [hx1, hk, hi1, ih]
          simp [List.filterMap_cons, hu, ht, hi1]
        | some text =>
          have hx1 : b.AsText = some { Kind := "text", Text := text } := by
            simp [AnthropicContentBlockOf.AsText, hx, h2]
          have ht : blockText b = some text := by simp [blockText, h2, hx]
          simp only [hx1, ih]
          simp [List.filterMap_cons, hu, ht, hi1]
      · have hx1 : b.AsText = none := by
          simp [AnthropicContentBlockOf.AsText, h2]
        simp only [hx1]
        by_cases h3 : b.Kind = "thinking"
        · have hi1 : b.AsImage = none := by
            simp [AnthropicContentBlockOf.AsImage, h3]
          cases hx : b.Thinking with
          | none =>
            have hk : b.AsThinking = none := by
              simp [AnthropicContentBlockOf.AsThinking, hx]
            have ht : blockText b = none := by simp [blockText, h2, h3, hx]
            simp only [hk, hi1, ih]
            simp [List.filterMap_cons, hu, ht, hi1]
          | some text =>
            have ht : blockText b = some text := by simp [blockText, h2, h3, hx]
            cases hk : b.AsThinking with
            | none => simp [AnthropicContentBlockOf.AsThinking, hx, h3] at hk
            | some thinking =>
              have : thinking.Thinking = text := by
                simp [AnthropicContentBlockOf.AsThinking, hx, h3] at hk
                rw [← hk]
              simp only [ih, this]
              simp [List.filterMap_cons, hu, ht, hi1]
        · have hk : b.AsThinking = none := by
            simp [AnthropicContentBlockOf.AsThinking, h3]
          have ht : blockText b = none := by simp [blockText, h2, h3]
          simp only [hk]
          cases hi1 : b.AsImage with
          | none =>
            simp only [ih]
            simp [List.filterMap_cons, hu, ht, hi1]
          | some image =>
            simp only [ih]
            simp [List.filterMap_cons, hu, ht, hi1]

theorem asToolUse_map_toolCall (marshalObject : List (String × GoValue) → String)
    (b : AnthropicContentBlock) :
    b.AsToolUse.map (assistantToolCall marshalObject) = blockToolCall marshalObject b := by
  unfold AnthropicContentBlockOf.AsToolUse blockToolCall
  by_cases h1 : b.Kind = "tool_use"
  · cases hid : b.ID <;> cases hn : b.Name <;> cases hin : b.Input <;>
      simp [h1, assistantToolCall]
  · simp [h1]

theorem toolUseBlocks_toolCalls (marshalObject : List (String × GoValue) → String)
    (blocks : List AnthropicContentBlock) :
    (blocks.filterMap AnthropicContentBlockOf.AsToolUse).map
        (assistantToolCall marshalObject) =
      blocks.filterMap (blockToolCall marshalObject) := by
  induction blocks with
  | nil => rfl
  | cons b rest ih =>
    have h := asToolUse_map_toolCall marshalObject b
    cases hu : b.AsToolUse with
    | none =>
      rw [hu] at h
      simp only [Option.map_none'] at h
      rw [List.filterMap_cons_none hu, List.filterMap_cons_none h.symm, ih]
    | some toolUse =>
      rw [hu] at h
      simp only [Option.map_some'] at h
      rw [List.filterMap_cons_some hu, List.filterMap_cons_some h.symm,
        List.map_cons, ih]

theorem handleAssistantMessage_role (marshalObject : List (String × GoValue) → String)
    (message : AnthropicMessage) :
    ∀ m ∈ handleAssistantMessage marshalObject message, m.Role = "assistant" := by
  intro m hm
  unfold handleAssistantMessage at hm
  cases hs : message.Content.String with
  | some text =>
    simp only [hs, List.mem_singleton] at hm
    rw [hm]
  | none =>
    simp only [hs] at hm
    split at hm
    · simp only [List.mem_singleton] at hm; rw [hm]
    · split at hm
      · simp only [List.mem_singleton] at hm; rw [hm]
      · simp only [List.mem_singleton] at hm; rw [hm]

theorem flushPending_role (pending : List AnthropicContentBlock) :
    ∀ m ∈ flushPending pending, m.Role = "user" := by
  intro m hm
  cases pending with
  | nil => simp [flushPending] at hm
  | cons p ps =>
    simp only [flushPending, List.mem_singleton] at hm
    rw [hm]; rfl

theorem splitToolResults_role (json : JSONReparse) (blocks : List AnthropicContentBlock) :
    ∀ (pending : List AnthropicContentBlock) (msgs : List Message),
      splitToolResults json pending blocks = .ok msgs →
      ∀ m ∈ msgs, m.Role = "user" ∨ m.Role = "tool" := by
  induction blocks with
  | nil =>
    intro pending msgs hs m hm
    simp only [splitToolResults, Except.ok.injEq] at hs
    subst hs
    exact Or.inl (flushPending_role pending m hm)
  | cons b rest ih =>
    intro pending msgs hs m hm
    unfold splitToolResults at hs
    cases hr : b.AsToolResult with
    | none =>
      simp only [hr] at hs
      exact ih _ msgs hs m hm
    | some toolResult =>
      simp only [hr] at hs
      cases hg : mapGenericContent json toolResult.Content with
      | error err => simp [hg] at hs
      | ok content =>
        simp only [hg] at hs
        cases ht : splitToolResults json [] rest with
        | error err => simp [ht] at hs
        | ok tail =>
          simp only [ht, Except.ok.injEq] at hs
          subst hs
          rcases List.mem_append.mp hm with h | h
          · exact Or.inl (flushPending_role pending m h)
          · rcases List.mem_cons.mp h with h | h
            · right; rw [h]; rfl
            · exact ih [] tail ht m h

theorem handleUserMessage_role (json : JSONReparse) (message : AnthropicMessage)
    (msgs : List Message) (h : handleUserMessage json message = .ok msgs) :
    ∀ m ∈ msgs, m.Role = "user" ∨ m.Role = "tool" := by
  intro m hm
  cases hs : message.Content.String with
  | some text =>
    unfold handleUserMessage at h
    simp only [hs, Except.ok.injEq] at h
    subst h
    simp only [List.mem_singleton] at hm
    left; rw [hm]; rfl
  | none =>
    rw [handleUserMessage_split json message hs] at h
    cases hp : splitToolResults json [] message.Content.Blocks with
    | error err => simp [hp, Except.map] at h
    | ok parts =>
      simp only [hp, Except.map, Except.ok.injEq] at h
      subst h
      split at hm
      · rcases List.mem_append.mp hm with h1 | h1
        · exact splitToolResults_role json _ [] parts hp m h1
        · simp only [List.mem_singleton] at h1
          left; rw [h1]; rfl
      · exact splitToolResults_role json _ [] parts hp m hm

theorem translateAnthropicMessagesLoop_spec (json : JSONReparse)
    (marshalObject : List (String × GoValue) → String)
    (messages : List AnthropicMessage) :
    ∀ (result out : List Message),
      translateAnthropicMessagesLoop json marshalObject messages result = .ok out ↔
      ∃ conversions : List (List Message),
        List.Forall₂ (fun message conversion =>
            convertMessage json marshalObject message = .ok conversion)
          (messages.filter hasConvertedRole) conversions ∧
        out = result ++ conversions.flatten := by
  induction messages with
  | nil =>
    intro result out
    simp only [translateAnthropicMessagesLoop, Except.ok.injEq, List.filter_nil,
      List.forall₂_nil_left_iff]
    constructor
    · intro h; exact ⟨[], rfl, by simp [h]⟩
    · rintro ⟨c, hc, hout⟩; subst hc; simp [hout]
  | cons message rest ih =>
    intro result out
    unfold translateAnthropicMessagesLoop
    by_cases hu : message.Role = "user"
    · have hf : hasConvertedRole message = true := by simp [hasConvertedRole, hu]
      have hc : convertMessage json marshalObject message =
          handleUserMessage json message := by simp [convertMessage, hu]
      simp only [hu, if_true, List.filter_cons, hf, List.forall₂_cons_left_iff, hc]
      cases hh : handleUserMessage json message with
      | error err =>
        simp
      | ok userMessages =>
        simp only [Except.ok.injEq]
        rw [ih]
        constructor
        · rintro ⟨cs, hcs, hout⟩
          exact ⟨userMessages :: cs, ⟨userMessages, cs, rfl, hcs, rfl⟩,
            by simp [hout, List.append_assoc]⟩
        · rintro ⟨cs, ⟨c, cs1, hc1, hcs1, hcs⟩, hout⟩
          subst hcs; subst hc1
          exact ⟨cs1, hcs1, by simp [hout, List.append_assoc]⟩
    · by_cases ha : message.Role = "assistant"
      · have hf : hasConvertedRole message = true := by simp [hasConvertedRole, ha]
        have hc : convertMessage json marshalObject message =
            .ok (handleAssistantMessage marshalObject message) := by
          simp [convertMessage, hu]
        rw [if_neg hu, if_pos ha]
        simp only [if_true, List.filter_cons, hf,
          List.forall₂_cons_left_iff, hc, Except.ok.injEq]
        rw [ih]
        constructor
        · rintro ⟨cs, hcs, hout⟩
          exact ⟨handleAssistantMessage marshalObject message :: cs,
            ⟨_, cs, rfl, hcs, rfl⟩, by simp [hout, List.append_assoc]⟩
        · rintro ⟨cs, ⟨c, cs1, hc1, hcs1, hcs⟩, hout⟩
          subst hcs; subst hc1
          exact ⟨cs1, hcs1, by simp [hout, List.append_assoc]⟩
      · have hf : hasConvertedRole message = false := by simp [hasConvertedRole, hu, ha]
        rw [if_neg hu, if_neg ha]
        simp only [List.filter_cons, hf]
        exact ih result out

theorem translateAnthropicMessagesLoop_filter (json : JSONReparse)
    (marshalObject : List (String × GoValue) → String)
    (messages : List AnthropicMessage) :
    ∀ result : List Message,
      translateAnthropicMessagesLoop json marshalObject
          (messages.filter hasConvertedRole) result =
        translateAnthropicMessagesLoop json marshalObject messages result := by
  induction messages with
  | nil => intro result; rfl
  | cons message rest ih =>
    intro result
    by_cases hu : message.Role = "user"
    · have hf : hasConvertedRole message = true := by simp [hasConvertedRole, hu]
      simp only [List.filter_cons, hf, if_true]
      unfold translateAnthropicMessagesLoop
      simp only [hu, if_true]
      cases hh : handleUserMessage json message with
      | error err => rfl
      | ok userMessages => exact ih _
    · by_cases ha : message.Role = "assistant"
      · have hf : hasConvertedRole message = true := by simp [hasConvertedRole, ha]
        simp only [List.filter_cons, hf, if_true]
        simp only [translateAnthropicMessagesLoop, if_neg hu, if_pos ha]
        exact ih _
      · have hf : hasConvertedRole message = false := by simp [hasConvertedRole, hu, ha]
        simp only [List.filter_cons, hf]
        conv_rhs => unfold translateAnthropicMessagesLoop
        rw [if_neg hu, if_neg ha]
        simp only [Bool.false_eq_true, if_false]
        exact ih result

theorem translateAnthropicMessages_role (json : JSONReparse)
    (marshalObject : List (String × GoValue) → String)
    (messages : List AnthropicMessage) (out : List Message)
    (h : translateAnthropicMessages json marshalObject messages = .ok out) :
    ∀ m ∈ out, m.Role = "user" ∨ m.Role = "tool" ∨ m.Role = "assistant" := by
  unfold translateAnthropicMessages at h
  obtain ⟨conversions, hall, hout⟩ :=
    (translateAnthropicMessagesLoop_spec json marshalObject messages [] out).mp h
  subst hout
  intro m hm
  simp only [List.nil_append, List.mem_flatten] at hm
  obtain ⟨conversion, hmem, hm⟩ := hm
  have key : ∀ (ms : List AnthropicMessage) (cs : List (List Message)),
      List.Forall₂ (fun message conversion =>
        convertMessage json marshalObject message = .ok conversion) ms cs →
      ∀ c ∈ cs, ∀ m ∈ c, m.Role = "user" ∨ m.Role = "tool" ∨ m.Role = "assistant" := by
    intro ms cs hf
    induction hf with
    | nil => intro c hc; cases hc
    | cons hhead _ ih =>
      intro c hc m hm
      rcases List.mem_cons.mp hc with hc | hc
      · subst hc
        unfold convertMessage at hhead
        split at hhead
        · rcases handleUserMessage_role json _ _ hhead m hm with h1 | h1
          · exact Or.inl h1
          · exact Or.inr (Or.inl h1)
        · simp only [Except.ok.injEq] at hhead
          subst hhead
          exact Or.inr (Or.inr (handleAssistantMessage_role marshalObject _ m hm))
      · exact ih c hc m hm
  exact key _ _ hall conversion hmem m hm

theorem translateToOpenAI_ok (json : JSONReparse)
    (marshalObject : List (String × GoValue) → String)
    (payload : AnthropicMessagesPayload) (out : ChatCompletionsPayload)
    (h : TranslateToOpenAI json marshalObject payload = .ok out) :
    ∃ otherMessages,
      translateAnthropicMessages json marshalObject payload.Messages = .ok otherMessages ∧
      out.Messages = translateSystemPrompt payload.System ++ otherMessages ∧
      out.Model = translateModelName payload.Model := by
  unfold TranslateToOpenAI at h
  cases ht : translateAnthropicMessages json marshalObject payload.Messages with
  | error err => simp [ht] at h
  | ok otherMessages =>
    simp only [ht, Except.ok.injEq] at h
    subst h
    exact ⟨otherMessages, rfl, rfl, rfl⟩

theorem stringsHasPrefix_iff (s p : String) :
    stringsHasPrefix s p = true ↔ ∃ rest : String, s = p ++ rest := by
  unfold stringsHasPrefix
  rw [List.isPrefixOf_iff_prefix]
  constructor
  · rintro ⟨t, ht⟩
    refine ⟨⟨t⟩, ?_⟩
    apply String.ext
    simp [ht]
  · rintro ⟨rest, hrest⟩
    exact ⟨rest.data, by rw [hrest]; simp⟩

/-- C11.  For every assistant message with block-list content that contains
at least one `tool_use` block (a block of type "tool_use" carrying its id and
name, as `AsToolUse` recognises it), `handleAssistantMessage` returns exactly
one message, with role "assistant", whose content is the texts of the `text`
and `thinking` blocks joined in block order with a blank line (absent when
that join is empty) and whose tool calls are, in block order, one per
`tool_use` block: the block's id, type "function", the block's name, and as
arguments the serialization of the block's input, of the empty object when
the block has no input, which is "{}" for an encoder that writes the empty
object so. -/
theorem C11_assistant_tool_use (marshalObject : List (String × GoValue) → String)
    (message : AnthropicMessage)
    (hcontent : message.Content.String = none)
    (htool : ∃ b ∈ message.Content.Blocks,
      b.Kind = "tool_use" ∧ b.ID ≠ none ∧ b.Name ≠ none) :
    handleAssistantMessage marshalObject message =
      [{ Role := "assistant"
         Content :=
           if String.intercalate "\n\n" (message.Content.Blocks.filterMap blockText) = ""
           then { StringValue := none, Parts := [] }
           else { StringValue :=
                    some (String.intercalate "\n\n"
                      (message.Content.Blocks.filterMap blockText))
                  Parts := [] }
         Name := none
         ToolCalls := message.Content.Blocks.filterMap (blockToolCall marshalObject)
         ToolCallID := none }] ∧
    (∀ b ∈ message.Content.Blocks, ∀ id name,
      b.Kind = "tool_use" → b.ID = some id → b.Name = some name →
      blockToolCall marshalObject b =
        some { Index := 0, ID := id, Kind := "function"
               Function := { Name := name
                             Arguments := marshalObject (b.Input.getD []) } }) ∧
    (∀ b ∈ message.Content.Blocks, b.Kind ≠ "tool_use" →
      blockToolCall marshalObject b = none) ∧
    (marshalObject [] = "\x7b\x7d" →
      ∀ b ∈ message.Content.Blocks, ∀ call, b.Input = none →
        blockToolCall marshalObject b = some call →
        call.Function.Arguments = "\x7b\x7d") := by
  refine ⟨?_, ?_, ?_, ?_⟩
  · have hne : message.Content.Blocks.filterMap AnthropicContentBlockOf.AsToolUse ≠ [] := by
      obtain ⟨b, hb, hk, hid, hname⟩ := htool
      intro hnil
      have hnone := List.filterMap_eq_nil_iff.mp hnil b hb
      cases hi : b.ID with
      | none => exact hid hi
      | some id =>
        cases hn : b.Name with
        | none => exact hname hn
        | some name =>
          simp [AnthropicContentBlockOf.AsToolUse, hk, hi, hn] at hnone
    have hlen : (message.Content.Blocks.filterMap
        AnthropicContentBlockOf.AsToolUse).length > 0 :=
      List.length_pos.mpr hne
    unfold handleAssistantMessage
    simp only [hcontent, handleAssistantMessageLoop_eq, List.nil_append, hlen, if_true,
      toolUseBlocks_toolCalls, stringsJoin]
    by_cases hj : String.intercalate "\n\n" (message.Content.Blocks.filterMap blockText) = ""
    · simp [hj]
    · simp [hj]
  · intro b _ id name hk hid hname
    simp [blockToolCall, hk, hid, hname]
  · intro b _ hk
    simp [blockToolCall, hk]
  · intro hempty b _ call hin hcall
    unfold blockToolCall at hcall
    by_cases hk : b.Kind = "tool_use"
    · cases hi : b.ID with
      | none => simp [hk, hi] at hcall
      | some id =>
        cases hn : b.Name with
        | none => simp [hk, hi, hn] at hcall
        | some name =>
          simp only [hk, hi, hn, if_true, hin, Option.getD_none, hempty,
            Option.some.injEq] at hcall
          rw [← hcall]
    · simp [hk] at hcall

theorem C11_assistant_tool_use_witness :
    handleAssistantMessage sampleMarshal
        (blocksMessage "assistant"
          [textBlock "Let me check.", toolUseBlock "toolu_1" "get_weather"
              (some [("city", GoValue.string "Paris")]),
           thinkingBlock "Then the time.", toolUseBlock "toolu_2" "get_time" none]) =
      [{ Role := "assistant"
         Content := { StringValue := some "Let me check.\n\nThen the time.", Parts := [] }
         Name := none
         ToolCalls :=
           [{ Index := 0, ID := "toolu_1", Kind := "function"
              Function := { Name := "get_weather"
                            Arguments := "\x7b\x22city\x22:\x22Paris\x22\x7d" } },
            { Index := 0, ID := "toolu_2", Kind := "function"
              Function := { Name := "get_time", Arguments := "\x7b\x7d" } }]
         ToolCallID := none }] :=
  (C11_assistant_tool_use sampleMarshal
    (blocksMessage "assistant"
      [textBlock "Let me check.", toolUseBlock "toolu_1" "get_weather"
          (some [("city", GoValue.string "Paris")]),
       thinkingBlock "Then the time.", toolUseBlock "toolu_2" "get_time" none])
    rfl
    ⟨toolUseBlock "toolu_2" "get_time" none, by simp [blocksMessage],
      rfl, by simp [toolUseBlock], by simp [toolUseBlock]⟩).1.trans (by decide)

/-- C12.  For every request that `TranslateToOpenAI` translates, the model of
the returned request is "claude-sonnet-4" when the request's model id begins
with "claude-sonnet-4-", otherwise "claude-opus-4" when it begins with
"claude-opus-", otherwise the model id unchanged; so
"claude-sonnet-4-20250522" gives "claude-sonnet-4", "claude-opus-20240229"
gives "claude-opus-4" and "gpt-4o" gives "gpt-4o". -/
theorem C12_model_name (json : JSONReparse)
    (marshalObject : List (String × GoValue) → String)
    (payload : AnthropicMessagesPayload) (out : ChatCompletionsPayload)
    (h : TranslateToOpenAI json marshalObject payload = .ok out) :
    out.Model = translateModelName payload.Model ∧
    ((∃ rest : String, payload.Model = "claude-sonnet-4-" ++ rest) →
      out.Model = "claude-sonnet-4") ∧
    ((¬ ∃ rest : String, payload.Model = "claude-sonnet-4-" ++ rest) →
      (∃ rest : String, payload.Model = "claude-opus-" ++ rest) →
      out.Model = "claude-opus-4") ∧
    ((¬ ∃ rest : String, payload.Model = "claude-sonnet-4-" ++ rest) →
      (¬ ∃ rest : String, payload.Model = "claude-opus-" ++ rest) →
      out.Model = payload.Model) ∧
    translateModelName "claude-sonnet-4-20250522" = "claude-sonnet-4" ∧
    translateModelName "claude-opus-20240229" = "claude-opus-4" ∧
    translateModelName "gpt-4o" = "gpt-4o" := by
  obtain ⟨_, _, _, hmodel⟩ := translateToOpenAI_ok json marshalObject payload out h
  refine ⟨hmodel, ?_, ?_, ?_, by decide, by decide, by decide⟩
  · intro hs
    rw [hmodel]
    unfold translateModelName
    rw [if_pos ((stringsHasPrefix_iff _ _).mpr hs)]
  · intro hs ho
    rw [hmodel]
    unfold translateModelName
    rw [if_neg (fun hp => hs ((stringsHasPrefix_iff _ _).mp hp)),
      if_pos ((stringsHasPrefix_iff _ _).mpr ho)]
  · intro hs ho
    rw [hmodel]
    unfold translateModelName
    rw [if_neg (fun hp => hs ((stringsHasPrefix_iff _ _).mp hp)),
      if_neg (fun hp => ho ((stringsHasPrefix_iff _ _).mp hp))]

theorem C12_model_name_witness :
    ∃ out, TranslateToOpenAI rejectAll sampleMarshal
        (samplePayload "claude-sonnet-4-20250522" none [stringMessage "user" "hi"]) =
        .ok out ∧
      out.Model = "claude-sonnet-4" :=
  ⟨_, rfl,
    (C12_model_name rejectAll sampleMarshal
      (samplePayload "claude-sonnet-4-20250522" none [stringMessage "user" "hi"]) _
      rfl).2.1 ⟨"20250522", by decide⟩⟩

/-- C13.  For every request whose system prompt is a list of one or more
text blocks and that `TranslateToOpenAI` translates, the translated request
contains exactly one message with role "system": it is the first message, no
later message has that role, and its content is the plain string formed by
joining the blocks' texts in order with a blank line; for the blocks
"intro", "rules" the content is "intro\n\nrules". -/
theorem C13_system_blocks (json : JSONReparse)
    (marshalObject : List (String × GoValue) → String)
    (payload : AnthropicMessagesPayload) (system : AnthropicSystemPrompt)
    (out : ChatCompletionsPayload)
    (hsystem : payload.System = some system)
    (hstring : system.String = none)
    (hblocks : system.Blocks ≠ [])
    (h : TranslateToOpenAI json marshalObject payload = .ok out) :
    (∃ rest, out.Messages =
        { Role := "system"
          Content := { StringValue :=
                         some (String.intercalate "\n\n"
                           (system.Blocks.map fun block => block.Text))
                       Parts := [] }
          Name := none, ToolCalls := [], ToolCallID := none } :: rest ∧
      ∀ m ∈ rest, m.Role ≠ "system") ∧
    (out.Messages.filter fun m => m.Role == "system").length = 1 ∧
    ((system.Blocks.map fun block => block.Text) = ["intro", "rules"] →
      out.Messages.head?.map (fun m => m.Content) =
        some { StringValue := some "intro\n\nrules", Parts := [] }) := by
  obtain ⟨other, hother, hmsgs, _⟩ := translateToOpenAI_ok json marshalObject payload out h
  have hroles := translateAnthropicMessages_role json marshalObject _ other hother
  have hlen : system.Blocks.length > 0 := List.length_pos.mpr hblocks
  have hsys : translateSystemPrompt payload.System =
      [{ Role := "system"
         Content := { StringValue :=
                        some (String.intercalate "\n\n"
                          (system.Blocks.map fun block => block.Text))
                      Parts := [] }
         Name := none, ToolCalls := [], ToolCallID := none }] := by
    unfold translateSystemPrompt
    simp only [hsystem, hstring, hlen, if_true, joinWithDoubleNewline_eq]
  have hnot : ∀ m ∈ other, m.Role ≠ "system" := by
    intro m hm hsysrole
    rcases hroles m hm with h1 | h1 | h1 <;> rw [hsysrole] at h1 <;> exact absurd h1 (by decide)
  rw [hsys] at hmsgs
  refine ⟨⟨other, hmsgs, hnot⟩, ?_, ?_⟩
  · rw [hmsgs]
    have hfilter : (other.filter fun m => m.Role == "system") = [] := by
      rw [List.filter_eq_nil_iff]
      intro m hm
      simpa using hnot m hm
    simp [List.filter_cons, hfilter]
  · intro htexts
    rw [hmsgs, htexts]
    rfl

theorem C13_system_blocks_witness :
    ∃ out, TranslateToOpenAI rejectAll sampleMarshal
        (samplePayload "gpt-4o"
          (some { String := none
                  Blocks := [{ Kind := "text", Text := "intro" },
                             { Kind := "text", Text := "rules" }] })
          [stringMessage "system" "dropped", stringMessage "user" "hi"]) = .ok out ∧
      out.Messages.head?.map (fun m => m.Content) =
        some { StringValue := some "intro\n\nrules", Parts := [] } ∧
      (out.Messages.filter fun m => m.Role == "system").length = 1 :=
  ⟨_, rfl,
    (C13_system_blocks rejectAll sampleMarshal
      (samplePayload "gpt-4o"
        (some { String := none
                Blocks := [{ Kind := "text", Text := "intro" },
                           { Kind := "text", Text := "rules" }] })
        [stringMessage "system" "dropped", stringMessage "user" "hi"])
      { String := none
        Blocks := [{ Kind := "text", Text := "intro" }, { Kind := "text", Text := "rules" }] }
      _ rfl rfl (by simp) rfl).2.2 rfl,
    (C13_system_blocks rejectAll sampleMarshal
      (samplePayload "gpt-4o"
        (some { String := none
                Blocks := [{ Kind := "text", Text := "intro" },
                           { Kind := "text", Text := "rules" }] })
        [stringMessage "system" "dropped", stringMessage "user" "hi"])
      { String := none
        Blocks := [{ Kind := "text", Text := "intro" }, { Kind := "text", Text := "rules" }] }
      _ rfl rfl (by simp) rfl).2.1⟩

/-- C14.  For every request on which `TranslateToOpenAI` succeeds, the
upstream message list is the system messages (exactly one system message
carrying the string when the system prompt is a string, none when the system
prompt is absent) followed by the concatenation, in input order, of the
conversions of the messages whose role is "user" or "assistant"; a message
with any other role contributes no upstream message and causes no error:
`TranslateToOpenAI` gives the same result, success or error, on the request
without such messages. -/
theorem C14_message_list (json : JSONReparse)
    (marshalObject : List (String × GoValue) → String)
    (payload : AnthropicMessagesPayload) (out : ChatCompletionsPayload)
    (h : TranslateToOpenAI json marshalObject payload = .ok out) :
    (∃ conversions : List (List Message),
      List.Forall₂ (fun message conversion =>
          convertMessage json marshalObject message = .ok conversion)
        (payload.Messages.filter hasConvertedRole) conversions ∧
      out.Messages = translateSystemPrompt payload.System ++ conversions.flatten) ∧
    (payload.System = none → translateSystemPrompt payload.System = []) ∧
    (∀ system text, payload.System = some system → system.String = some text →
      translateSystemPrompt payload.System =
        [{ Role := "system", Content := { StringValue := some text, Parts := [] }
           Name := none, ToolCalls := [], ToolCallID := none }]) ∧
    (∀ message, (message.Role = "user" →
        convertMessage json marshalObject message = handleUserMessage json message) ∧
      (message.Role = "assistant" →
        convertMessage json marshalObject message =
          .ok (handleAssistantMessage marshalObject message))) ∧
    TranslateToOpenAI json marshalObject
        { payload with Messages := payload.Messages.filter hasConvertedRole } =
      TranslateToOpenAI json marshalObject payload := by
  obtain ⟨other, hother, hmsgs, _⟩ := translateToOpenAI_ok json marshalObject payload out h
  refine ⟨?_, ?_, ?_, ?_, ?_⟩
  · unfold translateAnthropicMessages at hother
    obtain ⟨conversions, hall, hout⟩ :=
      (translateAnthropicMessagesLoop_spec json marshalObject _ [] other).mp hother
    refine ⟨conversions, hall, ?_⟩
    rw [hmsgs, hout, List.nil_append]
  · intro hnone
    rw [hnone]; rfl
  · intro system text hsystem htext
    unfold translateSystemPrompt
    simp only [hsystem, htext]
  · intro message
    constructor
    · intro hu; simp [convertMessage, hu]
    · intro ha
      have hu : message.Role ≠ "user" := by rw [ha]; decide
      simp [convertMessage, hu]
  · unfold TranslateToOpenAI translateAnthropicMessages
    simp only [translateAnthropicMessagesLoop_filter]

theorem C14_message_list_witness :
    ∃ out, TranslateToOpenAI rejectAll sampleMarshal
        (samplePayload "gpt-4o" (some { String := some "be brief", Blocks := [] })
          [stringMessage "user" "hi", stringMessage "developer" "dropped",
           stringMessage "assistant" "hello"]) = .ok out ∧
      out.Messages =
        [systemMessage "be brief",
         userMessage { StringValue := some "hi", Parts := [] },
         { Role := "assistant", Content := { StringValue := some "hello", Parts := [] }
           Name := none, ToolCalls := [], ToolCallID := none }] ∧
      TranslateToOpenAI rejectAll sampleMarshal
          { samplePayload "gpt-4o" (some { String := some "be brief", Blocks := [] })
              [stringMessage "user" "hi", stringMessage "developer" "dropped",
               stringMessage "assistant" "hello"] with
            Messages :=
              [stringMessage "user" "hi", stringMessage "developer" "dropped",
               stringMessage "assistant" "hello"].filter hasConvertedRole } =
        .ok out :=
  ⟨_, rfl, rfl,
    (C14_message_list rejectAll sampleMarshal
      (samplePayload "gpt-4o" (some { String := some "be brief", Blocks := [] })
        [stringMessage "user" "hi", stringMessage "developer" "dropped",
         stringMessage "assistant" "hello"]) _ rfl).2.2.2.2.trans rfl⟩

/-! ## The SSE reader (streaming/reader.go) -/

theorem flush_data (state : ReaderState) :
    ∀ frame ∈ (flush state).1, frame.Data ≠ "" := by
  intro frame hf
  unfold flush at hf
  by_cases h : state.dataBuilder = ""
  · simp [h] at hf
  · simp only [h, if_false, List.mem_singleton] at hf
    rw [hf]; exact h

theorem flush_length (state : ReaderState) : (flush state).1.length ≤ 1 := by
  unfold flush
  by_cases h : state.dataBuilder = "" <;> simp [h]

theorem flush_builder (state : ReaderState) : (flush state).2.dataBuilder = "" := by
  unfold flush
  by_cases h : state.dataBuilder = "" <;> simp [h]

theorem readLine_nonblank (line : String) (state : ReaderState) (h : line ≠ "") :
    (readLine line state).1 = [] := by
  unfold readLine
  rw [if_neg h]
  split
  · rfl
  · split <;> rfl

theorem readLines_data (lines : List String) :
    ∀ (state : ReaderState), ∀ frame ∈ readLines lines state, frame.Data ≠ "" := by
  induction lines with
  | nil => intro state frame hf; exact flush_data state frame hf
  | cons line rest ih =>
    intro state frame hf
    simp only [readLines, List.mem_append] at hf
    rcases hf with hf | hf
    · by_cases hl : line = ""
      · rw [hl] at hf
        simp only [readLine, if_true] at hf
        exact flush_data state frame hf
      · rw [readLine_nonblank line state hl] at hf
        cases hf
    · exact ih _ frame hf

theorem readLines_length (lines : List String) :
    ∀ (state : ReaderState),
      (readLines lines state).length ≤ (lines.filter fun line => line = "").length + 1 := by
  induction lines with
  | nil =>
    intro state
    simp only [readLines, List.filter_nil, List.length_nil, Nat.zero_add]
    exact flush_length state
  | cons line rest ih =>
    intro state
    simp only [readLines, List.length_append]
    by_cases hl : line = ""
    · subst hl
      have h1 : (readLine "" state).1.length ≤ 1 := by
        simp only [readLine, if_true]
        exact flush_length state
      have h2 := ih (readLine "" state).2
      simp only [List.filter_cons, decide_True, if_true, List.length_cons]
      omega
    · have h2 := ih (readLine line state).2
      rw [readLine_nonblank line state hl]
      simp only [List.filter_cons, hl, decide_False, List.length_nil]
      simpa using h2

theorem readLines_scan_flush (lines : List String) :
    ∀ (state : ReaderState),
      ∃ scanned, readLines lines state =
        scanned ++ (flush (readerStateAfter lines state)).1 := by
  induction lines with
  | nil => intro state; exact ⟨[], by simp [readLines, readerStateAfter]⟩
  | cons line rest ih =>
    intro state
    obtain ⟨scanned, hs⟩ := ih (readLine line state).2
    exact ⟨(readLine line state).1 ++ scanned, by
      simp only [readLines, readerStateAfter, hs, List.append_assoc]⟩

theorem readLines_blank_end (lines : List String) :
    ∀ (state : ReaderState), readLines (lines ++ [""]) state = readLines lines state := by
  induction lines with
  | nil =>
    intro state
    simp only [List.nil_append, readLines, readLine, if_true]
    have hb := flush_builder state
    have h2 : (flush (flush state).2).1 = [] := by
      unfold flush at hb ⊢
      by_cases h : state.dataBuilder = "" <;> simp [h]
    rw [h2, List.append_nil]
  | cons line rest ih =>
    intro state
    have h := ih (readLine line state).2
    simp only [List.cons_append, readLines]
    exact congrArg _ h

/-- C22, the failing input.  A `data:` line with empty content followed by the
line `data: x`: the trimmed contents are "" and "x", whose join with a line
feed is "\nx", but the reader emits the frame data "x", since the separator
is written only when the builder already holds bytes. -/
theorem C22_leading_empty_data_line :
    ReadSSE ["data:", "data: x", ""] = [{ Event := "", Data := "x" }] ∧
    stringsTrimSpace ("data:".drop 5) = "" ∧
    stringsTrimSpace ("data: x".drop 5) = "x" ∧
    String.intercalate "\n" ["", "x"] = "\nx" ∧
    ("\nx" : String) ≠ "x" := by
  decide

/-- C23, the failing input.  An `event:` line followed by a blank line with no
`data:` line in between: `flush` returns before its reset when the builder is
empty, the event name stays pending through the blank line, and the next
frame carries it. -/
theorem C23_event_survives_blank_line :
    ReadSSE ["event: ping", "", "data: x", ""] = [{ Event := "ping", Data := "x" }] ∧
    (readLine "" { currentEvent := "ping", dataBuilder := "" }).2.currentEvent = "ping" := by
  decide

/-- C24.  For every input line sequence, no frame emitted by the SSE reader
has empty data; a blank line, and the end of the stream, reached with no
pending `data:` content emit nothing; and the number of frames emitted is at
most the number of blank lines plus one. -/
theorem C24_no_empty_frames (lines : List String) :
    (∀ frame ∈ ReadSSE lines, frame.Data ≠ "") ∧
    (∀ state : ReaderState, state.dataBuilder = "" →
      (readLine "" state).1 = [] ∧ readLines [] state = []) ∧
    (ReadSSE lines).length ≤ (lines.filter fun line => line = "").length + 1 := by
  refine ⟨readLines_data lines _, ?_, readLines_length lines _⟩
  intro state h
  simp [readLine, readLines, flush, h]

/-- C25.  For every input line sequence: when `data:` content is pending
after the last line (the builder is not empty when the lines end, so no blank
line terminated it), the SSE reader emits that content, with the pending
event name, as the last frame at end of stream; and the frames emitted are
the same whether or not a final blank line is appended to the input. -/
theorem C25_final_flush (lines : List String) :
    ((readerStateAfter lines { currentEvent := "", dataBuilder := "" }).dataBuilder ≠ "" →
      (ReadSSE lines).getLast? =
        some { Event :=
                 (readerStateAfter lines
                   { currentEvent := "", dataBuilder := "" }).currentEvent
               Data :=
                 (readerStateAfter lines
                   { currentEvent := "", dataBuilder := "" }).dataBuilder }) ∧
    ReadSSE (lines ++ [""]) = ReadSSE lines := by
  refine ⟨?_, readLines_blank_end lines _⟩
  intro hpending
  obtain ⟨scanned, hs⟩ :=
    readLines_scan_flush lines { currentEvent := "", dataBuilder := "" }
  unfold ReadSSE
  rw [hs]
  simp [flush, hpending]

theorem C25_final_flush_witness :
    (ReadSSE ["data: a", "", "event: tick", "data: b"]).getLast? =
      some { Event := "tick", Data := "b" } ∧
    ReadSSE (["data: a", "", "event: tick", "data: b"] ++ [""]) =
      ReadSSE ["data: a", "", "event: tick", "data: b"] :=
  ⟨(C25_final_flush ["data: a", "", "event: tick", "data: b"]).1 (by decide),
   (C25_final_flush ["data: a", "", "event: tick", "data: b"]).2⟩

/-! ## What the reader does with `data:` lines -/

theorem dataLine_step (content : String) (state : ReaderState) :
    readLine ("data:" ++ content) state =
      ([], { state with
             dataBuilder :=
               (if state.dataBuilder ≠ "" then state.dataBuilder ++ "\n"
                else state.dataBuilder) ++ stringsTrimSpace content }) := by
  have hne : "data:" ++ content ≠ "" := by
    intro h
    have := congrArg String.length h
    simp only [String.length_append] at this
    have h5 : "data:".length = 5 := by decide
    rw [h5] at this
    simp at this
  have hev : stringsHasPrefix ("data:" ++ content) "event:" = false := by
    simp [stringsHasPrefix, String.data_append, List.isPrefixOf]
  have hda : stringsHasPrefix ("data:" ++ content) "data:" = true := by
    rw [stringsHasPrefix_iff]; exact ⟨content, rfl⟩
  have hdrop : ("data:" ++ content).drop 5 = content := by
    apply String.ext
    rw [String.data_drop]
    simp [String.data_append]
  unfold readLine
  rw [if_neg hne]
  simp only [hev, hda, hdrop, Bool.false_eq_true, if_false, if_true]

theorem dataLines_builder_nonempty (contents : List String) :
    ∀ (state : ReaderState), state.dataBuilder ≠ "" →
      readerStateAfter (contents.map fun c => "data:" ++ c) state =
        { state with
          dataBuilder := String.intercalate "\n"
            (state.dataBuilder :: contents.map stringsTrimSpace) } := by
  induction contents with
  | nil =>
    intro state _
    simp [readerStateAfter, String.intercalate, String.intercalate.go]
  | cons c cs ih =>
    intro state hb
    have hstep := dataLine_step c state
    rw [if_pos hb] at hstep
    have hb2 : state.dataBuilder ++ "\n" ++ stringsTrimSpace c ≠ "" := by
      intro h
      have := congrArg String.length h
      simp only [String.length_append] at this
      have h1 : "\n".length = 1 := by decide
      rw [h1] at this
      simp at this
    have h1 := ih { state with
      dataBuilder := state.dataBuilder ++ "\n" ++ stringsTrimSpace c } hb2
    simp only [List.map_cons, readerStateAfter, hstep, h1]
    simp [String.intercalate, String.intercalate.go]

/-- The builder after a run of `data:` lines read with an empty builder: the
trimmed contents joined with a line feed, without the leading contents that
are empty. -/
theorem dataLines_builder (contents : List String) :
    ∀ (event : String),
      readerStateAfter (contents.map fun c => "data:" ++ c)
          { currentEvent := event, dataBuilder := "" } =
        { currentEvent := event
          dataBuilder := String.intercalate "\n"
            ((contents.map stringsTrimSpace).dropWhile fun c => c = "") } := by
  induction contents with
  | nil => intro event; rfl
  | cons c cs ih =>
    intro event
    have hstep := dataLine_step c { currentEvent := event, dataBuilder := "" }
    simp only [ne_eq, not_true_eq_false, if_false] at hstep
    have hempty : ("" : String) ++ stringsTrimSpace c = stringsTrimSpace c := by
      apply String.ext; simp [String.data_append]
    rw [hempty] at hstep
    by_cases hc : stringsTrimSpace c = ""
    · simp only [List.map_cons, readerStateAfter, hstep, hc, List.dropWhile_cons,
        decide_True, if_true]
      exact ih event
    · have h1 := dataLines_builder_nonempty cs
        { currentEvent := event, dataBuilder := stringsTrimSpace c } hc
      simp only [List.map_cons, readerStateAfter, hstep, h1, List.dropWhile_cons, hc,
        decide_False, Bool.false_eq_true, if_false]

theorem dataLines_scan (contents : List String) :
    ∀ (state : ReaderState) (rest : List String),
      readLines ((contents.map fun c => "data:" ++ c) ++ rest) state =
        readLines rest (readerStateAfter (contents.map fun c => "data:" ++ c) state) := by
  induction contents with
  | nil => intro state rest; rfl
  | cons c cs ih =>
    intro state rest
    have hstep := dataLine_step c state
    simp only [List.map_cons, List.cons_append, readLines, readerStateAfter, hstep,
      List.nil_append]
    exact ih _ rest

/-- A run of `data:` lines closed by a blank line gives one frame whose data
is the trimmed contents joined with a line feed, provided the first content
is not empty after trimming. -/
theorem readSSE_data_join (first : String) (more : List String)
    (hfirst : stringsTrimSpace first ≠ "") :
    ReadSSE (((first :: more).map fun c => "data:" ++ c) ++ [""]) =
      [{ Event := ""
         Data := String.intercalate "\n" ((first :: more).map stringsTrimSpace) }] := by
  unfold ReadSSE
  rw [dataLines_scan, dataLines_builder]
  have hd : ((first :: more).map stringsTrimSpace).dropWhile (fun c => decide (c = "")) =
      (first :: more).map stringsTrimSpace := by
    simp [List.dropWhile_cons, hfirst]
  rw [hd]
  have hne : String.intercalate "\n" ((first :: more).map stringsTrimSpace) ≠ "" := by
    have h := dataLines_builder_nonempty more
      { currentEvent := "", dataBuilder := stringsTrimSpace first } hfirst
    intro hj
    have hlen : (stringsTrimSpace first).length ≤
        (String.intercalate "\n" ((first :: more).map stringsTrimSpace)).length := by
      have key : ∀ (l : List String) (acc : String),
          acc.length ≤ (String.intercalate.go acc "\n" l).length := by
        intro l
        induction l with
        | nil => intro acc; simp [String.intercalate.go]
        | cons a as iha =>
          intro acc
          simp only [String.intercalate.go]
          have := iha (acc ++ "\n" ++ a)
          simp only [String.length_append] at this
          omega
      simpa [String.intercalate] using key (more.map stringsTrimSpace) (stringsTrimSpace first)
    rw [hj] at hlen
    have hzero : (stringsTrimSpace first).length = 0 := by simpa using hlen
    apply hfirst
    apply String.ext
    exact List.length_eq_zero.mp hzero
  have hne2 : String.intercalate "\n"
      (stringsTrimSpace first :: more.map stringsTrimSpace) ≠ "" := by
    simpa using hne
  simp only [readLines, readLine, flush, if_true, List.map_cons, if_neg hne2,
    List.singleton_append]

/-! ## The host loop (server/server.go) -/

theorem forwardMessagesStreamLoop_passes
    (decodeChunk : String → Except String ChatCompletionChunk)
    (before : List SSEMessage) :
    ∀ (rest : List SSEMessage) (state : AnthropicStreamState),
      (∀ frame ∈ before, passesFrame decodeChunk frame) →
      forwardMessagesStreamLoop decodeChunk (before ++ rest) state =
        ((translateChunks (decodedChunks decodeChunk before) state).1.map StreamOutput.event ++
            (forwardMessagesStreamLoop decodeChunk rest
              (translateChunks (decodedChunks decodeChunk before) state).2).1,
          (forwardMessagesStreamLoop decodeChunk rest
            (translateChunks (decodedChunks decodeChunk before) state).2).2) := by
  induction before with
  | nil =>
    intro rest state _
    simp [decodedChunks, translateChunks]
  | cons frame more ih =>
    intro rest state hpass
    have hframe := hpass frame (List.mem_cons_self _ _)
    have hmore : ∀ f ∈ more, passesFrame decodeChunk f :=
      fun f hf => hpass f (List.mem_cons_of_mem _ hf)
    obtain ⟨hnd, hdata⟩ := hframe
    rw [List.cons_append, forwardMessagesStreamLoop, if_neg hnd]
    by_cases he : frame.Data = ""
    · rw [if_pos he, ih rest state hmore]
      simp [decodedChunks, he]
    · rw [if_neg he]
      rcases hdata with hdata | ⟨chunk, hchunk⟩
      · exact (he hdata).elim
      · simp only [hchunk]
        rw [ih rest _ hmore]
        simp [decodedChunks, he, hchunk, translateChunks, List.append_assoc]

theorem forwardMessagesStreamLoop_done
    (decodeChunk : String → Except String ChatCompletionChunk)
    (before : List SSEMessage) :
    ∀ (done : SSEMessage) (after : List SSEMessage) (state : AnthropicStreamState),
      done.Data = "[DONE]" →
      forwardMessagesStreamLoop decodeChunk (before ++ done :: after) state =
        forwardMessagesStreamLoop decodeChunk before state := by
  induction before with
  | nil =>
    intro done after state hdone
    simp [forwardMessagesStreamLoop, hdone]
  | cons frame more ih =>
    intro done after state hdone
    rw [List.cons_append, forwardMessagesStreamLoop, forwardMessagesStreamLoop]
    by_cases hnd : frame.Data = "[DONE]"
    · simp [hnd]
    · rw [if_neg hnd, if_neg hnd]
      by_cases he : frame.Data = ""
      · rw [if_pos he, if_pos he]
        exact ih done after state hdone
      · rw [if_neg he, if_neg he]
        cases hd : decodeChunk frame.Data with
        | error err => rfl
        | ok chunk =>
          simp only [ih done after _ hdone]

theorem forwardMessagesStreamLoop_congr
    (decodeChunk decodeOther : String → Except String ChatCompletionChunk)
    (hsame : ∀ data, data ≠ "[DONE]" → decodeOther data = decodeChunk data)
    (frames : List SSEMessage) :
    ∀ state : AnthropicStreamState,
      forwardMessagesStreamLoop decodeOther frames state =
        forwardMessagesStreamLoop decodeChunk frames state := by
  induction frames with
  | nil => intro state; rfl
  | cons frame more ih =>
    intro state
    rw [forwardMessagesStreamLoop, forwardMessagesStreamLoop]
    by_cases hnd : frame.Data = "[DONE]"
    · simp [hnd]
    · rw [if_neg hnd, if_neg hnd, hsame _ hnd]
      by_cases he : frame.Data = ""
      · rw [if_pos he, if_pos he]
        exact ih state
      · rw [if_neg he, if_neg he]
        cases hd : decodeChunk frame.Data with
        | error err => rfl
        | ok chunk => simp only [ih]

/-- C26.  In the host loop `forwardMessagesStream`, folded over the frame
sequence: a frame with payload "[DONE]" ends the loop, so the output and the
final state are those of the frames before it, whatever frames follow; the
payload is not passed to JSON decoding (the result does not depend on what
the decoder does with "[DONE]"); and when the loop reaches that frame (no
earlier frame is the sentinel or fails to decode) the output is exactly the
translated events of the frames before it, none of them an error event. -/
theorem C26_done_sentinel (decodeChunk : String → Except String ChatCompletionChunk)
    (before after : List SSEMessage) (done : SSEMessage) (state : AnthropicStreamState)
    (hdone : done.Data = "[DONE]")
    (hreach : ∀ frame ∈ before, passesFrame decodeChunk frame) :
    forwardMessagesStreamLoop decodeChunk (before ++ done :: after) state =
      ((translateChunks (decodedChunks decodeChunk before) state).1.map StreamOutput.event,
       (translateChunks (decodedChunks decodeChunk before) state).2) ∧
    (∀ out ∈ (forwardMessagesStreamLoop decodeChunk (before ++ done :: after) state).1,
      out ≠ TranslateStreamError ∧ out.Type ≠ "error") ∧
    forwardMessagesStreamLoop decodeChunk (before ++ done :: after) state =
      forwardMessagesStreamLoop decodeChunk before state ∧
    (∀ decodeOther : String → Except String ChatCompletionChunk,
      (∀ data, data ≠ "[DONE]" → decodeOther data = decodeChunk data) →
      forwardMessagesStreamLoop decodeOther (before ++ done :: after) state =
        forwardMessagesStreamLoop decodeChunk (before ++ done :: after) state) := by
  have hmain : forwardMessagesStreamLoop decodeChunk (before ++ done :: after) state =
      ((translateChunks (decodedChunks decodeChunk before) state).1.map StreamOutput.event,
       (translateChunks (decodedChunks decodeChunk before) state).2) := by
    rw [forwardMessagesStreamLoop_passes decodeChunk before _ state hreach]
    simp [forwardMessagesStreamLoop, hdone]
  refine ⟨hmain, ?_, forwardMessagesStreamLoop_done decodeChunk before done after state hdone,
    fun decodeOther hsame => forwardMessagesStreamLoop_congr decodeChunk decodeOther hsame _ state⟩
  intro out hout
  rw [hmain] at hout
  simp only [List.mem_map] at hout
  obtain ⟨e, _, he⟩ := hout
  subst he
  refine ⟨by simp [TranslateStreamError], ?_⟩
  cases e <;> simp [StreamOutput.Type, SSEEvent.Type]

theorem C26_done_sentinel_witness :
    forwardMessagesStream sampleDecodeChunk
        [{ Event := "", Data := "hi" }, { Event := "", Data := "[DONE]" },
         { Event := "", Data := "stop" }, { Event := "", Data := "garbage" }] =
      (translateChunks [hiChunk] NewStreamState).1.map StreamOutput.event :=
  congrArg Prod.fst
    (C26_done_sentinel sampleDecodeChunk [{ Event := "", Data := "hi" }]
      [{ Event := "", Data := "stop" }, { Event := "", Data := "garbage" }]
      { Event := "", Data := "[DONE]" } NewStreamState rfl
      (by
        intro frame hf
        simp only [List.mem_singleton] at hf
        subst hf
        exact ⟨by decide, Or.inr ⟨hiChunk, rfl⟩⟩)).1

/-- C27.  In the host loop `forwardMessagesStream`, folded over the frame
sequence: when the loop reaches a frame whose payload is not empty, is not
the sentinel and fails to decode as a chunk, it writes for that frame exactly
one event, the error event of `TranslateStreamError` (event name "error",
error type "api_error"), after the translated events of the frames before
it, writes no translated event for that frame and nothing for any later
frame, and the stream state is the one the frames before it left. -/
theorem C27_decode_failure (decodeChunk : String → Except String ChatCompletionChunk)
    (before after : List SSEMessage) (bad : SSEMessage) (state : AnthropicStreamState)
    (err : String)
    (hnonempty : bad.Data ≠ "")
    (hsentinel : bad.Data ≠ "[DONE]")
    (hdecode : decodeChunk bad.Data = .error err)
    (hreach : ∀ frame ∈ before, passesFrame decodeChunk frame) :
    forwardMessagesStreamLoop decodeChunk (before ++ bad :: after) state =
      ((translateChunks (decodedChunks decodeChunk before) state).1.map StreamOutput.event ++
          [TranslateStreamError],
       (translateChunks (decodedChunks decodeChunk before) state).2) ∧
    TranslateStreamError.Type = "error" ∧
    TranslateStreamError =
      StreamOutput.error
        { Kind := "error"
          Error := { Kind := "api_error"
                     Message := "An unexpected error occurred during streaming." } } ∧
    (∀ payload : SSEEvent, StreamOutput.event payload ≠ TranslateStreamError) := by
  refine ⟨?_, rfl, rfl, fun payload h => by simp [TranslateStreamError] at h⟩
  rw [forwardMessagesStreamLoop_passes decodeChunk before _ state hreach]
  simp [forwardMessagesStreamLoop, hnonempty, hsentinel, hdecode]

theorem C27_decode_failure_witness :
    forwardMessagesStream sampleDecodeChunk
        [{ Event := "", Data := "hi" }, { Event := "", Data := "garbage" },
         { Event := "", Data := "stop" }] =
      (translateChunks [hiChunk] NewStreamState).1.map StreamOutput.event ++
        [TranslateStreamError] :=
  congrArg Prod.fst
    (C27_decode_failure sampleDecodeChunk [{ Event := "", Data := "hi" }]
      [{ Event := "", Data := "stop" }] { Event := "", Data := "garbage" } NewStreamState
      "invalid character" (by decide) (by decide) rfl
      (by
        intro frame hf
        simp only [List.mem_singleton] at hf
        subst hf
        exact ⟨by decide, Or.inr ⟨hiChunk, rfl⟩⟩)).1

/-! ## Tool-call arguments on the response side, and request fields -/

/-- C21, counterexample.  The arguments "null" are not empty and are not a
JSON object, but `json.Unmarshal` reports no error for them and leaves the nil
map: the block has no input, not the object with the key "raw_arguments". -/
theorem C21_counterexample :
    getAnthropicToolUseBlocks sampleUnmarshal [sampleToolCall "call_1" "f" "null"] =
      [{ Kind := "tool_use", Text := none, ID := some "call_1", Name := some "f"
         Input := none, Thinking := none, Signature := none }] ∧
    sampleUnmarshal "null" = .ok none ∧
    ("null" : String) ≠ "" :=
  ⟨rfl, rfl, by decide⟩

/-- C21, amended.  For every list of upstream tool calls
`getAnthropicToolUseBlocks` (a total function) returns one `tool_use` block
per call, in order, with the call's id and function name, and never drops
arguments that fail to decode: when the arguments string is empty the block's
input is the empty object; when it is not empty and `json.Unmarshal` of it
into an object reports no error the input is the map it leaves (that object
for a JSON object); when it is not empty and `json.Unmarshal` reports an
error the input is the object with the single key "raw_arguments" whose value
is the arguments string verbatim. -/
theorem C21_tool_use_input
    (unmarshalObject : String → Except String (Option (List (String × GoValue))))
    (toolCalls : List ToolCall) :
    getAnthropicToolUseBlocks unmarshalObject toolCalls =
      toolCalls.map (fun call =>
        { Kind := "tool_use", Text := none, ID := some call.ID
          Name := some call.Function.Name
          Input := toolUseInput unmarshalObject call
          Thinking := none, Signature := none }) ∧
    (getAnthropicToolUseBlocks unmarshalObject toolCalls).length = toolCalls.length ∧
    (∀ call ∈ toolCalls, call.Function.Arguments = "" →
      toolUseInput unmarshalObject call = some []) ∧
    (∀ call ∈ toolCalls, ∀ input, call.Function.Arguments ≠ "" →
      unmarshalObject call.Function.Arguments = .ok input →
      toolUseInput unmarshalObject call = input) ∧
    (∀ call ∈ toolCalls, ∀ err, call.Function.Arguments ≠ "" →
      unmarshalObject call.Function.Arguments = .error err →
      toolUseInput unmarshalObject call =
        some [("raw_arguments", GoValue.string call.Function.Arguments)]) := by
  have heq := getAnthropicToolUseBlocks_eq unmarshalObject toolCalls
  refine ⟨heq, ?_, ?_, ?_, ?_⟩
  · rw [heq, List.length_map]
  · intro call _ hempty
    simp [toolUseInput, hempty]
  · intro call _ input hne hok
    simp [toolUseInput, hne, hok]
  · intro call _ err hne herr
    simp [toolUseInput, hne, herr]

/-- C28, counterexample.  For max_tokens -1, which is not 0, the translated
request omits max_tokens instead of carrying -1. -/
theorem C28_counterexample :
    ∃ out, TranslateToOpenAI rejectAll sampleMarshal
        { samplePayload "gpt-4o" none [] with MaxTokens := -1 } = .ok out ∧
      out.MaxTokens = none ∧ ((-1 : Int) ≠ 0) :=
  ⟨_, rfl, rfl, by decide⟩

/-- C28, amended.  For every request that `TranslateToOpenAI` translates, the
max_tokens of the returned request is omitted when the Anthropic max_tokens
is 0 or negative, and otherwise carries the Anthropic max_tokens value
unchanged. -/
theorem C28_max_tokens (json : JSONReparse)
    (marshalObject : List (String × GoValue) → String)
    (payload : AnthropicMessagesPayload) (out : ChatCompletionsPayload)
    (h : TranslateToOpenAI json marshalObject payload = .ok out) :
    (payload.MaxTokens ≤ 0 → out.MaxTokens = none) ∧
    (0 < payload.MaxTokens → out.MaxTokens = some payload.MaxTokens) := by
  unfold TranslateToOpenAI at h
  cases ht : translateAnthropicMessages json marshalObject payload.Messages with
  | error err => simp [ht] at h
  | ok otherMessages =>
    simp only [ht, Except.ok.injEq] at h
    subst h
    constructor
    · intro hle
      have : ¬ payload.MaxTokens > 0 := by omega
      simp [this]
    · intro hpos
      have : payload.MaxTokens > 0 := hpos
      simp [this]

theorem C28_max_tokens_witness :
    ∃ out0 out1,
      TranslateToOpenAI rejectAll sampleMarshal (samplePayload "gpt-4o" none []) = .ok out0 ∧
      out0.MaxTokens = none ∧
      TranslateToOpenAI rejectAll sampleMarshal
        { samplePayload "gpt-4o" none [] with MaxTokens := 1024 } = .ok out1 ∧
      out1.MaxTokens = some 1024 :=
  ⟨_, _, rfl,
    (C28_max_tokens rejectAll sampleMarshal (samplePayload "gpt-4o" none []) _ rfl).1
      (by decide),
    rfl,
    (C28_max_tokens rejectAll sampleMarshal
      { samplePayload "gpt-4o" none [] with MaxTokens := 1024 } _ rfl).2 (by decide)⟩

/-- C29.  `translateAnthropicToolChoice` maps type "auto" to the string
"auto", "any" to the string "required", "none" to the string "none", and
"tool" with a name to the object form with type "function" and that function
name; for an absent tool choice, for "tool" without a name, and for every
other type it yields no tool choice.  The result never has both the string
form and the object form set. -/
theorem C29_tool_choice (choice : Option AnthropicToolChoice) :
    (∀ c, choice = some c → c.Kind = "auto" →
      translateAnthropicToolChoice choice =
        some { StringValue := some "auto", ObjectValue := none }) ∧
    (∀ c, choice = some c → c.Kind = "any" →
      translateAnthropicToolChoice choice =
        some { StringValue := some "required", ObjectValue := none }) ∧
    (∀ c, choice = some c → c.Kind = "none" →
      translateAnthropicToolChoice choice =
        some { StringValue := some "none", ObjectValue := none }) ∧
    (∀ c name, choice = some c → c.Kind = "tool" → c.Name = some name →
      translateAnthropicToolChoice choice =
        some { StringValue := none
               ObjectValue := some { Kind := "function", Function := { Name := name } } }) ∧
    (choice = none → translateAnthropicToolChoice choice = none) ∧
    (∀ c, choice = some c → c.Kind = "tool" → c.Name = none →
      translateAnthropicToolChoice choice = none) ∧
    (∀ c, choice = some c → c.Kind ≠ "auto" → c.Kind ≠ "any" → c.Kind ≠ "tool" →
      c.Kind ≠ "none" → translateAnthropicToolChoice choice = none) ∧
    (∀ result, translateAnthropicToolChoice choice = some result →
      result.StringValue = none ∨ result.ObjectValue = none) := by
  refine ⟨?_, ?_, ?_, ?_, ?_, ?_, ?_, ?_⟩
  · intro c hc hk; subst hc; simp [translateAnthropicToolChoice, hk]
  · intro c hc hk; subst hc; simp [translateAnthropicToolChoice, hk]
  · intro c hc hk; subst hc; simp [translateAnthropicToolChoice, hk]
  · intro c name hc hk hn; subst hc; simp [translateAnthropicToolChoice, hk, hn]
  · intro hc; subst hc; rfl
  · intro c hc hk hn; subst hc; simp [translateAnthropicToolChoice, hk, hn]
  · intro c hc h1 h2 h3 h4; subst hc; simp [translateAnthropicToolChoice, h1, h2, h3, h4]
  · intro result hr
    cases choice with
    | none => simp [translateAnthropicToolChoice] at hr
    | some c =>
      unfold translateAnthropicToolChoice at hr
      simp only at hr
      split at hr
      · simp only [Option.some.injEq] at hr; subst hr; exact Or.inr rfl
      · split at hr
        · simp only [Option.some.injEq] at hr; subst hr; exact Or.inr rfl
        · split at hr
          · cases hn : c.Name with
            | none => simp [hn] at hr
            | some name =>
              simp only [hn, Option.some.injEq] at hr; subst hr; exact Or.inl rfl
          · split at hr
            · simp only [Option.some.injEq] at hr; subst hr; exact Or.inr rfl
            · cases hr

/-! ## The content invariant of upstream messages -/

theorem mapContentBlocks_content (blocks : List AnthropicContentBlock) :
    (mapContentBlocks blocks).StringValue = none ∨ (mapContentBlocks blocks).Parts = [] := by
  unfold mapContentBlocks
  simp only
  split
  · split
    · exact Or.inl rfl
    · exact Or.inr rfl
  · exact Or.inl rfl

theorem mapGenericContent_content (json : JSONReparse) (value : GoValue)
    (content : MessageContent) (h : mapGenericContent json value = .ok content) :
    content.StringValue = none ∨ content.Parts = [] := by
  have key : ∀ v, (match ensureBlocksSlice json v with
      | .error err => (.error err : Except String MessageContent)
      | .ok blocks => .ok (mapContentBlocks blocks)) = .ok content →
      content.StringValue = none ∨ content.Parts = [] := by
    intro v hv
    cases he : ensureBlocksSlice json v with
    | error err => simp [he] at hv
    | ok blocks =>
      simp only [he, Except.ok.injEq] at hv
      subst hv
      exact mapContentBlocks_content blocks
  cases value with
  | nil =>
    simp only [mapGenericContent, Except.ok.injEq] at h
    subst h; exact Or.inl rfl
  | string s =>
    simp only [mapGenericContent, Except.ok.injEq] at h
    subst h; exact Or.inr rfl
  | blocks items =>
    simp only [mapGenericContent, Except.ok.injEq] at h
    subst h; exact mapContentBlocks_content items
  | slice items =>
    simp only [mapGenericContent] at h
    exact key _ h
  | bool b =>
    simp only [mapGenericContent] at h
    exact key _ h
  | number n =>
    simp only [mapGenericContent] at h
    exact key _ h
  | object fields =>
    simp only [mapGenericContent] at h
    exact key _ h

theorem flushPending_content (pending : List AnthropicContentBlock) :
    ∀ m ∈ flushPending pending, m.Content.StringValue = none ∨ m.Content.Parts = [] := by
  intro m hm
  cases pending with
  | nil => simp [flushPending] at hm
  | cons p ps =>
    simp only [flushPending, List.mem_singleton] at hm
    rw [hm]
    exact mapContentBlocks_content _

theorem splitToolResults_content (json : JSONReparse) (blocks : List AnthropicContentBlock) :
    ∀ (pending : List AnthropicContentBlock) (msgs : List Message),
      splitToolResults json pending blocks = .ok msgs →
      ∀ m ∈ msgs, m.Content.StringValue = none ∨ m.Content.Parts = [] := by
  induction blocks with
  | nil =>
    intro pending msgs hs m hm
    simp only [splitToolResults, Except.ok.injEq] at hs
    subst hs
    exact flushPending_content pending m hm
  | cons b rest ih =>
    intro pending msgs hs m hm
    unfold splitToolResults at hs
    cases hr : b.AsToolResult with
    | none =>
      simp only [hr] at hs
      exact ih _ msgs hs m hm
    | some toolResult =>
      simp only [hr] at hs
      cases hg : mapGenericContent json toolResult.Content with
      | error err => simp [hg] at hs
      | ok content =>
        simp only [hg] at hs
        cases ht : splitToolResults json [] rest with
        | error err => simp [ht] at hs
        | ok tail =>
          simp only [ht, Except.ok.injEq] at hs
          subst hs
          rcases List.mem_append.mp hm with h | h
          · exact flushPending_content pending m h
          · rcases List.mem_cons.mp h with h | h
            · rw [h]
              exact mapGenericContent_content json _ content hg
            · exact ih [] tail ht m h

theorem handleUserMessage_content (json : JSONReparse) (message : AnthropicMessage)
    (msgs : List Message) (h : handleUserMessage json message = .ok msgs) :
    ∀ m ∈ msgs, m.Content.StringValue = none ∨ m.Content.Parts = [] := by
  intro m hm
  cases hs : message.Content.String with
  | some text =>
    unfold handleUserMessage at h
    simp only [hs, Except.ok.injEq] at h
    subst h
    simp only [List.mem_singleton] at hm
    right; rw [hm]; rfl
  | none =>
    rw [handleUserMessage_split json message hs] at h
    cases hp : splitToolResults json [] message.Content.Blocks with
    | error err => simp [hp, Except.map] at h
    | ok parts =>
      simp only [hp, Except.map, Except.ok.injEq] at h
      subst h
      split at hm
      · rcases List.mem_append.mp hm with h1 | h1
        · exact splitToolResults_content json _ [] parts hp m h1
        · simp only [List.mem_singleton] at h1
          left; rw [h1]; rfl
      · exact splitToolResults_content json _ [] parts hp m hm

theorem handleAssistantMessage_content (marshalObject : List (String × GoValue) → String)
    (message : AnthropicMessage) :
    ∀ m ∈ handleAssistantMessage marshalObject message,
      m.Content.StringValue = none ∨ m.Content.Parts = [] := by
  intro m hm
  unfold handleAssistantMessage at hm
  cases hs : message.Content.String with
  | some text =>
    simp only [hs, List.mem_singleton] at hm
    right; rw [hm]
  | none =>
    simp only [hs] at hm
    split at hm
    · simp only [List.mem_singleton] at hm
      right; rw [hm]
      simp only
      split <;> rfl
    · split at hm
      · simp only [List.mem_singleton] at hm
        rw [hm]
        exact mapContentBlocks_content _
      · simp only [List.mem_singleton] at hm
        right; rw [hm]

theorem translateSystemPrompt_content (system : Option AnthropicSystemPrompt) :
    ∀ m ∈ translateSystemPrompt system, m.Content.Parts = [] := by
  intro m hm
  unfold translateSystemPrompt at hm
  cases system with
  | none => simp at hm
  | some prompt =>
    simp only at hm
    cases hs : prompt.String with
    | some text =>
      simp only [hs, List.mem_singleton] at hm
      rw [hm]
    | none =>
      simp only [hs] at hm
      split at hm
      · simp only [List.mem_singleton] at hm
        rw [hm]
      · cases hm

theorem translateAnthropicMessages_content (json : JSONReparse)
    (marshalObject : List (String × GoValue) → String)
    (messages : List AnthropicMessage) (out : List Message)
    (h : translateAnthropicMessages json marshalObject messages = .ok out) :
    ∀ m ∈ out, m.Content.StringValue = none ∨ m.Content.Parts = [] := by
  unfold translateAnthropicMessages at h
  obtain ⟨conversions, hall, hout⟩ :=
    (translateAnthropicMessagesLoop_spec json marshalObject messages [] out).mp h
  subst hout
  intro m hm
  simp only [List.nil_append, List.mem_flatten] at hm
  obtain ⟨conversion, hmem, hm⟩ := hm
  have key : ∀ (ms : List AnthropicMessage) (cs : List (List Message)),
      List.Forall₂ (fun message conversion =>
        convertMessage json marshalObject message = .ok conversion) ms cs →
      ∀ c ∈ cs, ∀ m ∈ c, m.Content.StringValue = none ∨ m.Content.Parts = [] := by
    intro ms cs hf
    induction hf with
    | nil => intro c hc; cases hc
    | cons hhead _ ih =>
      intro c hc m hm
      rcases List.mem_cons.mp hc with hc | hc
      · subst hc
        unfold convertMessage at hhead
        split at hhead
        · exact handleUserMessage_content json _ _ hhead m hm
        · simp only [Except.ok.injEq] at hhead
          subst hhead
          exact handleAssistantMessage_content marshalObject _ m hm
      · exact ih c hc m hm
  exact key _ _ hall conversion hmem m hm

/-- C30, counterexample.  A user message with an empty block list is
translated to one upstream message whose content has neither a string nor
parts, so not exactly one of the two is populated. -/
theorem C30_counterexample :
    ∃ out, TranslateToOpenAI rejectAll sampleMarshal
        (samplePayload "gpt-4o" none [blocksMessage "user" []]) = .ok out ∧
      out.Messages = [userMessage { StringValue := none, Parts := [] }] ∧
      ∃ m ∈ out.Messages, m.Content.StringValue = none ∧ m.Content.Parts = [] :=
  ⟨_, rfl, rfl, _, List.mem_singleton.mpr rfl, rfl, rfl⟩

/-- C30, amended.  Every upstream message in the result of
`TranslateToOpenAI` has at most one of its string content and its part list
populated, never both: its string content is absent or its part list is
empty. -/
theorem C30_content_never_both (json : JSONReparse)
    (marshalObject : List (String × GoValue) → String)
    (payload : AnthropicMessagesPayload) (out : ChatCompletionsPayload)
    (h : TranslateToOpenAI json marshalObject payload = .ok out) :
    ∀ m ∈ out.Messages, m.Content.StringValue = none ∨ m.Content.Parts = [] := by
  obtain ⟨other, hother, hmsgs, _⟩ := translateToOpenAI_ok json marshalObject payload out h
  intro m hm
  rw [hmsgs] at hm
  rcases List.mem_append.mp hm with hm | hm
  · exact Or.inr (translateSystemPrompt_content payload.System m hm)
  · exact translateAnthropicMessages_content json marshalObject _ other hother m hm

theorem C30_content_never_both_witness :
    ∃ out, TranslateToOpenAI rejectAll sampleMarshal
        (samplePayload "gpt-4o" (some { String := some "be brief", Blocks := [] })
          [blocksMessage "user" [textBlock "look", imageBlock "image/png" "AAAA"],
           stringMessage "assistant" "hello"]) = .ok out ∧
      ∀ m ∈ out.Messages, m.Content.StringValue = none ∨ m.Content.Parts = [] :=
  ⟨_, rfl,
    C30_content_never_both rejectAll sampleMarshal
      (samplePayload "gpt-4o" (some { String := some "be brief", Blocks := [] })
        [blocksMessage "user" [textBlock "look", imageBlock "image/png" "AAAA"],
         stringMessage "assistant" "hello"]) _ rfl⟩

/-! ## Text, frames and first-choice dependence of the streaming translator -/

theorem textDeltaTexts_append (a b : List SSEEvent) :
    textDeltaTexts (a ++ b) = textDeltaTexts a ++ textDeltaTexts b := by
  simp [textDeltaTexts, List.filterMap_append]

theorem messageStartStep_texts (chunk : ChatCompletionChunk) (state : AnthropicStreamState) :
    textDeltaTexts (messageStartStep chunk state).1 = [] := by
  unfold messageStartStep
  split <;> simp [textDeltaTexts]

theorem textDeltaStep_texts (content : Option String) (state : AnthropicStreamState) :
    textDeltaTexts (textDeltaStep content state).1 = content.toList := by
  cases content with
  | none => simp [textDeltaStep, textDeltaTexts]
  | some text =>
    simp only [textDeltaStep, Option.toList_some, textDeltaTexts_append]
    have h1 : ∀ (c : Bool) (i : Int) (s t : AnthropicStreamState),
        textDeltaTexts (if c then ([SSEEvent.content_block_stop i], s) else ([], t)).1 = [] := by
      intro c i s t; cases c <;> simp [textDeltaTexts]
    have h2 : ∀ (c : Bool) (i : Int) (s t : AnthropicStreamState),
        textDeltaTexts (if c then
          ([SSEEvent.content_block_start i (ContentBlockPayload.text "")], s)
          else ([], t)).1 = [] := by
      intro c i s t; cases c <;> simp [textDeltaTexts]
    rw [h1, h2]
    simp [textDeltaTexts]

theorem toolCallStep_texts (toolCall : ToolCall) (state : AnthropicStreamState) :
    textDeltaTexts (toolCallStep toolCall state).1 = [] := by
  simp only [toolCallStep, textDeltaTexts_append]
  have h1 : textDeltaTexts (toolCallRegisterStep toolCall state).1 = [] := by
    unfold toolCallRegisterStep
    split
    · simp only [textDeltaTexts_append]
      split <;> simp [textDeltaTexts]
    · simp [textDeltaTexts]
  have h2 : ∀ s, textDeltaTexts (toolCallArgumentsStep toolCall s).1 = [] := by
    intro s
    unfold toolCallArgumentsStep
    split
    · split <;> simp [textDeltaTexts]
    · simp [textDeltaTexts]
  rw [h1, h2]; rfl

theorem toolCallsStep_texts (toolCalls : List ToolCall) :
    ∀ state : AnthropicStreamState,
      textDeltaTexts (toolCallsStep toolCalls state).1 = [] := by
  induction toolCalls with
  | nil => intro state; simp [toolCallsStep, textDeltaTexts]
  | cons t rest ih =>
    intro state
    simp only [toolCallsStep, textDeltaTexts_append, toolCallStep_texts, ih, List.append_nil]

theorem finishStep_texts (chunk : ChatCompletionChunk) (finishReason : Option String)
    (state : AnthropicStreamState) :
    textDeltaTexts (finishStep chunk finishReason state).1 = [] := by
  unfold finishStep
  split
  · simp [textDeltaTexts]
  · split
    · simp only [textDeltaTexts_append]
      split <;> simp [textDeltaTexts]
    · simp [textDeltaTexts]

theorem translateChunk_texts (chunk : ChatCompletionChunk) (state : AnthropicStreamState) :
    textDeltaTexts (TranslateChunkToAnthropicEvents chunk state).1 =
      (chunkContent chunk).toList := by
  unfold TranslateChunkToAnthropicEvents chunkContent
  cases hc : chunk.Choices with
  | nil => simp [textDeltaTexts]
  | cons choice rest =>
    simp only [translateDeltas, textDeltaTexts_append, messageStartStep_texts,
      textDeltaStep_texts, toolCallsStep_texts, finishStep_texts, List.nil_append,
      List.append_nil]

theorem translateChunks_texts (chunks : List ChatCompletionChunk) :
    ∀ state : AnthropicStreamState,
      textDeltaTexts (translateChunks chunks state).1 = chunks.filterMap chunkContent := by
  induction chunks with
  | nil => intro state; simp [translateChunks, textDeltaTexts]
  | cons chunk rest ih =>
    intro state
    simp only [translateChunks, textDeltaTexts_append, translateChunk_texts, ih]
    cases h : chunkContent chunk <;> simp [List.filterMap_cons, h]

theorem textDelta_count (events : List SSEEvent) :
    (events.filter SSEEvent.isTextDelta).length = (textDeltaTexts events).length := by
  induction events with
  | nil => rfl
  | cons e es ih =>
    cases e with
    | content_block_delta i d =>
      cases d <;>
        simp [textDeltaTexts, SSEEvent.isTextDelta, List.filter_cons,
          List.filterMap_cons] at ih ⊢ <;> exact ih
    | _ =>
      simp [textDeltaTexts, SSEEvent.isTextDelta, List.filter_cons,
        List.filterMap_cons] at ih ⊢
      exact ih

/-- C33.  Text is carried verbatim: for every state and every chunk whose
first choice has content (possibly the empty string),
`TranslateChunkToAnthropicEvents` emits exactly one `text_delta` event and its
text is that content; and for every chunk sequence the texts of the
`text_delta` events, in emission order, are the content fragments of the
chunks, in arrival order, so their concatenations are equal. -/
theorem C33_text_verbatim :
    (∀ (state : AnthropicStreamState) (chunk : ChatCompletionChunk) (choice : Choice)
        (rest : List Choice) (text : String),
      chunk.Choices = choice :: rest → choice.Delta.Content = some text →
      textDeltaTexts (TranslateChunkToAnthropicEvents chunk state).1 = [text] ∧
      ((TranslateChunkToAnthropicEvents chunk state).1.filter
        SSEEvent.isTextDelta).length = 1) ∧
    (∀ (chunks : List ChatCompletionChunk) (state : AnthropicStreamState),
      textDeltaTexts (translateChunks chunks state).1 = chunks.filterMap chunkContent ∧
      String.join (textDeltaTexts (translateChunks chunks state).1) =
        String.join (chunks.filterMap chunkContent)) := by
  constructor
  · intro state chunk choice rest text hchoices hcontent
    have h : textDeltaTexts (TranslateChunkToAnthropicEvents chunk state).1 = [text] := by
      rw [translateChunk_texts]
      simp [chunkContent, hchoices, hcontent]
    exact ⟨h, by rw [textDelta_count, h]; rfl⟩
  · intro chunks state
    have h := translateChunks_texts chunks state
    exact ⟨h, by rw [h]⟩

theorem C33_text_verbatim_witness :
    textDeltaTexts (TranslateChunkToAnthropicEvents hiChunk NewStreamState).1 = ["Hi"] ∧
    String.join (textDeltaTexts
      (translateChunks [hiChunk, lateTextChunk, stopChunk] NewStreamState).1) = "Hix" :=
  ⟨(C33_text_verbatim.1 NewStreamState hiChunk _ _ "Hi" rfl rfl).1,
   (C33_text_verbatim.2 [hiChunk, lateTextChunk, stopChunk] NewStreamState).2.trans
     (by decide)⟩

/-- C36.  For every stream state and every chunk with zero choices,
`TranslateChunkToAnthropicEvents` returns an empty event list (the model has
no error result) and leaves the state unchanged, every field of it, whatever
usage the chunk carries. -/
theorem C36_no_choices (chunk : ChatCompletionChunk) (state : AnthropicStreamState)
    (hchoices : chunk.Choices = []) :
    TranslateChunkToAnthropicEvents chunk state = ([], state) ∧
    (TranslateChunkToAnthropicEvents chunk state).2.MessageStartSent =
      state.MessageStartSent ∧
    (TranslateChunkToAnthropicEvents chunk state).2.ContentBlockIndex =
      state.ContentBlockIndex ∧
    (TranslateChunkToAnthropicEvents chunk state).2.ContentBlockOpen =
      state.ContentBlockOpen ∧
    (TranslateChunkToAnthropicEvents chunk state).2.ToolCalls = state.ToolCalls := by
  have h : TranslateChunkToAnthropicEvents chunk state = ([], state) := by
    unfold TranslateChunkToAnthropicEvents
    rw [hchoices]
  rw [h]
  exact ⟨rfl, rfl, rfl, rfl, rfl⟩

theorem C36_no_choices_witness :
    TranslateChunkToAnthropicEvents { usageChunk with Choices := [] } textOpenState =
      ([], textOpenState) :=
  (C36_no_choices { usageChunk with Choices := [] } textOpenState rfl).1

/-- C39.  For every state and every tool-call fragment that carries argument
text but not both an id and a name, and whose upstream index is not
registered in the state's tool-call map, the translator emits no event for
the fragment and leaves the state unchanged (so `ContentBlockIndex`,
`ContentBlockOpen` and the tool-call map): the argument text is dropped, and
the loop over the tool calls, and so the call for the chunk, gives the same
events and state with or without the fragment. -/
theorem C39_unregistered_fragment (fragment : ToolCall) (state : AnthropicStreamState)
    (harguments : fragment.Function.Arguments ≠ "")
    (hpair : ¬ (fragment.ID ≠ "" ∧ fragment.Function.Name ≠ ""))
    (hindex : mapLookup state.ToolCalls fragment.Index = none) :
    toolCallStep fragment state = ([], state) ∧
    (∀ later : List ToolCall,
      toolCallsStep (fragment :: later) state = toolCallsStep later state) ∧
    (∀ earlier later : List ToolCall, ∀ start : AnthropicStreamState,
      (toolCallsStep earlier start).2 = state →
      toolCallsStep (earlier ++ fragment :: later) start =
        toolCallsStep (earlier ++ later) start) ∧
    (∀ (chunk : ChatCompletionChunk) (choice : Choice) (others : List Choice)
        (earlier later : List ToolCall) (start : AnthropicStreamState),
      chunk.Choices = choice :: others →
      choice.Delta.ToolCalls = earlier ++ fragment :: later →
      (toolCallsStep earlier
        (textDeltaStep choice.Delta.Content (messageStartStep chunk start).2).2).2 = state →
      TranslateChunkToAnthropicEvents chunk start =
        TranslateChunkToAnthropicEvents
          { chunk with
            Choices := { choice with
              Delta := { choice.Delta with ToolCalls := earlier ++ later } } :: others }
          start) := by
  have h1 : toolCallStep fragment state = ([], state) := by
    simp only [toolCallStep, toolCallRegisterStep, if_neg hpair, toolCallArgumentsStep,
      hindex, List.nil_append]
    split <;> rfl
  have h2 : ∀ later : List ToolCall,
      toolCallsStep (fragment :: later) state = toolCallsStep later state := by
    intro later
    simp only [toolCallsStep, h1, List.nil_append]
  have h3 : ∀ earlier later : List ToolCall, ∀ start : AnthropicStreamState,
      (toolCallsStep earlier start).2 = state →
      toolCallsStep (earlier ++ fragment :: later) start =
        toolCallsStep (earlier ++ later) start := by
    intro earlier
    induction earlier with
    | nil =>
      intro later start hstart
      simp only [toolCallsStep] at hstart
      subst hstart
      exact h2 later
    | cons t rest ih =>
      intro later start hstart
      simp only [toolCallsStep] at hstart
      have hi := ih later _ hstart
      show (let r1 := toolCallStep t start
            let r2 := toolCallsStep (rest ++ fragment :: later) r1.2
            (r1.1 ++ r2.1, r2.2)) =
           (let r1 := toolCallStep t start
            let r2 := toolCallsStep (rest ++ later) r1.2
            (r1.1 ++ r2.1, r2.2))
      simp only [hi]
  refine ⟨h1, h2, h3, ?_⟩
  intro chunk choice others earlier later start hchoices hcalls hstate
  have hstep := h3 earlier later _ hstate
  unfold TranslateChunkToAnthropicEvents
  simp only [hchoices, translateDeltas, hcalls, hstep]
  rfl

theorem C39_unregistered_fragment_witness :
    toolCallStep (argsFragment 7 "\x7b\x22a\x22:1\x7d") textOpenState = ([], textOpenState) :=
  (C39_unregistered_fragment (argsFragment 7 "\x7b\x22a\x22:1\x7d") textOpenState
    (by decide) (by decide) (by decide)).1

/-- C40.  `TranslateChunkToAnthropicEvents` depends only on the chunk's first
choice: for every state and every two chunks with the same id, model, usage
and first choice (or both without a choice), the returned events and the
resulting state are equal, whatever the remaining choices contain. -/
theorem C40_first_choice_only (chunk other : ChatCompletionChunk)
    (state : AnthropicStreamState)
    (hid : chunk.ID = other.ID) (hmodel : chunk.Model = other.Model)
    (husage : chunk.Usage = other.Usage)
    (hfirst : chunk.Choices.head? = other.Choices.head?) :
    TranslateChunkToAnthropicEvents chunk state =
      TranslateChunkToAnthropicEvents other state := by
  obtain ⟨id1, model1, choices1, usage1⟩ := chunk
  obtain ⟨id2, model2, choices2, usage2⟩ := other
  simp only at hid hmodel husage hfirst
  subst hid; subst hmodel; subst husage
  cases choices1 with
  | nil =>
    cases choices2 with
    | nil => rfl
    | cons c2 r2 => simp at hfirst
  | cons c1 r1 =>
    cases choices2 with
    | nil => simp at hfirst
    | cons c2 r2 =>
      simp only [List.head?_cons, Option.some.injEq] at hfirst
      subst hfirst
      rfl

theorem C40_first_choice_only_witness :
    TranslateChunkToAnthropicEvents
        { hiChunk with Choices := hiChunk.Choices ++ stopChunk.Choices } NewStreamState =
      TranslateChunkToAnthropicEvents hiChunk NewStreamState :=
  C40_first_choice_only { hiChunk with Choices := hiChunk.Choices ++ stopChunk.Choices }
    hiChunk NewStreamState rfl rfl rfl rfl

/-! ## Request fields, model aliasing and tool definitions -/

theorem messageDeltas_append (a b : List SSEEvent) :
    messageDeltas (a ++ b) = messageDeltas a ++ messageDeltas b := by
  simp [messageDeltas, List.filterMap_append]

theorem translateDeltas_messageDeltas (chunk : ChatCompletionChunk) (choice : Choice)
    (state : AnthropicStreamState) :
    messageDeltas (translateDeltas chunk choice state).1 = [] := by
  have hk := translateDeltas_kinds chunk choice state
  unfold messageDeltas
  rw [List.filterMap_eq_nil_iff]
  intro e he
  have := hk e he
  cases e <;> simp_all [SSEEvent.isMessageDelta]

/-- C32.  For every request that `TranslateToOpenAI` translates, the stop
field of the returned request is omitted when stop_sequences is empty, is the
single string itself when stop_sequences has exactly one element, and is the
whole list unchanged when it has two or more; stream, temperature and top_p
are passed through unchanged, and user is metadata.user_id, absent when
metadata or its user_id is absent. -/
theorem C32_request_fields (json : JSONReparse)
    (marshalObject : List (String × GoValue) → String)
    (payload : AnthropicMessagesPayload) (out : ChatCompletionsPayload)
    (h : TranslateToOpenAI json marshalObject payload = .ok out) :
    (payload.StopSequences = [] → out.Stop = StopValue.absent) ∧
    (∀ sequence, payload.StopSequences = [sequence] →
      out.Stop = StopValue.single sequence) ∧
    (2 ≤ payload.StopSequences.length → out.Stop = StopValue.list payload.StopSequences) ∧
    out.Stream = payload.Stream ∧
    out.Temperature = payload.Temperature ∧
    out.TopP = payload.TopP ∧
    (payload.Metadata = none → out.User = none) ∧
    (∀ metadata, payload.Metadata = some metadata → out.User = metadata.UserID) := by
  unfold TranslateToOpenAI at h
  cases ht : translateAnthropicMessages json marshalObject payload.Messages with
  | error err => simp [ht] at h
  | ok otherMessages =>
    simp only [ht, Except.ok.injEq] at h
    subst h
    refine ⟨?_, ?_, ?_, rfl, rfl, rfl, ?_, ?_⟩
    · intro hs; simp only [hs]
    · intro sequence hs; simp only [hs]
    · intro hlen
      cases hs : payload.StopSequences with
      | nil => rw [hs] at hlen; simp at hlen
      | cons a rest =>
        cases rest with
        | nil => rw [hs] at hlen; simp at hlen
        | cons b more => rfl
    · intro hm; simp only [hm]
    · intro metadata hm; simp only [hm]

theorem C32_request_fields_witness :
    ∃ out, TranslateToOpenAI rejectAll sampleMarshal
        { samplePayload "gpt-4o" none [] with
          StopSequences := ["END", "STOP"], Stream := some true
          Metadata := some { UserID := some "u-1" } } = .ok out ∧
      out.Stop = StopValue.list ["END", "STOP"] ∧ out.Stream = some true ∧
      out.User = some "u-1" :=
  ⟨_, rfl,
    (C32_request_fields rejectAll sampleMarshal
      { samplePayload "gpt-4o" none [] with
        StopSequences := ["END", "STOP"], Stream := some true
        Metadata := some { UserID := some "u-1" } } _ rfl).2.2.1 (by decide),
    rfl, rfl⟩

/-- C34.  Model aliasing is idempotent: for every model id,
`translateModelName` applied twice gives what it gives applied once. -/
theorem C34_model_name_idempotent (model : String) :
    translateModelName (translateModelName model) = translateModelName model := by
  by_cases h1 : stringsHasPrefix model "claude-sonnet-4-" = true
  · have h : translateModelName model = "claude-sonnet-4" := by
      unfold translateModelName; rw [if_pos h1]
    rw [h]; decide
  · by_cases h2 : stringsHasPrefix model "claude-opus-" = true
    · have h : translateModelName model = "claude-opus-4" := by
        unfold translateModelName; rw [if_neg h1, if_pos h2]
      rw [h]; decide
    · have h : translateModelName model = model := by
        unfold translateModelName; rw [if_neg h1, if_neg h2]
      rw [h, h]

/-- C35.  For every list of Anthropic tool definitions,
`translateAnthropicTools` returns a list of the same length and order in
which the i-th entry has type "function" and the i-th tool's name,
description and input schema unchanged; an empty tool list yields the nil
slice, which leaves the tools field out of the request. -/
theorem C35_tools (tools : List AnthropicTool) :
    (translateAnthropicTools tools).length = tools.length ∧
    (∀ (i : Nat) (hi : i < tools.length)
        (hr : i < (translateAnthropicTools tools).length),
      ((translateAnthropicTools tools).get ⟨i, hr⟩).Kind = "function" ∧
      ((translateAnthropicTools tools).get ⟨i, hr⟩).Function.Name =
        (tools.get ⟨i, hi⟩).Name ∧
      ((translateAnthropicTools tools).get ⟨i, hr⟩).Function.Description =
        (tools.get ⟨i, hi⟩).Description ∧
      ((translateAnthropicTools tools).get ⟨i, hr⟩).Function.Parameters =
        (tools.get ⟨i, hi⟩).InputSchema) ∧
    (tools = [] → translateAnthropicTools tools = []) := by
  have heq : translateAnthropicTools tools =
      tools.map fun tool =>
        { Kind := "function"
          Function := { Name := tool.Name, Description := tool.Description,
                        Parameters := tool.InputSchema } } := by
    unfold translateAnthropicTools
    cases tools <;> simp
  refine ⟨by rw [heq, List.length_map], ?_, ?_⟩
  · intro i hi hr
    have hget : (translateAnthropicTools tools).get ⟨i, hr⟩ =
        { Kind := "function"
          Function := { Name := (tools.get ⟨i, hi⟩).Name
                        Description := (tools.get ⟨i, hi⟩).Description
                        Parameters := (tools.get ⟨i, hi⟩).InputSchema } } := by
      simp [heq]
    rw [hget]
    exact ⟨rfl, rfl, rfl, rfl⟩
  · intro hempty
    rw [hempty]; rfl

/-- C37.  Streaming and non-streaming translation agree on termination and
accounting: for every non-empty finish reason and every usage record, a chunk
whose first choice has that finish reason and that carries that usage makes
`TranslateChunkToAnthropicEvents` emit exactly one `message_delta` event, and
its stop reason and usage are the stop reason and usage that
`TranslateToAnthropic` returns for a single-choice response with the same
finish reason and the same prompt, completion and cached token counts. -/
theorem C37_stream_agrees
    (unmarshalObject : String → Except String (Option (List (String × GoValue))))
    (reason : String) (chunk : ChatCompletionChunk) (choice : Choice) (others : List Choice)
    (state : AnthropicStreamState) (response : ChatCompletionResponse)
    (single : ChoiceNonStreaming) (usage : UsageDetails) (counts : ChatUsage)
    (hreason : reason ≠ "")
    (hchoices : chunk.Choices = choice :: others)
    (hfinish : choice.FinishReason = some reason)
    (husage : chunk.Usage = some usage)
    (hsingle : response.Choices = [single])
    (hsame : single.FinishReason = reason)
    (hcounts : response.Usage = some counts)
    (hprompt : counts.PromptTokens = usage.PromptTokens)
    (hcompletion : counts.CompletionTokens = usage.CompletionTokens)
    (hcached : counts.PromptTokensDetails = usage.PromptTokensDetails) :
    messageDeltas (TranslateChunkToAnthropicEvents chunk state).1 =
      [((TranslateToAnthropic unmarshalObject response).StopReason,
        (TranslateToAnthropic unmarshalObject response).Usage)] := by
  have hstop : (TranslateToAnthropic unmarshalObject response).StopReason =
      mapOpenAIStopReasonToAnthropic (some reason) := by
    unfold TranslateToAnthropic
    simp only [hsingle, translateChoicesLoop, mapFinishReason, hsame, if_neg hreason]
    by_cases ht : reason = "tool_calls"
    · subst ht
      simp [mapOpenAIStopReasonToAnthropic]
    · simp only [if_neg ht]
      cases mapOpenAIStopReasonToAnthropic (some reason) <;> rfl
  have huse : (TranslateToAnthropic unmarshalObject response).Usage =
      messageDeltaUsage chunk := by
    unfold TranslateToAnthropic messageDeltaUsage usagePromptTokens usageCompletionTokens
      usageCachedPromptTokens chunkUsagePromptTokens chunkUsageCompletionTokens
      chunkUsageCachedPromptTokens
    simp only [hcounts, husage, hprompt, hcompletion, hcached]
  rw [hstop, huse]
  unfold TranslateChunkToAnthropicEvents
  simp only [hchoices, messageDeltas_append, translateDeltas_messageDeltas, List.nil_append,
    finishStep, hfinish, if_pos hreason]
  split <;> simp [messageDeltas]

theorem C37_stream_agrees_witness :
    messageDeltas (TranslateChunkToAnthropicEvents usageChunk textOpenState).1 =
      [(some "end_turn",
        { InputTokens := 80, OutputTokens := 30, CacheCreationInputTokens := none
          CacheReadInputTokens := some 20, ServiceTier := none })] :=
  (C37_stream_agrees rejectArguments "stop" usageChunk _ _ textOpenState
    (sampleResponse [sampleChoice "" [] "stop"]
      (some { PromptTokens := 100, CompletionTokens := 30, TotalTokens := 130
              PromptTokensDetails := some { CachedTokens := 20 } }))
    (sampleChoice "" [] "stop") _ _ (by decide) rfl rfl rfl rfl rfl rfl rfl rfl rfl).trans
    (by decide)

/-! ## User messages are kept; unknown block types -/

theorem blockPart_none_text (b : AnthropicContentBlock) (h : blockPart b = none) :
    blockText b = none := by
  unfold blockPart at h
  unfold blockText
  by_cases h1 : b.Kind = "text"
  · simp only [h1, if_true] at h ⊢
    cases ht : b.Text with
    | none => rfl
    | some text => simp [ht] at h
  · by_cases h2 : b.Kind = "thinking"
    · simp only [h1, h2, if_true, if_false] at h ⊢
      cases ht : b.Thinking with
      | none => rfl
      | some text => simp [ht] at h
    · simp only [h1, h2, if_false]

theorem mapContentBlocks_withImage (blocks : List AnthropicContentBlock)
    (h : ∃ b ∈ blocks, b.Kind = "image") :
    mapContentBlocks blocks =
      { StringValue := none, Parts := blocks.filterMap blockPart } := by
  have hany : (blocks.any fun block => block.Kind == "image") = true := by
    rw [List.any_eq_true]
    obtain ⟨b, hb, hk⟩ := h
    exact ⟨b, hb, by simp [hk]⟩
  unfold mapContentBlocks
  simp only [hany]
  rfl

theorem mapContentBlocks_nothing (blocks : List AnthropicContentBlock)
    (h : ∀ b ∈ blocks, blockPart b = none) :
    mapContentBlocks blocks = { StringValue := none, Parts := [] } := by
  by_cases himage : ∃ b ∈ blocks, b.Kind = "image"
  · rw [mapContentBlocks_withImage blocks himage]
    have : blocks.filterMap blockPart = [] := by
      rw [List.filterMap_eq_nil_iff]
      exact h
    rw [this]
  · have hno : ∀ b ∈ blocks, b.Kind ≠ "image" := by
      intro b hb hk
      exact himage ⟨b, hb, hk⟩
    rw [mapContentBlocks_noImage blocks hno]
    have : blocks.filterMap blockText = [] := by
      rw [List.filterMap_eq_nil_iff]
      intro b hb
      exact blockPart_none_text b (h b hb)
    rw [this]
    rfl

theorem mapContentBlocks_skip (pre post : List AnthropicContentBlock)
    (b : AnthropicContentBlock)
    (h1 : b.Kind ≠ "text") (h2 : b.Kind ≠ "thinking") (h3 : b.Kind ≠ "image") :
    mapContentBlocks (pre ++ b :: post) = mapContentBlocks (pre ++ post) := by
  have hpart : blockPart b = none := by simp [blockPart, h1, h2, h3]
  have htext : blockText b = none := blockPart_none_text b hpart
  by_cases himage : ∃ x ∈ pre ++ post, x.Kind = "image"
  · have himage2 : ∃ x ∈ pre ++ b :: post, x.Kind = "image" := by
      obtain ⟨x, hx, hk⟩ := himage
      refine ⟨x, ?_, hk⟩
      rcases List.mem_append.mp hx with hx | hx
      · exact List.mem_append.mpr (Or.inl hx)
      · exact List.mem_append.mpr (Or.inr (List.mem_cons_of_mem _ hx))
    rw [mapContentBlocks_withImage _ himage, mapContentBlocks_withImage _ himage2]
    simp [List.filterMap_append, List.filterMap_cons, hpart]
  · have hno : ∀ x ∈ pre ++ post, x.Kind ≠ "image" := by
      intro x hx hk
      exact himage ⟨x, hx, hk⟩
    have hno2 : ∀ x ∈ pre ++ b :: post, x.Kind ≠ "image" := by
      intro x hx
      rcases List.mem_append.mp hx with hx | hx
      · exact hno x (List.mem_append.mpr (Or.inl hx))
      · rcases List.mem_cons.mp hx with hx | hx
        · rw [hx]; exact h3
        · exact hno x (List.mem_append.mpr (Or.inr hx))
    rw [mapContentBlocks_noImage _ hno, mapContentBlocks_noImage _ hno2]
    simp [List.filterMap_append, List.filterMap_cons, htext]

theorem splitToolResults_noToolResult (json : JSONReparse)
    (blocks : List AnthropicContentBlock) :
    ∀ pending : List AnthropicContentBlock,
      (∀ b ∈ blocks, b.AsToolResult = none) →
      splitToolResults json pending blocks = .ok (flushPending (pending ++ blocks)) := by
  induction blocks with
  | nil => intro pending _; simp [splitToolResults]
  | cons b rest ih =>
    intro pending h
    have hb := h b (List.mem_cons_self _ _)
    have hrest : ∀ x ∈ rest, x.AsToolResult = none :=
      fun x hx => h x (List.mem_cons_of_mem _ hx)
    unfold splitToolResults
    simp only [hb]
    rw [ih (pending ++ [b]) hrest]
    simp

/-- C31, counterexample.  A user message whose only block is a `thinking`
block holds no text, image or tool_result block, yet its upstream message has
the thinking text as string content, not empty content. -/
theorem C31_counterexample :
    handleUserMessage rejectAll (blocksMessage "user" [thinkingBlock "hmm"]) =
      .ok [userMessage { StringValue := some "hmm", Parts := [] }] ∧
    (∀ b ∈ [thinkingBlock "hmm"],
      b.Kind ≠ "text" ∧ b.Kind ≠ "image" ∧ b.Kind ≠ "tool_result") := by
  refine ⟨rfl, ?_⟩
  intro b hb
  simp only [List.mem_singleton] at hb
  subst hb
  decide

/-- C31, amended.  A user message is never dropped: for every user message on
which conversion succeeds, `handleUserMessage` returns at least one upstream
message and every returned message has role "user" or "tool"; when the block
list is empty, or holds no block that carries a text, a thinking text, an
image source or a tool result (so in particular when all its blocks have
types other than "text", "thinking", "image" and "tool_result"), the result
is exactly one message with role "user" whose content is empty, neither
string nor parts. -/
theorem C31_user_message_kept (json : JSONReparse) (message : AnthropicMessage) :
    (∀ msgs, handleUserMessage json message = .ok msgs →
      msgs ≠ [] ∧ ∀ m ∈ msgs, m.Role = "user" ∨ m.Role = "tool") ∧
    (message.Content.String = none →
      (∀ b ∈ message.Content.Blocks, b.AsToolResult = none ∧ blockPart b = none) →
      handleUserMessage json message =
        .ok [{ Role := "user", Content := { StringValue := none, Parts := [] }
               Name := none, ToolCalls := [], ToolCallID := none }]) ∧
    (∀ b : AnthropicContentBlock, b.Kind ≠ "text" → b.Kind ≠ "thinking" →
      b.Kind ≠ "image" → b.Kind ≠ "tool_result" →
      b.AsToolResult = none ∧ blockPart b = none) := by
  refine ⟨?_, ?_, ?_⟩
  · intro msgs h
    refine ⟨?_, handleUserMessage_role json message msgs h⟩
    cases hs : message.Content.String with
    | some text =>
      unfold handleUserMessage at h
      simp only [hs, Except.ok.injEq] at h
      subst h
      simp
    | none =>
      rw [handleUserMessage_split json message hs] at h
      cases hp : splitToolResults json [] message.Content.Blocks with
      | error err => simp [hp, Except.map] at h
      | ok parts =>
        simp only [hp, Except.map, Except.ok.injEq] at h
        subst h
        split
        · simp
        · rename_i hlen
          intro hnil
          apply hlen
          rw [hnil]; rfl
  · intro hs hblocks
    rw [handleUserMessage_split json message hs,
      splitToolResults_noToolResult json _ [] (fun b hb => (hblocks b hb).1)]
    simp only [List.nil_append, Except.map]
    cases hb : message.Content.Blocks with
    | nil => simp [flushPending, userMessage]
    | cons b rest =>
      have hnothing := mapContentBlocks_nothing message.Content.Blocks
        (fun x hx => (hblocks x hx).2)
      rw [hb] at hnothing
      simp [flushPending, hnothing, userMessage]
  · intro b h1 h2 h3 h4
    exact ⟨by simp [AnthropicContentBlockOf.AsToolResult, h4],
      by simp [blockPart, h1, h2, h3]⟩

theorem C31_user_message_kept_witness :
    handleUserMessage rejectAll
        (blocksMessage "user" [toolUseBlock "toolu_1" "f" none]) =
      .ok [{ Role := "user", Content := { StringValue := none, Parts := [] }
             Name := none, ToolCalls := [], ToolCallID := none }] :=
  (C31_user_message_kept rejectAll
    (blocksMessage "user" [toolUseBlock "toolu_1" "f" none])).2.1 rfl
    (by
      intro b hb
      simp only [blocksMessage, List.mem_singleton] at hb
      subst hb
      exact ⟨rfl, rfl⟩)

/-- C38.  Unknown content-block types degrade gracefully: for every JSON
object whose "type" decodes to a string other than "text", "image",
"tool_result", "tool_use" and "thinking", or is missing (the type is then the
empty string), `AnthropicContentBlock.UnmarshalJSON` succeeds, keeps the
type, and passes through only a "text" member that decodes as a string and a
"source" member that is present and decodes as an image source, every other
field being left absent; and `mapContentBlocks` (which has no error result)
gives for a block list containing such a block what it gives without it. -/
theorem C38_unknown_block_type (json : BlockDecoders) (data : String)
    (raw : List (String × String)) (kind : String)
    (hobject : json.decodeObject data = .ok raw)
    (htype : (∃ t, rawLookup raw "type" = some t ∧ json.decodeString (some t) = .ok kind) ∨
      (rawLookup raw "type" = none ∧ kind = ""))
    (hunknown : kind ∉ knownBlockTypes) :
    ∃ b, AnthropicContentBlock.UnmarshalJSON json data = .ok b ∧
      b.Kind = kind ∧
      (∀ text, b.Text = some text ↔ json.decodeString (rawLookup raw "text") = .ok text) ∧
      (∀ source, b.Source = some source ↔
        ∃ sourceRaw, rawLookup raw "source" = some sourceRaw ∧
          json.decodeSource (some sourceRaw) = .ok source) ∧
      b.ToolUseID = none ∧ b.Content = GoValue.nil ∧ b.IsError = none ∧ b.ID = none ∧
      b.Name = none ∧ b.Input = none ∧ b.Thinking = none ∧ b.Signature = none ∧
      (∀ pre post : List AnthropicContentBlock,
        mapContentBlocks (pre ++ b :: post) = mapContentBlocks (pre ++ post)) := by
  have h1 : kind ≠ "text" := fun h => hunknown (by rw [h]; decide)
  have h2 : kind ≠ "image" := fun h => hunknown (by rw [h]; decide)
  have h3 : kind ≠ "tool_result" := fun h => hunknown (by rw [h]; decide)
  have h4 : kind ≠ "tool_use" := fun h => hunknown (by rw [h]; decide)
  have h5 : kind ≠ "thinking" := fun h => hunknown (by rw [h]; decide)
  have hkind : (match rawLookup raw "type" with
      | some t => json.decodeString (some t)
      | none => (.ok "" : Except String String)) = .ok kind := by
    rcases htype with ⟨t, ht, hd⟩ | ⟨ht, hk⟩
    · simp only [ht, hd]
    · simp only [ht, hk]
  refine ⟨{ zeroContentBlock kind with
            Text := match json.decodeString (rawLookup raw "text") with
              | .ok value => some value
              | .error _ => none
            Source := match rawLookup raw "source" with
              | some sourceRaw =>
                match json.decodeSource (some sourceRaw) with
                | .ok value => some value
                | .error _ => none
              | none => none }, ?_, rfl, ?_, ?_, rfl, rfl, rfl, rfl, rfl, rfl, rfl, rfl, ?_⟩
  · unfold AnthropicContentBlock.UnmarshalJSON
    simp only [hobject, hkind, if_neg h1, if_neg h2, if_neg h3, if_neg h4, if_neg h5]
  · intro text
    cases hd : json.decodeString (rawLookup raw "text") with
    | error err => simp
    | ok value => simp
  · intro source
    cases hs : rawLookup raw "source" with
    | none => simp
    | some sourceRaw =>
      cases hd : json.decodeSource (some sourceRaw) with
      | error err => simp [hd]
      | ok value => simp [hd]
  · intro pre post
    exact mapContentBlocks_skip pre post _ h1 h5 h2

theorem C38_unknown_block_type_witness :
    AnthropicContentBlock.UnmarshalJSON sampleBlockDecoders
        "\x7b\x22type\x22:\x22audio\x22,\x22text\x22:\x22hi\x22,\x22id\x22:\x22x\x22\x7d" =
      .ok { zeroContentBlock "audio" with Text := some "hi" } ∧
    ∃ b, AnthropicContentBlock.UnmarshalJSON sampleBlockDecoders
        "\x7b\x22type\x22:\x22audio\x22,\x22text\x22:\x22hi\x22,\x22id\x22:\x22x\x22\x7d" =
        .ok b ∧ b.Kind = "audio" ∧ b.ID = none :=
  ⟨rfl,
    (C38_unknown_block_type sampleBlockDecoders
      "\x7b\x22type\x22:\x22audio\x22,\x22text\x22:\x22hi\x22,\x22id\x22:\x22x\x22\x7d"
      [("type", "\x22audio\x22"), ("text", "\x22hi\x22"), ("id", "\x22x\x22")] "audio"
      rfl (Or.inl ⟨"\x22audio\x22", rfl, rfl⟩) (by decide)).imp
      (fun _ h => ⟨h.1, h.2.1, h.2.2.2.2.2.2.2.1⟩)⟩

end CopilotGo
